import Mathlib

/-!
# FallingPuzzleNeatAI: board engine, turns, action codec and simulation runs

A shallow embedding of `src/js/block.js`, `src/js/board.js`, the turn logic of
`src/js/game.js`, `src/js/ai-interface.js` and `runGameInstance` of
`src/js/training-manager.js`.

Conventions of the embedding.

* A `Block` is the record of the four fields of the JavaScript object. Columns
  and rows are `Int` (the raise decrements a row, a move may be asked for column
  `-1`), width and id are `Nat`.
* The JavaScript code mutates block objects through references. A reference to a
  block of a board is its position in `Board.blocks`; `dropBlock` and
  `moveBlock` take that position and overwrite the entry, and the selected block
  of a game is a position.
* `Math.floor (Math.random () * k)` is a draw `r % k` from a stream of naturals
  carried, together with the static counter `Block.nextId`, in `Sys`. Two boards
  of one page share one `Sys`.
* Network outputs, features and fitness are rationals: `0.25` is `1/4` and `0.1`
  is `1/10`.
* A genome is a state and a function `activate` from state and inputs to outputs
  and next state.
* `async` functions are run to completion; drawing, logging and delays are left
  out.
* `while` loops whose trip count is not known beforehand run on fuel; the fuel
  given to `applyGravity` is proved sufficient (`gravityLoop_stable`), and so is
  the fuel of the run loop (`runLoop_exit`).
-/

namespace FallingPuzzle

/-! ## block.js -/

/-- The fields of a `Block` object: column, row, width in cells, identity. -/
structure Block where
  x : Int
  y : Int
  width : Nat
  id : Nat
deriving DecidableEq, Repr

/-- `occupies(col, row)`: `this.y === row && col >= this.x && col < this.x + this.width`. -/
def Block.occupies (b : Block) (col row : Int) : Bool :=
  decide (b.y = row) && decide (col ≥ b.x) && decide (col < b.x + b.width)

/-! ## Global state: `Block.nextId` and `Math.random` -/

/-- The static counter `Block.nextId` and the stream behind `Math.random`. -/
structure Sys where
  nextId : Nat
  draws : Nat → Nat
  cursor : Nat

/-- `Math.floor(Math.random() * k)`: the next draw, reduced to `0 .. k-1`. -/
def Sys.randomBelow (s : Sys) (k : Nat) : Nat × Sys :=
  (s.draws s.cursor % k, { s with cursor := s.cursor + 1 })

/-- `new Block(x, y, width)`: takes `Block.nextId` as id and increments it. -/
def Sys.newBlock (s : Sys) (x y : Int) (width : Nat) : Block × Sys :=
  ({ x := x, y := y, width := width, id := s.nextId }, { s with nextId := s.nextId + 1 })

/-! ## board.js -/

/-- The `blocks` array of a `Board`; `cols` and `rows` are the constants below. -/
structure Board where
  blocks : List Block
deriving DecidableEq, Repr

/-- `this.cols = 8`. -/
def Board.cols : Int := 8

/-- `this.rows = 11` (rows 0-9 playable, row 10 the preview row). -/
def Board.rows : Int := 11

/-- The columns `x, x+1, .., x+width-1` visited by `for (col = x; col < x + width; col++)`. -/
def spanCols (x : Int) (width : Nat) : List Int :=
  (List.range width).map (fun (k : Nat) => x + (k : Int))

/-- `getBlockAt(col, row)`: `this.blocks.find(b => b.occupies(col, row))`. -/
def Board.getBlockAt (b : Board) (col row : Int) : Option Block :=
  b.blocks.find? (fun p => p.occupies col row)

/-- `canPlaceBlock(x, y, width)`. -/
def Board.canPlaceBlock (b : Board) (x y : Int) (width : Nat) : Bool :=
  if x < 0 ∨ x + (width : Int) > Board.cols ∨ y < 0 ∨ y > 10 then false
  else (spanCols x width).all (fun col => (b.getBlockAt col y).isNone)

/-- The test of the collision loops of `canMoveBlock` and `dropBlock`: the cell is
fine unless `otherBlock && otherBlock.id !== block.id`. -/
def Board.cellFreeFor (b : Board) (block : Block) (col row : Int) : Bool :=
  match b.getBlockAt col row with
  | some otherBlock => decide (otherBlock.id = block.id)
  | none => true

/-- `canMoveBlock(block, newX)`. -/
def Board.canMoveBlock (b : Board) (block : Block) (newX : Int) : Bool :=
  if newX < 0 ∨ newX + (block.width : Int) > Board.cols then false
  else (spanCols newX block.width).all (fun col => b.cellFreeFor block col block.y)

/-- `moveBlock(block, newX)`: `block.x = newX`, for the block at position `i`. -/
def Board.moveBlock (b : Board) (i : Nat) (newX : Int) : Board :=
  match b.blocks[i]? with
  | none => b
  | some block => { blocks := b.blocks.set i { block with x := newX } }

/-- The inner loop of `dropBlock` for one row `y`: `canFit`. -/
def Board.canFit (b : Board) (block : Block) (y : Int) : Bool :=
  (spanCols block.x block.width).all (fun col => b.cellFreeFor block col y)

/-- The outer loop of `dropBlock`, `for (y = block.y + 1; y < 10; y++)`, with `n`
rows left to visit, the next row `y` and the current `targetY`. -/
def Board.dropScan (b : Board) (block : Block) : Nat → Int → Int → Int
  | 0, _, targetY => targetY
  | n + 1, y, targetY =>
    if b.canFit block y then Board.dropScan b block n (y + 1) y else targetY

/-- The `targetY` computed by `dropBlock`: rows `block.y + 1 .. 9` are scanned. -/
def Board.dropTarget (b : Board) (block : Block) : Int :=
  b.dropScan block (10 - (block.y + 1)).toNat (block.y + 1) block.y

/-- `dropBlock(block)` for the block at position `i`: the new board and `moved`. -/
def Board.dropBlock (b : Board) (i : Nat) : Board × Bool :=
  match b.blocks[i]? with
  | none => (b, false)
  | some block =>
    let targetY := b.dropTarget block
    ({ blocks := b.blocks.set i { block with y := targetY } }, decide (targetY ≠ block.y))

/-- Row of the block at position `i` (0 for a position outside the array). -/
def Board.rowAt (b : Board) (i : Nat) : Int :=
  match b.blocks[i]? with
  | some block => block.y
  | none => 0

/-- `this.blocks.filter(b => b.y < 10).sort((a, b) => b.y - a.y)`, as positions:
the playable blocks, bottom row first, ties in array order (the sort is stable). -/
def Board.sortedBlocks (b : Board) : List Nat :=
  ((List.range b.blocks.length).filter (fun (i : Nat) => decide (b.rowAt i < 10))).insertionSort
    (fun (i j : Nat) => b.rowAt j ≤ b.rowAt i)

/-- One step of `for (const block of sortedBlocks)`. -/
def Board.gravityStep (st : Board × Bool) (i : Nat) : Board × Bool :=
  ((st.1.dropBlock i).1, st.2 || (st.1.dropBlock i).2)

/-- One iteration of the `while (anyMoved)` loop of `applyGravity`: the board
after the pass and the flag `anyMoved`. -/
def Board.gravityPass (b : Board) : Board × Bool :=
  (b.sortedBlocks).foldl Board.gravityStep (b, false)

/-- The `while (anyMoved)` loop of `applyGravity`, on fuel. -/
def Board.gravityLoop : Nat → Board → Board
  | 0, b => b
  | n + 1, b =>
    if (b.gravityPass).2 then Board.gravityLoop n (b.gravityPass).1 else (b.gravityPass).1

/-- Total number of rows the blocks above row 9 are away from row 9. -/
def Board.slack (b : Board) : Nat :=
  (b.blocks.map (fun p => (9 - p.y).toNat)).sum

/-- `applyGravity()`. A pass that moves a block lowers `slack`, so `slack + 1`
passes reach the pass that moves nothing. -/
def Board.applyGravity (b : Board) : Board :=
  Board.gravityLoop (b.slack + 1) b

/-- `getPlayableBlocks()` (the later of the two definitions): `b.y < 10`. -/
def Board.getPlayableBlocks (b : Board) : List Block :=
  b.blocks.filter (fun p => decide (p.y < 10))

/-- The inner loop of `checkCompleteLines`: the number of filled cells of a row. -/
def Board.filledCount (b : Board) (row : Int) : Nat :=
  (List.range 8).foldl
    (fun (filled col : Nat) => if (b.getBlockAt (col : Int) row).isSome then filled + 1 else filled)
    0

/-- `checkCompleteLines()`: rows `0 .. 9` with `filled === this.cols`. -/
def Board.checkCompleteLines (b : Board) : List Int :=
  ((List.range 10).filter (fun (row : Nat) => decide (b.filledCount (row : Int) = 8))).map
    (fun (row : Nat) => (row : Int))

/-- The loop `for (const row of rows) this.blocks = this.blocks.filter(b => b.y !== row)`. -/
def Board.removeRows (b : Board) (rows : List Int) : Board :=
  rows.foldl (fun acc row => { blocks := acc.blocks.filter (fun p => decide (p.y ≠ row)) }) b

/-- `clearLines(rows)`. -/
def Board.clearLines (b : Board) (rows : List Int) : Board :=
  if rows.length = 0 then b else (b.removeRows rows).applyGravity

/-- The attempt loop of `generatePreviewBlocks` for one block of the given width,
with `n` attempts left. -/
def Board.previewAttempts (width : Nat) : Nat → Board → Sys → Board × Sys
  | 0, b, s => (b, s)
  | n + 1, b, s =>
    let x : Int := ((s.randomBelow (8 - width + 1)).1 : Int)
    let s1 := (s.randomBelow (8 - width + 1)).2
    if b.canPlaceBlock x 10 width then
      ({ blocks := b.blocks ++ [(s1.newBlock x 10 width).1] }, (s1.newBlock x 10 width).2)
    else Board.previewAttempts width n b s1

/-- The loop `for (i = 0; i < numBlocks; i++)` of `generatePreviewBlocks`. -/
def Board.previewLoop : Nat → Board → Sys → Board × Sys
  | 0, b, s => (b, s)
  | n + 1, b, s =>
    let width := (s.randomBelow 4).1 + 1
    let r := Board.previewAttempts width 20 b (s.randomBelow 4).2
    Board.previewLoop n r.1 r.2

/-- `generatePreviewBlocks()`. -/
def Board.generatePreviewBlocks (b : Board) (s : Sys) : Board × Sys :=
  let b0 : Board := { blocks := b.blocks.filter (fun p => decide (p.y ≠ 10)) }
  let numBlocks := 2 + (s.randomBelow 3).1
  Board.previewLoop numBlocks b0 (s.randomBelow 3).2

/-! ## game.js: score and raise -/

/-- `this.BASE_SCORE = 100`. -/
def BASE_SCORE : Nat := 100

/-- `calculateScore(linesCleared)`: `total += BASE_SCORE * Math.pow(2, i)` for
`i = 0 .. linesCleared - 1`. -/
def calculateScore (linesCleared : Nat) : Nat :=
  (List.range linesCleared).foldl (fun total i => total + BASE_SCORE * 2 ^ i) 0

/-- `this.board.blocks.some(b => b.y === 0 && b.y < 10)`. -/
def hasBlockAtTop (b : Board) : Bool :=
  b.blocks.any (fun p => decide (p.y = 0) && decide (p.y < 10))

/-- The body of the shift loop of the raise, for one block:
`if (block.y < 10) block.y--; else if (block.y === 10) block.y = 9;`. -/
def raiseBlock (p : Block) : Block :=
  if p.y < 10 then { p with y := p.y - 1 }
  else if p.y = 10 then { p with y := 9 }
  else p

/-- The shift loop of the raise over all blocks. -/
def raiseShift (b : Board) : Board :=
  { blocks := b.blocks.map raiseBlock }

/-- `instantRaiseBlocks()`: the board, the global state and the returned flag. -/
def instantRaiseBlocks (b : Board) (s : Sys) : Board × Sys × Bool :=
  if hasBlockAtTop b then (b, s, false)
  else
    let r := ((raiseShift b).applyGravity).generatePreviewBlocks s
    (r.1, r.2, true)

/-- `animateRaiseBlocks()` without its drawing: check, shift, new preview row. -/
def animateRaiseBlocks (b : Board) (s : Sys) : Board × Sys × Bool :=
  if hasBlockAtTop b then (b, s, false)
  else
    let r := (raiseShift b).generatePreviewBlocks s
    (r.1, r.2, true)

/-! ## ai-interface.js: feature encoding -/

/-- The value pushed for one cell by `getBoardState`: `0` or `block.width * 0.25`. -/
def cellValue (b : Board) (col row : Nat) : ℚ :=
  match b.getBlockAt (col : Int) (row : Int) with
  | none => 0
  | some block => (block.width : ℚ) * (1 / 4)

/-- `getBoardState(board)`: rows `0 .. 10`, in each row columns `0 .. 7`. -/
def getBoardState (b : Board) : List ℚ :=
  (List.range 11).flatMap
    (fun (row : Nat) => (List.range 8).map (fun (col : Nat) => cellValue b col row))

/-! ## Board predicates used by the statements -/

/-- Two blocks share a cell. -/
def Block.overlaps (p q : Block) : Prop :=
  ∃ col row : Int, p.occupies col row = true ∧ q.occupies col row = true

/-- No two blocks of the board (two entries of `blocks`) share a cell. -/
def Board.NonOverlap (b : Board) : Prop :=
  b.blocks.Pairwise (fun p q => ¬ p.overlaps q)

/-- The ids of the blocks of the board are pairwise different. -/
def Board.UniqueIds (b : Board) : Prop :=
  (b.blocks.map Block.id).Nodup

instance (b : Board) : Decidable b.UniqueIds := by
  unfold Board.UniqueIds; infer_instance

/-- Blocks with different ids share no cell: non-overlap as the collision tests of
`canMoveBlock` and `dropBlock` see it. -/
def Board.NoClash (b : Board) : Prop :=
  ∀ p ∈ b.blocks, ∀ q ∈ b.blocks, p.id ≠ q.id →
    ∀ c r : Int, ¬ (p.occupies c r = true ∧ q.occupies c r = true)

/-- A small board: two playable pieces and one piece in the preview row. -/
def sampleBoard : Board :=
  ⟨[⟨0, 5, 2, 1⟩, ⟨1, 3, 2, 2⟩, ⟨0, 10, 3, 3⟩]⟩

/-- A source of draws for examples: the draws are 0, 1, 2, .. and the next id is 4. -/
def sampleSys : Sys :=
  ⟨4, fun n => n, 0⟩

/-! ## board.js: construction -/

/-- The loop of `generateInitialBlocks`, with `n` blocks left to try. -/
def Board.initialLoop : Nat → Board → Sys → Board × Sys
  | 0, b, s => (b, s)
  | n + 1, b, s =>
    let width := (s.randomBelow 4).1 + 1
    let s1 := (s.randomBelow 4).2
    let x : Int := ((s1.randomBelow (8 - width + 1)).1 : Int)
    let s2 := (s1.randomBelow (8 - width + 1)).2
    let y : Int := 5 + ((s2.randomBelow 5).1 : Int)
    let s3 := (s2.randomBelow 5).2
    if b.canPlaceBlock x y width then
      Board.initialLoop n { blocks := b.blocks ++ [(s3.newBlock x y width).1] }
        (s3.newBlock x y width).2
    else Board.initialLoop n b s3

/-- `generateInitialBlocks()`: 8 to 12 tries. -/
def Board.generateInitialBlocks (b : Board) (s : Sys) : Board × Sys :=
  Board.initialLoop (8 + (s.randomBelow 5).1) b (s.randomBelow 5).2

/-- `init()`, which is also what `new Board()` runs: `blocks = []`,
`Block.nextId = 1`, initial blocks, gravity, preview row. -/
def Board.init (s : Sys) : Board × Sys :=
  let r := Board.generateInitialBlocks { blocks := [] } { s with nextId := 1 }
  (r.1.applyGravity).generatePreviewBlocks r.2

/-! ## ai-interface.js: action decoding and fitness -/

/-- The loop of `argmax` from index `i` on, with the current `maxIdx` and `maxVal`. -/
def argmaxLoop : List ℚ → Nat → Nat → ℚ → Nat
  | [], _, maxIdx, _ => maxIdx
  | a :: rest, i, maxIdx, maxVal =>
    if a > maxVal then argmaxLoop rest (i + 1) i a else argmaxLoop rest (i + 1) maxIdx maxVal

/-- `argmax(array)`: 0 for the empty array, else the loop started at index 1. -/
def argmax : List ℚ → Nat
  | [] => 0
  | a :: rest => argmaxLoop rest 1 0 a

/-- `array.slice(start, end)` for `0 ≤ start ≤ end`. -/
def slice (array : List ℚ) (start stop : Nat) : List ℚ :=
  (array.drop start).take (stop - start)

/-- The object `{ col, row }` of an action. -/
structure SelectPos where
  col : Nat
  row : Nat
deriving DecidableEq, Repr

/-- The object returned by `parseAction`. -/
structure Action where
  selectPos : SelectPos
  targetCol : Nat
deriving DecidableEq, Repr

/-- `parseAction(outputs)`: slices `(0, 8)`, `(8, 18)` and `(18, 26)`. -/
def parseAction (outputs : List ℚ) : Action :=
  { selectPos := { col := argmax (slice outputs 0 8), row := argmax (slice outputs 8 18) },
    targetCol := argmax (slice outputs 18 26) }

/-! ## game.js: the game object and a turn -/

/-- The values of `game.state`. -/
inductive GameState where
  | menu
  | playing
  | paused
  | gameover
deriving DecidableEq, Repr

/-- The fields of a `Game` that the turn logic reads or writes. `selectedBlock` is a
reference to a block of the board, that is its position in `board.blocks`;
`moveCount` is the field that `runGameInstance` adds (`none`: unset). -/
structure Game where
  board : Board
  state : GameState
  score : Int
  highScore : Int
  selectedBlock : Option Nat
  selectedBlockOriginalX : Option Int
  isAnimating : Bool
  skipAnimations : Bool
  moveCount : Option Nat
deriving DecidableEq, Repr

/-- `getFitness(game)`: `score + 1`, times `0.1` if `(game.moveCount || 0) < 5`,
then `Math.max(0, fitness)`. -/
def getFitness (g : Game) : ℚ :=
  let fitness : ℚ := (g.score : ℚ) + 1
  max 0 (if g.moveCount.getD 0 < 5 then fitness * (1 / 10) else fitness)

/-- `gameOver()`: the state, and the high score outside training. -/
def Game.gameOver (g : Game) : Game :=
  if !g.skipAnimations && decide (g.score > g.highScore) then
    { g with state := GameState.gameover, highScore := g.score }
  else { g with state := GameState.gameover }

/-- `selectBlock(block)` for the block at position `i`. -/
def Game.selectBlock (g : Game) (i : Nat) : Game :=
  match g.board.blocks[i]? with
  | none => g
  | some block => { g with selectedBlock := some i, selectedBlockOriginalX := some block.x }

/-- `moveSelectedBlock(direction)`. -/
def Game.moveSelectedBlock (g : Game) (direction : Int) : Game :=
  match g.selectedBlock with
  | none => g
  | some i =>
    if g.isAnimating then g
    else
      match g.board.blocks[i]? with
      | none => g
      | some block =>
        if g.board.canMoveBlock block (block.x + direction) then
          { g with board := g.board.moveBlock i (block.x + direction) }
        else g

/-- The first half of an accepted `confirmMove`: gravity, then score and clear of
the complete lines if there are any. -/
def Game.settleAndClear (g : Game) : Game :=
  let b1 := g.board.applyGravity
  let completeLines := b1.checkCompleteLines
  if completeLines.length > 0 then
    { g with score := g.score + (calculateScore completeLines.length : Int),
             board := b1.clearLines completeLines }
  else { g with board := b1 }

/-- The part of `confirmMove` after a successful raise: gravity, then score, clear
and gravity again if there are complete lines. -/
def Game.afterRaise (g : Game) : Game :=
  let b3 := g.board.applyGravity
  let postRaiseLines := b3.checkCompleteLines
  if postRaiseLines.length > 0 then
    { g with score := g.score + (calculateScore postRaiseLines.length : Int),
             board := (b3.clearLines postRaiseLines).applyGravity }
  else { g with board := b3 }

/-- The accepted part of `confirmMove`, from `this.isAnimating = true` on, the
drawing and the delays left out: gravity and clear, the raise (instant in
training, animated otherwise), then game over or gravity and clear again. -/
def Game.resolveTurn (g : Game) (s : Sys) : Game × Sys :=
  let g1 := g.settleAndClear
  let r := if g.skipAnimations then instantRaiseBlocks g1.board s
    else animateRaiseBlocks g1.board s
  if !r.2.2 then (Game.gameOver { g1 with board := r.1 }, r.2.1)
  else ({ Game.afterRaise { g1 with board := r.1 } with isAnimating := false }, r.2.1)

/-- `confirmMove()`. A selection that is not a position of the board does not
occur (a selection is taken from the board and dropped before any block is
removed); the game is returned as it is then. -/
def Game.confirmMove (g : Game) (s : Sys) : Game × Sys :=
  match g.selectedBlock with
  | none => (g, s)
  | some i =>
    if g.isAnimating then (g, s)
    else
      match g.board.blocks[i]? with
      | none => (g, s)
      | some block =>
        if !g.skipAnimations && decide (g.selectedBlockOriginalX = some block.x) then
          ({ g with selectedBlock := none, selectedBlockOriginalX := none }, s)
        else
          Game.resolveTurn
            { g with isAnimating := true, selectedBlock := none,
                     selectedBlockOriginalX := none } s

/-- Positions of the blocks returned by `getPlayableBlocks()`. -/
def Board.playablePositions (b : Board) : List Nat :=
  (List.range b.blocks.length).filter (fun (i : Nat) => decide (b.rowAt i < 10))

/-- Position of the block returned by `getBlockAt(col, row)`. -/
def Board.positionAt (b : Board) (col row : Int) : Option Nat :=
  b.blocks.findIdx? (fun p => p.occupies col row)

/-- The move attempts of `performAIAction` for the selected block at position `i`:
the decoded target column, else one cell left, else one cell right. Returns the
board and `blockWasMoved`. -/
def Board.tryMoves (b : Board) (i : Nat) (block : Block) (targetCol : Nat) : Board × Bool :=
  if (targetCol : Int) < 8 ∧ (targetCol : Int) ≠ block.x ∧
      (targetCol : Int) + (block.width : Int) ≤ 8 ∧
      b.canMoveBlock block (targetCol : Int) = true then
    (b.moveBlock i (targetCol : Int), true)
  else if block.x > 0 ∧ b.canMoveBlock block (block.x - 1) = true then
    (b.moveBlock i (block.x - 1), true)
  else if block.x + (block.width : Int) < 8 ∧ b.canMoveBlock block (block.x + 1) = true then
    (b.moveBlock i (block.x + 1), true)
  else (b, false)

/-- The selection of `performAIAction`: the block at the decoded cell if the
decoded row is below 10 and a block is there, else a random playable block.
Returns the position of the block and the global state. -/
def Game.pickBlock (g : Game) (action : Action) (s : Sys) : Nat × Sys :=
  match (if action.selectPos.row < 10 then
      g.board.positionAt (action.selectPos.col : Int) (action.selectPos.row : Int)
    else none) with
  | some i => (i, s)
  | none =>
    (g.board.playablePositions.getD (s.randomBelow g.board.playablePositions.length).1 0,
      (s.randomBelow g.board.playablePositions.length).2)

/-- The rest of `performAIAction` once the block at position `i` is selected: the
move attempts, then `confirmMove` and `true` if the block was moved, else the
selection cleared and `false`. -/
def Game.moveAndConfirm (g : Game) (i : Nat) (targetCol : Nat) (s : Sys) : Game × Sys × Bool :=
  match g.board.blocks[i]? with
  | none => (g, s, false)
  | some block =>
    if (g.board.tryMoves i block targetCol).2 then
      ((Game.confirmMove
          { g with board := (g.board.tryMoves i block targetCol).1, selectedBlock := some i,
                   selectedBlockOriginalX := some block.x } s).1,
        (Game.confirmMove
          { g with board := (g.board.tryMoves i block targetCol).1, selectedBlock := some i,
                   selectedBlockOriginalX := some block.x } s).2, true)
    else ({ g with selectedBlock := none, selectedBlockOriginalX := none }, s, false)

/-- `performAIAction(action)`: the game, the global state and the returned flag. -/
def Game.performAIAction (g : Game) (action : Action) (s : Sys) : Game × Sys × Bool :=
  if g.state ≠ GameState.playing ∨ g.isAnimating = true then (g, s, false)
  else if g.board.playablePositions.length = 0 then (g, s, false)
  else Game.moveAndConfirm g (g.pickBlock action s).1 action.targetCol (g.pickBlock action s).2

/-! ## training-manager.js: one simulation -/

/-- The variables of the loop of `runGameInstance`: the game instance, the global
state, the state of the genome (a network may keep state between activations),
and the locals `moveCount` and `consecutiveFailures`. -/
structure RunState (σ : Type) where
  game : Game
  sys : Sys
  genome : σ
  moveCount : Nat
  consecutiveFailures : Nat

/-- The condition of the `while` loop of `runGameInstance`. -/
def RunState.continues {σ : Type} (st : RunState σ) : Bool :=
  decide (st.game.state = GameState.playing) && decide (st.moveCount < 500) &&
    decide (st.consecutiveFailures < 10)

/-- `turnProgressed`: `blocksAfter > blocksBefore || scoreAfter > scoreBefore`. -/
def turnProgressed (before after : Game) : Bool :=
  decide (after.board.blocks.length > before.board.blocks.length) ||
    decide (after.score > before.score)

/-- The body of the `while` loop of `runGameInstance`, logging and drawing left out.
`activate` is `genome.activate`: from the genome's state and the inputs to the
outputs and the genome's next state. -/
def runIteration {σ : Type} (activate : σ → List ℚ → List ℚ × σ) (st : RunState σ) :
    RunState σ :=
  let inputs := getBoardState st.game.board
  let outputs := (activate st.genome inputs).1
  let action := parseAction outputs
  let r := st.game.performAIAction action st.sys
  if !turnProgressed st.game r.1 then
    { game := r.1, sys := r.2.1, genome := (activate st.genome inputs).2,
      moveCount := st.moveCount + 1, consecutiveFailures := st.consecutiveFailures + 1 }
  else
    { game := { r.1 with moveCount := r.1.moveCount.map (fun n => n + 1) }, sys := r.2.1,
      genome := (activate st.genome inputs).2,
      moveCount := st.moveCount + 1, consecutiveFailures := 0 }

/-- The `while` loop of `runGameInstance`, on fuel. -/
def runLoop {σ : Type} (activate : σ → List ℚ → List ℚ × σ) : Nat → RunState σ → RunState σ
  | 0, st => st
  | fuel + 1, st =>
    if st.continues then runLoop activate fuel (runIteration activate st) else st

/-- The game instance that `runGameInstance` sets up: a new board, score 0,
`moveCount` 0, state `playing`, nothing selected. -/
def newGameInstance (skipAnimations : Bool) (s : Sys) : Game × Sys :=
  ({ board := (Board.init s).1, state := GameState.playing, score := 0, highScore := 0,
     selectedBlock := none, selectedBlockOriginalX := none, isAnimating := false,
     skipAnimations := skipAnimations, moveCount := some 0 }, (Board.init s).2)

/-- The state of `runGameInstance(genome, skipAnimations)` when its loop is left.
Every iteration adds one to `moveCount`, which starts at 0 and is tested against
500, so 500 units of fuel are never used up before the condition fails
(`runLoop_exit`). -/
def runGameFinal {σ : Type} (activate : σ → List ℚ → List ℚ × σ) (genome : σ)
    (skipAnimations : Bool) (s : Sys) : RunState σ :=
  runLoop activate 500
    { game := (newGameInstance skipAnimations s).1, sys := (newGameInstance skipAnimations s).2,
      genome := genome, moveCount := 0, consecutiveFailures := 0 }

/-- `runGameInstance(genome, skipAnimations)`: the fitness returned. -/
def runGameInstance {σ : Type} (activate : σ → List ℚ → List ℚ × σ) (genome : σ)
    (skipAnimations : Bool) (s : Sys) : ℚ :=
  getFitness (runGameFinal activate genome skipAnimations s).game

/-- A genome instrumented with a counter of its activations. -/
def countCalls {σ : Type} (activate : σ → List ℚ → List ℚ × σ) :
    σ × Nat → List ℚ → List ℚ × (σ × Nat) :=
  fun st inputs => ((activate st.1 inputs).1, ((activate st.1 inputs).2, st.2 + 1))

/-! ## Sample inputs -/

/-- A vector of 27 outputs: 1 at index 18, 2 at index 26, 0 elsewhere. -/
def outputs27 : List ℚ :=
  [0, 0, 0, 0, 0, 0, 0, 0, 0, 0, 0, 0, 0, 0, 0, 0, 0, 0, 1, 0, 0, 0, 0, 0, 0, 0, 2]

/-- The vector of `n` outputs that is 1 at the listed indices and 0 elsewhere. -/
def oneHot (n : Nat) (hot : List Nat) : List ℚ :=
  (List.range n).map (fun (i : Nat) => if i ∈ hot then 1 else 0)

/-- The global state in which every draw is 0: every generated block has width 1
and column 0, an initial board has one block, a preview row one block. -/
def zeroSys : Sys :=
  ⟨1, fun _ => 0, 0⟩

/-- A stateless genome with constant outputs: select the cell (0, 9), move to
column 1. -/
def constantGenome (_ : Unit) (_ : List ℚ) : List ℚ × Unit :=
  (oneHot 26 [0, 17, 19], ())

/-- A stateless genome: select the cell (0, 9) and move to column `k`, the number
of occupied cells of row 9 in the inputs, as long as `k < 6`; from then on to
column 1. -/
def stallAfterFive (_ : Unit) (inputs : List ℚ) : List ℚ × Unit :=
  (oneHot 26 [0, 17,
    18 + (if (slice inputs 72 80).countP (fun v => decide (v ≠ 0)) < 6 then
      (slice inputs 72 80).countP (fun v => decide (v ≠ 0)) else 1)], ())

/-- A settled board with a full column 0 and one more piece on the floor. -/
def towerBoard : Board :=
  ⟨[⟨0, 0, 1, 1⟩, ⟨0, 1, 1, 2⟩, ⟨0, 2, 1, 3⟩, ⟨0, 3, 1, 4⟩, ⟨0, 4, 1, 5⟩, ⟨0, 5, 1, 6⟩,
    ⟨0, 6, 1, 7⟩, ⟨0, 7, 1, 8⟩, ⟨0, 8, 1, 9⟩, ⟨0, 9, 1, 10⟩, ⟨3, 9, 1, 11⟩]⟩

/-- A headless game in play on `towerBoard`. -/
def towerGame : Game :=
  { board := towerBoard, state := GameState.playing, score := 0, highScore := 0,
    selectedBlock := none, selectedBlockOriginalX := none, isAnimating := false,
    skipAnimations := true, moveCount := some 0 }

/-- A stateless genome with constant outputs: select the cell (3, 9), move to
column 4. -/
def towerGenome (_ : Unit) (_ : List ℚ) : List ℚ × Unit :=
  (oneHot 26 [3, 17, 22], ())

/-- The loop state of a run at `towerGame`, three counted moves and no failure so
far. -/
def towerRun : RunState Unit :=
  { game := { towerGame with moveCount := some 3 }, sys := zeroSys, genome := (),
    moveCount := 3, consecutiveFailures := 0 }

/-- A game in interactive play on `sampleBoard` with the piece at position 0
selected and not moved. -/
def selectedGame : Game :=
  { board := sampleBoard, state := GameState.playing, score := 300, highScore := 700,
    selectedBlock := some 0, selectedBlockOriginalX := some 0, isAnimating := false,
    skipAnimations := false, moveCount := none }

/-- A headless game on `sampleBoard` with the piece at position 0 selected. -/
def headlessGame : Game :=
  { board := sampleBoard, state := GameState.playing, score := 300, highScore := 0,
    selectedBlock := some 0, selectedBlockOriginalX := some 0, isAnimating := false,
    skipAnimations := true, moveCount := some 7 }

/-- A headless game in play on a board where the piece at (0, 9) has a piece to its
right and the wall to its left. -/
def stalledGame : Game :=
  { board := ⟨[⟨1, 9, 1, 1⟩, ⟨0, 9, 1, 2⟩, ⟨0, 10, 1, 3⟩]⟩, state := GameState.playing,
    score := 0, highScore := 0, selectedBlock := none, selectedBlockOriginalX := none,
    isAnimating := false, skipAnimations := true, moveCount := some 1 }

/-- Two boards on the one counter `Block.nextId`: board A is constructed and raised
once, then board B is constructed, then A is raised. The result is A and the
global state. -/
def sharedCounterRaise : Board × Sys :=
  let a0 := Board.init zeroSys
  let a1 := instantRaiseBlocks a0.1 a0.2
  let b0 := Board.init a1.2.1
  let a2 := instantRaiseBlocks a1.1 b0.2
  (a2.1, a2.2.1)

/-- Board A of `sharedCounterRaise` raised once more. -/
def sharedCounterMerge : Board :=
  (instantRaiseBlocks sharedCounterRaise.1 sharedCounterRaise.2).1

/-- Board A of `sharedCounterRaise` after the shift of its next raise: the board on
which `instantRaiseBlocks` calls `applyGravity`. -/
def sharedCounterShift : Board :=
  raiseShift sharedCounterRaise.1

/-- A headless game in play on board A of `sharedCounterRaise`. -/
def sharedCounterGame : Game :=
  { board := sharedCounterRaise.1, state := GameState.playing, score := 0, highScore := 0,
    selectedBlock := none, selectedBlockOriginalX := none, isAnimating := false,
    skipAnimations := true, moveCount := some 0 }

/-- One turn of the agent on `sharedCounterGame`: select the cell (0, 9), move to
column 1. -/
def sharedCounterTurn : Game × Sys × Bool :=
  sharedCounterGame.performAIAction ⟨⟨0, 9⟩, 1⟩ sharedCounterRaise.2

/-- `q` is `p` after gravity: same id, column and width; a row from 10 on is kept,
a row up to 9 has not decreased and is still at most 9. -/
def Block.LoweredTo (p q : Block) : Prop :=
  q.id = p.id ∧ q.x = p.x ∧ q.width = p.width ∧ (10 ≤ p.y → q.y = p.y) ∧
    (p.y ≤ 9 → p.y ≤ q.y ∧ q.y ≤ 9)

/-- Position by position, `b'` is `b` after gravity. -/
def Board.LoweredTo (b b' : Board) : Prop :=
  b'.blocks.length = b.blocks.length ∧
    ∀ (i : Nat) (p : Block), b.blocks[i]? = some p →
      ∃ q, b'.blocks[i]? = some q ∧ p.LoweredTo q

/-- The sum of the rows of the playable pieces (`y < 10`). -/
def Board.playableRowSum (b : Board) : Int :=
  (b.getPlayableBlocks.map (fun p => p.y)).sum

/-- The piece lies inside the grid: width 1 to 4, columns within `0 .. 7`, row
within `0 .. 10`. -/
def Block.InGrid (p : Block) : Prop :=
  1 ≤ p.width ∧ p.width ≤ 4 ∧ 0 ≤ p.x ∧ p.x + (p.width : Int) ≤ 8 ∧ 0 ≤ p.y ∧ p.y ≤ 10

/-- Every piece of the board lies inside the grid. -/
def Board.InGrid (b : Board) : Prop :=
  ∀ p ∈ b.blocks, p.InGrid

/-- The boards reachable from `Board.init` by a horizontal move that `canMoveBlock`
accepts, `applyGravity`, `clearLines`, a successful raise (instant or animated)
and `generatePreviewBlocks`, whatever the random draws are. -/
inductive Board.Reachable : Board → Prop where
  | init (s : Sys) : Board.Reachable (Board.init s).1
  | move (b : Board) (i : Nat) (p : Block) (newX : Int) : Board.Reachable b →
      b.blocks[i]? = some p → b.canMoveBlock p newX = true →
      Board.Reachable (b.moveBlock i newX)
  | gravity (b : Board) : Board.Reachable b → Board.Reachable b.applyGravity
  | clear (b : Board) (rows : List Int) : Board.Reachable b →
      Board.Reachable (b.clearLines rows)
  | instantRaise (b : Board) (s : Sys) : Board.Reachable b →
      (instantRaiseBlocks b s).2.2 = true → Board.Reachable (instantRaiseBlocks b s).1
  | animateRaise (b : Board) (s : Sys) : Board.Reachable b →
      (animateRaiseBlocks b s).2.2 = true → Board.Reachable (animateRaiseBlocks b s).1
  | preview (b : Board) (s : Sys) : Board.Reachable b →
      Board.Reachable (b.generatePreviewBlocks s).1

/-- The piece at position `i` rests: it lies in row 9, or above row 9 with a cell
of the next row under its span occupied by a piece of another id whose position
is in `done`. -/
def Board.RestsOn (b : Board) (done : List Nat) (i : Nat) : Prop :=
  ∃ p, b.blocks[i]? = some p ∧
    (p.y = 9 ∨ (p.y < 9 ∧ ∃ (c : Int) (j : Nat) (o : Block), j ∈ done ∧
      b.blocks[j]? = some o ∧ p.x ≤ c ∧ c < p.x + (p.width : Int) ∧
      o.occupies c (p.y + 1) = true ∧ o.id ≠ p.id))

/-! ## neat-trainer.js: assigning fitness -/

/-- A member of `neat.population`: a network, known here by a tag, and its `score`
field (`none`: not set). -/
structure Network where
  tag : Nat
  score : Option ℚ
deriving DecidableEq, Repr

/-- The fields of a `NEATTrainer` that `evaluatePopulation` reads or writes, and the
lines written with `console.error`. -/
structure NEATTrainer where
  population : List Network
  generation : Nat
  bestFitness : Option ℚ
  avgFitness : Int
  bestGenome : Option Network
  errors : List String
deriving DecidableEq, Repr

/-- The loop `population[i].score = fitnessScores[i]` over the population. -/
def assignScores (population : List Network) (fitnessScores : List ℚ) : List Network :=
  List.zipWith (fun g f => { g with score := some f }) population fitnessScores

/-- `Math.round(x)`: the integer nearest to `x`, halves rounded up. -/
def mathRound (x : ℚ) : Int :=
  Rat.floor (x + 1 / 2)

/-- `evaluatePopulation(fitnessScores)`. `sort` is `neat.sort()` of the neataptic
library, which reorders the population. With an empty population
`this.bestGenome.score` throws after `bestGenome` is set to `undefined`; the
exception is recorded in `errors`. -/
def NEATTrainer.evaluatePopulation (sort : List Network → List Network) (t : NEATTrainer)
    (fitnessScores : List ℚ) : NEATTrainer :=
  if fitnessScores.length ≠ t.population.length then
    { t with errors := t.errors ++ ["Fitness scores length mismatch"] }
  else
    match (sort (assignScores t.population fitnessScores)).head? with
    | none =>
      { t with population := sort (assignScores t.population fitnessScores),
               bestGenome := none,
               errors := t.errors ++ ["TypeError"] }
    | some best =>
      { t with population := sort (assignScores t.population fitnessScores),
               bestGenome := some best,
               bestFitness := best.score,
               avgFitness := mathRound (fitnessScores.sum / (fitnessScores.length : ℚ)) }

/-- A trainer with three networks, scored in an earlier generation. -/
def sampleTrainer : NEATTrainer :=
  { population := [⟨1, some 5⟩, ⟨2, some 3⟩, ⟨3, none⟩], generation := 4,
    bestFitness := some 5, avgFitness := 4, bestGenome := some ⟨1, some 5⟩, errors := [] }

/-! ## Sample inputs of the later statements -/

/-- The loop state at `stalledGame` after one counted move. -/
def stalledRun : RunState Unit :=
  { game := stalledGame, sys := zeroSys, genome := (), moveCount := 1,
    consecutiveFailures := 0 }

/-- A headless game in play: the piece at (0, 9) has a piece right of it at (1, 9)
and free cells from column 2 on. -/
def jumpGame : Game :=
  { board := ⟨[⟨0, 9, 1, 1⟩, ⟨1, 9, 1, 2⟩, ⟨0, 10, 1, 3⟩]⟩, state := GameState.playing,
    score := 0, highScore := 0, selectedBlock := none, selectedBlockOriginalX := none,
    isAnimating := false, skipAnimations := true, moveCount := some 0 }

/-- A settled board with a preview row: row 9 has a hole at column 4, a piece of
width 2 lies over columns 3 and 4 in row 8 and a piece of width 1 on it in row 7. -/
def cascadeBoard : Board :=
  ⟨[⟨0, 9, 3, 1⟩, ⟨3, 9, 1, 2⟩, ⟨5, 9, 3, 3⟩, ⟨3, 8, 2, 4⟩, ⟨4, 7, 1, 5⟩,
    ⟨0, 10, 3, 6⟩, ⟨5, 10, 3, 7⟩]⟩

/-- A headless game in play on `cascadeBoard` with the piece at position 4
selected. -/
def cascadeGame : Game :=
  { board := cascadeBoard, state := GameState.playing,
    score := 0, highScore := 0, selectedBlock := some 4, selectedBlockOriginalX := some 4,
    isAnimating := false, skipAnimations := true, moveCount := some 0 }

/-- The global state with `Block.nextId = 8` in which every draw is 0. -/
def cascadeSys : Sys :=
  ⟨8, fun _ => 0, 0⟩

/-! ## Dropping one block -/

theorem dropScan_spec (b : Board) (blk : Block) :
    ∀ (n : Nat) (y t : Int),
      b.dropScan blk n y t = t ∨
        (y ≤ b.dropScan blk n y t ∧ b.dropScan blk n y t < y + n ∧
          b.canFit blk (b.dropScan blk n y t) = true) := by
  intro n
  induction n with
  | zero => intro y t; left; rfl
  | succ n ih =>
    intro y t
    unfold Board.dropScan
    by_cases hc : b.canFit blk y = true
    · rw [if_pos hc]
      right
      rcases ih (y + 1) y with h | ⟨h1, h2, h3⟩
      · rw [h]; refine ⟨le_refl _, ?_, hc⟩; push_cast; omega
      · refine ⟨by omega, ?_, h3⟩; push_cast; omega
    · rw [if_neg hc]; left; rfl

theorem dropScan_blocked (b : Board) (blk : Block) (n : Nat) (y t : Int) (ht : t < y)
    (h : b.dropScan blk (n + 1) y t = t) : b.canFit blk y = false := by
  unfold Board.dropScan at h
  by_cases hc : b.canFit blk y = true
  · rw [if_pos hc] at h
    rcases dropScan_spec b blk n (y + 1) y with h1 | ⟨h1, _, _⟩
    · rw [h1] at h; omega
    · rw [h] at h1; omega
  · simpa using hc

theorem dropTarget_spec (b : Board) (blk : Block) :
    b.dropTarget blk = blk.y ∨
      (blk.y < b.dropTarget blk ∧ b.dropTarget blk ≤ 9 ∧
        b.canFit blk (b.dropTarget blk) = true) := by
  unfold Board.dropTarget
  rcases dropScan_spec b blk (10 - (blk.y + 1)).toNat (blk.y + 1) blk.y with h | ⟨h1, h2, h3⟩
  · left; exact h
  · right; refine ⟨by omega, ?_, h3⟩; omega

theorem dropTarget_blocked (b : Board) (blk : Block) (hy : blk.y < 9)
    (h : b.dropTarget blk = blk.y) : b.canFit blk (blk.y + 1) = false := by
  unfold Board.dropTarget at h
  obtain ⟨n, hn⟩ : ∃ n, (10 - (blk.y + 1)).toNat = n + 1 :=
    ⟨(10 - (blk.y + 1)).toNat - 1, by omega⟩
  rw [hn] at h
  exact dropScan_blocked b blk n (blk.y + 1) blk.y (by omega) h

theorem sum_map_set (f : Block → Nat) :
    ∀ (l : List Block) (i : Nat) (p q : Block), l[i]? = some p →
      ((l.set i q).map f).sum + f p = (l.map f).sum + f q := by
  intro l
  induction l with
  | nil => intro i p q h; simp at h
  | cons a l ih =>
    intro i p q h
    cases i with
    | zero =>
      simp at h
      subst h
      simp [List.set]; omega
    | succ i =>
      simp at h
      have := ih i p q h
      simp only [List.set, List.map, List.sum_cons] at this ⊢; omega

theorem set_self :
    ∀ (l : List Block) (i : Nat) (p : Block), l[i]? = some p → l.set i p = l := by
  intro l
  induction l with
  | nil => intro i p h; simp at h
  | cons a l ih =>
    intro i p h
    cases i with
    | zero => simp at h; subst h; rfl
    | succ i => simp at h; simp [List.set, ih i p h]

theorem dropBlock_still (b : Board) (i : Nat) (h : (b.dropBlock i).2 = false) :
    (b.dropBlock i).1 = b := by
  unfold Board.dropBlock at h ⊢
  cases hb : b.blocks[i]? with
  | none => simp
  | some blk =>
    rw [hb] at h
    simp only [decide_eq_false_iff_not, ne_eq, not_not] at h
    simp only [h]
    have : ({ blk with y := blk.y } : Block) = blk := rfl
    rw [this, set_self _ _ _ hb]

theorem dropBlock_slack (b : Board) (i : Nat) :
    (b.dropBlock i).1.slack ≤ b.slack ∧
      ((b.dropBlock i).2 = true → (b.dropBlock i).1.slack < b.slack) := by
  unfold Board.dropBlock
  cases hb : b.blocks[i]? with
  | none => simp
  | some blk =>
    have hs := sum_map_set (fun p => (9 - p.y).toNat) b.blocks i blk
      { blk with y := b.dropTarget blk } hb
    simp only [Board.slack, decide_eq_true_eq, ne_eq]
    simp only at hs
    rcases dropTarget_spec b blk with h | ⟨h1, h2, _⟩
    · rw [h] at hs ⊢
      constructor
      · omega
      · intro hne; exact absurd rfl hne
    · constructor
      · omega
      · intro _; omega

/-! ## The gravity loop reaches a pass that moves nothing -/

theorem gravityFold_spec :
    ∀ (l : List Nat) (st : Board × Bool),
      (l.foldl Board.gravityStep st).1.slack ≤ st.1.slack ∧
      ((l.foldl Board.gravityStep st).2 = false →
        (l.foldl Board.gravityStep st).1 = st.1 ∧ st.2 = false ∧
          ∀ i ∈ l, (st.1.dropBlock i).2 = false) ∧
      ((l.foldl Board.gravityStep st).2 = true →
        st.2 = true ∨ (l.foldl Board.gravityStep st).1.slack < st.1.slack) := by
  intro l
  induction l with
  | nil =>
    intro st
    refine ⟨le_refl _, fun h => ⟨rfl, h, by simp⟩, fun h => Or.inl h⟩
  | cons a l ih =>
    intro st
    rw [List.foldl_cons]
    obtain ⟨h1, h2, h3⟩ := ih (Board.gravityStep st a)
    obtain ⟨d1, d2⟩ := dropBlock_slack st.1 a
    have e1 : (Board.gravityStep st a).1 = (st.1.dropBlock a).1 := rfl
    have e2 : (Board.gravityStep st a).2 = (st.2 || (st.1.dropBlock a).2) := rfl
    rw [e1] at h1 h2 h3
    rw [e2] at h2 h3
    refine ⟨le_trans h1 d1, ?_, ?_⟩
    · intro hf
      obtain ⟨g1, g2, g3⟩ := h2 hf
      rw [Bool.or_eq_false_iff] at g2
      have hs := dropBlock_still st.1 a g2.2
      rw [hs] at g1 g3
      refine ⟨g1, g2.1, ?_⟩
      intro i hi
      rcases List.mem_cons.1 hi with rfl | hi
      · exact g2.2
      · exact g3 i hi
    · intro ht
      rcases h3 ht with g | g
      · rw [Bool.or_eq_true] at g
        rcases g with g | g
        · exact Or.inl g
        · exact Or.inr (lt_of_le_of_lt h1 (d2 g))
      · exact Or.inr (lt_of_lt_of_le g d1)

theorem gravityPass_still (b : Board) (h : (b.gravityPass).2 = false) :
    b.gravityPass = (b, false) := by
  have := (gravityFold_spec b.sortedBlocks (b, false)).2.1 h
  exact Prod.ext this.1 h

theorem gravityPass_moved (b : Board) (h : (b.gravityPass).2 = true) :
    (b.gravityPass).1.slack < b.slack := by
  rcases (gravityFold_spec b.sortedBlocks (b, false)).2.2 h with g | g
  · exact absurd g (by simp)
  · exact g

theorem gravityPass_none_moves (b : Board) (h : (b.gravityPass).2 = false) :
    ∀ i ∈ b.sortedBlocks, (b.dropBlock i).2 = false :=
  ((gravityFold_spec b.sortedBlocks (b, false)).2.1 h).2.2

/-- With more fuel than `slack`, the loop ends on a pass that moves nothing. -/
theorem gravityLoop_stable :
    ∀ (n : Nat) (b : Board), b.slack < n →
      (Board.gravityLoop n b).gravityPass = (Board.gravityLoop n b, false) := by
  intro n
  induction n with
  | zero => intro b h; omega
  | succ n ih =>
    intro b h
    unfold Board.gravityLoop
    by_cases hm : (b.gravityPass).2 = true
    · rw [if_pos hm]
      exact ih _ (by have := gravityPass_moved b hm; omega)
    · rw [if_neg hm]
      have hm : (b.gravityPass).2 = false := by simpa using hm
      have hb := gravityPass_still b hm
      rw [hb]; exact hb

/-- The result of the loop does not depend on the fuel once it exceeds `slack`. -/
theorem gravityLoop_fuel :
    ∀ (n m : Nat) (b : Board), b.slack < n → b.slack < m →
      Board.gravityLoop n b = Board.gravityLoop m b := by
  intro n
  induction n with
  | zero => intro m b h; omega
  | succ n ih =>
    intro m b hn hm
    cases m with
    | zero => omega
    | succ m =>
      unfold Board.gravityLoop
      by_cases hp : (b.gravityPass).2 = true
      · rw [if_pos hp, if_pos hp]
        have := gravityPass_moved b hp
        exact ih m _ (by omega) (by omega)
      · rw [if_neg hp, if_neg hp]

theorem applyGravity_stable (b : Board) :
    (b.applyGravity).gravityPass = (b.applyGravity, false) :=
  gravityLoop_stable (b.slack + 1) b (Nat.lt_succ_self _)

theorem gravityLoop_of_stable (b : Board) (h : b.gravityPass = (b, false)) (n : Nat) :
    Board.gravityLoop (n + 1) b = b := by
  unfold Board.gravityLoop
  rw [h]; simp

/-- C1. Gravity settling is idempotent: applying `applyGravity` to the result of
`applyGravity` returns the same board, that is the same list of pieces with the
same id, column, row and width each. -/
theorem applyGravity_idempotent (b : Board) :
    (b.applyGravity).applyGravity = b.applyGravity := by
  exact gravityLoop_of_stable _ (applyGravity_stable b) _

/-! ## Cells, spans and the collision test -/

theorem mem_spanCols (x : Int) (w : Nat) (c : Int) :
    c ∈ spanCols x w ↔ x ≤ c ∧ c < x + (w : Int) := by
  unfold spanCols
  rw [List.mem_map]
  constructor
  · rintro ⟨k, hk, rfl⟩
    rw [List.mem_range] at hk
    omega
  · rintro ⟨h1, h2⟩
    refine ⟨(c - x).toNat, ?_, ?_⟩
    · rw [List.mem_range]; omega
    · omega

theorem getBlockAt_some (b : Board) (c r : Int) (o : Block) (h : b.getBlockAt c r = some o) :
    o ∈ b.blocks ∧ o.occupies c r = true := by
  unfold Board.getBlockAt at h
  exact ⟨List.mem_of_find?_eq_some h, by simpa using List.find?_some h⟩

theorem getBlockAt_none (b : Board) (c r : Int) (h : b.getBlockAt c r = none) :
    ∀ q ∈ b.blocks, q.occupies c r = false := by
  unfold Board.getBlockAt at h
  intro q hq
  have := List.find?_eq_none.1 h q hq
  simpa using this

theorem getBlockAt_isSome (b : Board) (c r : Int) (q : Block) (hq : q ∈ b.blocks)
    (ho : q.occupies c r = true) : ∃ o, b.getBlockAt c r = some o := by
  cases h : b.getBlockAt c r with
  | none => rw [getBlockAt_none b c r h q hq] at ho; exact absurd ho (by simp)
  | some o => exact ⟨o, rfl⟩

theorem cellFreeFor_false (b : Board) (blk : Block) (c r : Int)
    (h : b.cellFreeFor blk c r = false) :
    ∃ o ∈ b.blocks, o.occupies c r = true ∧ o.id ≠ blk.id := by
  unfold Board.cellFreeFor at h
  cases hg : b.getBlockAt c r with
  | none => rw [hg] at h; simp at h
  | some o =>
    rw [hg] at h
    obtain ⟨h1, h2⟩ := getBlockAt_some b c r o hg
    exact ⟨o, h1, h2, by simpa using h⟩

theorem cellFreeFor_true (b : Board) (blk : Block) (c r : Int)
    (h : b.cellFreeFor blk c r = true) :
    (∀ q ∈ b.blocks, q.occupies c r = false) ∨
      ∃ o ∈ b.blocks, o.occupies c r = true ∧ o.id = blk.id := by
  unfold Board.cellFreeFor at h
  cases hg : b.getBlockAt c r with
  | none => exact Or.inl (getBlockAt_none b c r hg)
  | some o =>
    rw [hg] at h
    obtain ⟨h1, h2⟩ := getBlockAt_some b c r o hg
    exact Or.inr ⟨o, h1, h2, by simpa using h⟩

theorem canFit_false (b : Board) (blk : Block) (y : Int) (h : b.canFit blk y = false) :
    ∃ c : Int, ∃ o ∈ b.blocks, blk.x ≤ c ∧ c < blk.x + (blk.width : Int) ∧
      o.occupies c y = true ∧ o.id ≠ blk.id := by
  unfold Board.canFit at h
  rw [List.all_eq_false] at h
  obtain ⟨c, hc, hf⟩ := h
  obtain ⟨o, ho, h1, h2⟩ := cellFreeFor_false b blk c y (by simpa using hf)
  obtain ⟨hx1, hx2⟩ := (mem_spanCols _ _ _).1 hc
  exact ⟨c, o, ho, hx1, hx2, h1, h2⟩

theorem canFit_true (b : Board) (blk : Block) (y : Int) (h : b.canFit blk y = true) (c : Int)
    (h1 : blk.x ≤ c) (h2 : c < blk.x + (blk.width : Int)) :
    b.cellFreeFor blk c y = true := by
  unfold Board.canFit at h
  rw [List.all_eq_true] at h
  exact h c ((mem_spanCols _ _ _).2 ⟨h1, h2⟩)

/-! ## The blocks visited by a pass -/

theorem mem_sortedBlocks (b : Board) (i : Nat) :
    i ∈ b.sortedBlocks ↔ i < b.blocks.length ∧ b.rowAt i < 10 := by
  unfold Board.sortedBlocks
  rw [(List.perm_insertionSort _ _).mem_iff]
  simp

theorem rowAt_of_get (b : Board) (i : Nat) (p : Block) (h : b.blocks[i]? = some p) :
    b.rowAt i = p.y := by
  unfold Board.rowAt; rw [h]

theorem dropBlock_flag (b : Board) (i : Nat) (p : Block) (h : b.blocks[i]? = some p) :
    (b.dropBlock i).2 = decide (b.dropTarget p ≠ p.y) := by
  unfold Board.dropBlock; rw [h]

/-- On a board that a pass leaves alone, every block above row 9 is blocked. -/
theorem stable_blocked (b : Board) (h : b.gravityPass = (b, false)) (p : Block)
    (hp : p ∈ b.blocks) (hy : p.y < 9) :
    ∃ c : Int, ∃ o ∈ b.blocks, p.x ≤ c ∧ c < p.x + (p.width : Int) ∧
      o.occupies c (p.y + 1) = true ∧ o.id ≠ p.id := by
  obtain ⟨i, hi, hget⟩ := List.getElem_of_mem hp
  have hget' : b.blocks[i]? = some p := by rw [List.getElem?_eq_getElem hi, hget]
  have hmem : i ∈ b.sortedBlocks :=
    (mem_sortedBlocks b i).2 ⟨hi, by rw [rowAt_of_get b i p hget']; omega⟩
  have hflag := gravityPass_none_moves b (by rw [h]) i hmem
  rw [dropBlock_flag b i p hget'] at hflag
  have ht : b.dropTarget p = p.y := by simpa using hflag
  exact canFit_false b p (p.y + 1) (dropTarget_blocked b p hy ht)

/-- C2. After `applyGravity`, every piece in a playable row (`y ≤ 9`) is at the
floor row 9 or has, directly below its span, a cell `(c, y + 1)` with
`x ≤ c < x + width` occupied by a piece with another id. -/
theorem applyGravity_settled (b : Board) :
    ∀ p ∈ (b.applyGravity).blocks, p.y ≤ 9 →
      p.y = 9 ∨
        ∃ c : Int, ∃ o ∈ (b.applyGravity).blocks, p.x ≤ c ∧ c < p.x + (p.width : Int) ∧
          o.occupies c (p.y + 1) = true ∧ o.id ≠ p.id := by
  intro p hp hy
  by_cases h9 : p.y = 9
  · exact Or.inl h9
  · exact Or.inr (stable_blocked _ (applyGravity_stable b) p hp (by omega))

/-! ## What gravity leaves untouched -/

theorem map_set_same {α : Type} (f : Block → α) :
    ∀ (l : List Block) (i : Nat) (p q : Block), l[i]? = some p → f q = f p →
      (l.set i q).map f = l.map f := by
  intro l
  induction l with
  | nil => intro i p q h; simp at h
  | cons a l ih =>
    intro i p q h hf
    cases i with
    | zero => simp at h; subst h; simp [List.set, hf]
    | succ i => simp at h; simp only [List.set, List.map, ih i p q h hf]

theorem dropBlock_map {α : Type} (f : Block → α)
    (hf : ∀ (p : Block) (t : Int), f { p with y := t } = f p) (b : Board) (i : Nat) :
    (b.dropBlock i).1.blocks.map f = b.blocks.map f := by
  unfold Board.dropBlock
  cases hb : b.blocks[i]? with
  | none => rfl
  | some blk => exact map_set_same f b.blocks i blk _ hb (hf blk _)

theorem gravityFold_map {α : Type} (f : Block → α)
    (hf : ∀ (p : Block) (t : Int), f { p with y := t } = f p) :
    ∀ (l : List Nat) (st : Board × Bool),
      (l.foldl Board.gravityStep st).1.blocks.map f = st.1.blocks.map f := by
  intro l
  induction l with
  | nil => intro st; rfl
  | cons a l ih =>
    intro st
    rw [List.foldl_cons, ih]
    exact dropBlock_map f hf st.1 a

theorem gravityLoop_map {α : Type} (f : Block → α)
    (hf : ∀ (p : Block) (t : Int), f { p with y := t } = f p) :
    ∀ (n : Nat) (b : Board), (Board.gravityLoop n b).blocks.map f = b.blocks.map f := by
  intro n
  induction n with
  | zero => intro b; rfl
  | succ n ih =>
    intro b
    unfold Board.gravityLoop
    have hp : (b.gravityPass).1.blocks.map f = b.blocks.map f :=
      gravityFold_map f hf b.sortedBlocks (b, false)
    by_cases hm : (b.gravityPass).2 = true
    · rw [if_pos hm, ih, hp]
    · rw [if_neg hm, hp]

theorem applyGravity_map {α : Type} (f : Block → α)
    (hf : ∀ (p : Block) (t : Int), f { p with y := t } = f p) (b : Board) :
    (b.applyGravity).blocks.map f = b.blocks.map f :=
  gravityLoop_map f hf _ b

/-! ## Non-overlap, told by ids -/

theorem overlaps_symm (p q : Block) (h : p.overlaps q) : q.overlaps p := by
  obtain ⟨c, r, h1, h2⟩ := h
  exact ⟨c, r, h2, h1⟩

theorem NonOverlap.noClash (b : Board) (h : b.NonOverlap) : b.NoClash := by
  intro p hp q hq hne c r hc
  have hpq : p ≠ q := fun e => hne (by rw [e])
  have hsym : Symmetric (fun p q : Block => ¬ p.overlaps q) :=
    fun p q hn ho => hn (overlaps_symm q p ho)
  exact List.Pairwise.forall hsym h hp hq hpq ⟨c, r, hc.1, hc.2⟩

theorem NoClash.nonOverlap (b : Board) (hid : b.UniqueIds) (h : b.NoClash) : b.NonOverlap := by
  unfold Board.UniqueIds List.Nodup at hid
  rw [List.pairwise_map] at hid
  refine List.Pairwise.imp_of_mem ?_ hid
  intro p q hp hq hne ho
  obtain ⟨c, r, h1, h2⟩ := ho
  exact h p hp q hq hne c r ⟨h1, h2⟩

theorem occupies_iff (p : Block) (c r : Int) :
    p.occupies c r = true ↔ p.y = r ∧ p.x ≤ c ∧ c < p.x + (p.width : Int) := by
  unfold Block.occupies
  simp [and_assoc]

/-- Overwriting the entry at position `i` by a block `p'` with the id of the old
entry keeps `NoClash`, if every cell of `p'` passes the collision test. -/
theorem noClash_set (b : Board) (h : b.NoClash) (i : Nat) (p p' : Block)
    (hid : p'.id = p.id)
    (hfree : ∀ c r : Int, p'.occupies c r = true → b.cellFreeFor p c r = true) :
    Board.NoClash { blocks := b.blocks.set i p' } := by
  have key : ∀ q ∈ b.blocks, q.id ≠ p.id → ∀ c r : Int,
      ¬ (p'.occupies c r = true ∧ q.occupies c r = true) := by
    intro q hq hne c r hc
    rcases cellFreeFor_true b p c r (hfree c r hc.1) with hnone | ⟨o, ho, ho1, ho2⟩
    · rw [hnone q hq] at hc; exact absurd hc.2 (by simp)
    · exact h o ho q hq (by rw [ho2]; exact fun e => hne e.symm) c r ⟨ho1, hc.2⟩
  intro q1 hq1 q2 hq2 hne c r hc
  rcases List.mem_or_eq_of_mem_set hq1 with m1 | e1
  · rcases List.mem_or_eq_of_mem_set hq2 with m2 | e2
    · exact h q1 m1 q2 m2 hne c r hc
    · subst e2
      exact key q1 m1 (by rw [← hid]; exact hne) c r ⟨hc.2, hc.1⟩
  · subst e1
    rcases List.mem_or_eq_of_mem_set hq2 with m2 | e2
    · exact key q2 m2 (by rw [← hid]; exact fun e => hne e.symm) c r hc
    · subst e2; exact hne rfl

theorem dropBlock_noClash (b : Board) (h : b.NoClash) (i : Nat) : (b.dropBlock i).1.NoClash := by
  by_cases hm : (b.dropBlock i).2 = true
  · unfold Board.dropBlock at hm ⊢
    cases hb : b.blocks[i]? with
    | none => exact h
    | some blk =>
      rw [hb] at hm
      simp only [decide_eq_true_eq] at hm
      rcases dropTarget_spec b blk with ht | ⟨_, _, hfit⟩
      · exact absurd ht hm
      · refine noClash_set b h i blk _ rfl ?_
        intro c r hc
        rw [occupies_iff] at hc
        simp only at hc
        rw [← hc.1]
        exact canFit_true b blk _ hfit c hc.2.1 hc.2.2
  · rw [dropBlock_still b i (by simpa using hm)]; exact h

theorem gravityFold_noClash :
    ∀ (l : List Nat) (st : Board × Bool), st.1.NoClash →
      (l.foldl Board.gravityStep st).1.NoClash := by
  intro l
  induction l with
  | nil => intro st h; exact h
  | cons a l ih =>
    intro st h
    rw [List.foldl_cons]
    exact ih _ (dropBlock_noClash st.1 h a)

theorem gravityLoop_noClash :
    ∀ (n : Nat) (b : Board), b.NoClash → (Board.gravityLoop n b).NoClash := by
  intro n
  induction n with
  | zero => intro b h; exact h
  | succ n ih =>
    intro b h
    unfold Board.gravityLoop
    have hp : (b.gravityPass).1.NoClash := gravityFold_noClash b.sortedBlocks (b, false) h
    by_cases hm : (b.gravityPass).2 = true
    · rw [if_pos hm]; exact ih _ hp
    · rw [if_neg hm]; exact hp

theorem applyGravity_uniqueIds (b : Board) (hid : b.UniqueIds) : (b.applyGravity).UniqueIds := by
  unfold Board.UniqueIds
  rw [applyGravity_map Block.id (fun _ _ => rfl) b]
  exact hid

theorem applyGravity_nonOverlap (b : Board) (hid : b.UniqueIds) (h : b.NonOverlap) :
    (b.applyGravity).NonOverlap :=
  NoClash.nonOverlap _ (applyGravity_uniqueIds b hid)
    (gravityLoop_noClash _ b (NonOverlap.noClash b h))

/-! ## Clearing, moving, raising and refilling keep non-overlap -/

theorem removeRows_sublist :
    ∀ (rows : List Int) (b : Board), (b.removeRows rows).blocks.Sublist b.blocks := by
  intro rows
  induction rows with
  | nil => intro b; exact List.Sublist.refl _
  | cons r rows ih =>
    intro b
    unfold Board.removeRows
    rw [List.foldl_cons]
    exact (ih _).trans (List.filter_sublist _)

theorem nonOverlap_of_sublist (b b' : Board) (hs : b'.blocks.Sublist b.blocks)
    (h : b.NonOverlap) : b'.NonOverlap :=
  List.Pairwise.sublist hs h

theorem uniqueIds_of_sublist (b b' : Board) (hs : b'.blocks.Sublist b.blocks)
    (h : b.UniqueIds) : b'.UniqueIds :=
  List.Nodup.sublist (hs.map Block.id) h

theorem clearLines_nonOverlap (b : Board) (hid : b.UniqueIds) (h : b.NonOverlap)
    (rows : List Int) : (b.clearLines rows).NonOverlap := by
  unfold Board.clearLines
  split
  · exact h
  · exact applyGravity_nonOverlap _ (uniqueIds_of_sublist b _ (removeRows_sublist rows b) hid)
      (nonOverlap_of_sublist b _ (removeRows_sublist rows b) h)

theorem canMoveBlock_true (b : Board) (p : Block) (newX : Int)
    (h : b.canMoveBlock p newX = true) :
    0 ≤ newX ∧ newX + (p.width : Int) ≤ 8 ∧
      ∀ c : Int, newX ≤ c → c < newX + (p.width : Int) → b.cellFreeFor p c p.y = true := by
  unfold Board.canMoveBlock Board.cols at h
  split at h
  · exact absurd h (by simp)
  · rename_i hb
    refine ⟨by omega, by omega, ?_⟩
    intro c h1 h2
    rw [List.all_eq_true] at h
    exact h c ((mem_spanCols _ _ _).2 ⟨h1, h2⟩)

theorem moveBlock_map_id (b : Board) (i : Nat) (newX : Int) :
    (b.moveBlock i newX).blocks.map Block.id = b.blocks.map Block.id := by
  unfold Board.moveBlock
  cases hb : b.blocks[i]? with
  | none => rfl
  | some blk => exact map_set_same Block.id b.blocks i blk _ hb rfl

theorem moveBlock_nonOverlap (b : Board) (hid : b.UniqueIds) (h : b.NonOverlap)
    (i : Nat) (p : Block) (newX : Int) (hp : b.blocks[i]? = some p)
    (hc : b.canMoveBlock p newX = true) : (b.moveBlock i newX).NonOverlap := by
  refine NoClash.nonOverlap _ ?_ ?_
  · unfold Board.UniqueIds; rw [moveBlock_map_id]; exact hid
  · unfold Board.moveBlock
    rw [hp]
    refine noClash_set b (NonOverlap.noClash b h) i p _ rfl ?_
    intro c r ho
    rw [occupies_iff] at ho
    simp only at ho
    rw [← ho.1]
    exact (canMoveBlock_true b p newX hc).2.2 c ho.2.1 ho.2.2

theorem raiseBlock_overlaps (p q : Block) (h : (raiseBlock p).overlaps (raiseBlock q)) :
    p.overlaps q := by
  obtain ⟨c, r, h1, h2⟩ := h
  rw [occupies_iff] at h1 h2
  refine ⟨c, p.y, ?_, ?_⟩
  · rw [occupies_iff]
    unfold raiseBlock at h1
    split_ifs at h1 <;> (try simp only at h1) <;> exact ⟨rfl, h1.2.1, h1.2.2⟩
  · rw [occupies_iff]
    unfold raiseBlock at h1 h2
    split_ifs at h1 <;> split_ifs at h2 <;> (try simp only at h1) <;> (try simp only at h2) <;>
      exact ⟨by omega, h2.2.1, h2.2.2⟩

theorem raiseShift_nonOverlap (b : Board) (h : b.NonOverlap) : (raiseShift b).NonOverlap := by
  unfold Board.NonOverlap raiseShift
  rw [List.pairwise_map]
  exact List.Pairwise.imp (fun hn ho => hn (raiseBlock_overlaps _ _ ho)) h

theorem canPlaceBlock_free (b : Board) (x y : Int) (w : Nat) (h : b.canPlaceBlock x y w = true)
    (c : Int) (h1 : x ≤ c) (h2 : c < x + (w : Int)) : ∀ q ∈ b.blocks, q.occupies c y = false := by
  unfold Board.canPlaceBlock at h
  split at h
  · exact absurd h (by simp)
  · rw [List.all_eq_true] at h
    have := h c ((mem_spanCols _ _ _).2 ⟨h1, h2⟩)
    exact getBlockAt_none b c y (by simpa using this)

theorem push_nonOverlap (b : Board) (h : b.NonOverlap) (x y : Int) (w id : Nat)
    (hc : b.canPlaceBlock x y w = true) :
    Board.NonOverlap { blocks := b.blocks ++ [{ x := x, y := y, width := w, id := id }] } := by
  unfold Board.NonOverlap
  rw [List.pairwise_append]
  refine ⟨h, List.pairwise_singleton _ _, ?_⟩
  intro q hq nb hnb ho
  rw [List.mem_singleton] at hnb
  subst hnb
  obtain ⟨c, r, h1, h2⟩ := ho
  rw [occupies_iff] at h2
  simp only at h2
  have := canPlaceBlock_free b x y w hc c h2.2.1 h2.2.2 q hq
  rw [h2.1, h1] at this
  exact absurd this (by simp)

theorem previewAttempts_nonOverlap (w : Nat) :
    ∀ (n : Nat) (b : Board) (s : Sys), b.NonOverlap →
      (Board.previewAttempts w n b s).1.NonOverlap := by
  intro n
  induction n with
  | zero => intro b s h; exact h
  | succ n ih =>
    intro b s h
    unfold Board.previewAttempts
    simp only
    split
    · rename_i hc
      exact push_nonOverlap b h _ _ _ _ hc
    · exact ih _ _ h

theorem previewLoop_nonOverlap :
    ∀ (n : Nat) (b : Board) (s : Sys), b.NonOverlap →
      (Board.previewLoop n b s).1.NonOverlap := by
  intro n
  induction n with
  | zero => intro b s h; exact h
  | succ n ih =>
    intro b s h
    unfold Board.previewLoop
    exact ih _ _ (previewAttempts_nonOverlap _ 20 b _ h)

theorem generatePreviewBlocks_nonOverlap (b : Board) (h : b.NonOverlap) (s : Sys) :
    (b.generatePreviewBlocks s).1.NonOverlap := by
  unfold Board.generatePreviewBlocks
  exact previewLoop_nonOverlap _ _ _
    (nonOverlap_of_sublist b _ (List.filter_sublist _) h)

/-- Non-overlap is kept on a board whose pieces have pairwise different ids (the
part of C3 that holds): if no two pieces share a cell, then none do after `applyGravity`,
after `clearLines` of any rows, after a horizontal move of any piece that
`canMoveBlock` accepts, after the shift of the raise, and after
`generatePreviewBlocks`, whatever the random draws and `Block.nextId` are. -/
theorem nonOverlap_invariant (b : Board) (hid : b.UniqueIds) (h : b.NonOverlap) :
    (b.applyGravity).NonOverlap ∧
    (∀ rows : List Int, (b.clearLines rows).NonOverlap) ∧
    (∀ (i : Nat) (p : Block) (newX : Int), b.blocks[i]? = some p →
      b.canMoveBlock p newX = true → (b.moveBlock i newX).NonOverlap) ∧
    (raiseShift b).NonOverlap ∧
    (∀ s : Sys, (b.generatePreviewBlocks s).1.NonOverlap) :=
  ⟨applyGravity_nonOverlap b hid h, clearLines_nonOverlap b hid h,
    moveBlock_nonOverlap b hid h, raiseShift_nonOverlap b h,
    generatePreviewBlocks_nonOverlap b h⟩

/-! ## A sample board -/

theorem overlaps_iff (p q : Block) :
    p.overlaps q ↔
      p.y = q.y ∧ 0 < p.width ∧ 0 < q.width ∧
        p.x < q.x + (q.width : Int) ∧ q.x < p.x + (p.width : Int) := by
  unfold Block.overlaps
  constructor
  · rintro ⟨c, r, h1, h2⟩
    rw [occupies_iff] at h1 h2
    omega
  · rintro ⟨hy, hp, hq, h1, h2⟩
    refine ⟨max p.x q.x, p.y, ?_, ?_⟩
    · rw [occupies_iff]; omega
    · rw [occupies_iff]; omega

theorem sampleBoard_nonOverlap : sampleBoard.NonOverlap := by
  simp [Board.NonOverlap, sampleBoard, overlaps_iff]

theorem nonOverlap_invariant_witness :
    sampleBoard.UniqueIds ∧ sampleBoard.NonOverlap ∧
    (sampleBoard.applyGravity).NonOverlap ∧
    (sampleBoard.clearLines [5]).NonOverlap ∧
    (sampleBoard.moveBlock 0 4).NonOverlap ∧
    (raiseShift sampleBoard).NonOverlap ∧
    (sampleBoard.generatePreviewBlocks sampleSys).1.NonOverlap :=
  have h := nonOverlap_invariant sampleBoard (by decide) sampleBoard_nonOverlap
  ⟨by decide, sampleBoard_nonOverlap, h.1, h.2.1 [5],
    h.2.2.1 0 ⟨0, 5, 2, 1⟩ 4 rfl (by decide), h.2.2.2.1, h.2.2.2.2 sampleSys⟩

/-! ## Score -/

theorem calculateScore_succ (n : Nat) :
    calculateScore (n + 1) = calculateScore n + BASE_SCORE * 2 ^ n := by
  unfold calculateScore
  rw [List.range_succ, List.foldl_append]
  rfl

theorem calculateScore_add (n : Nat) : calculateScore n + 100 = 100 * 2 ^ n := by
  induction n with
  | zero => rfl
  | succ n ih =>
    rw [calculateScore_succ, pow_succ]
    unfold BASE_SCORE
    omega

/-- C4. `calculateScore n` is the sum of `100 * 2 ^ i` over `i < n`, that is
`100 * (2 ^ n - 1)`, for every `n`; it is 0, 100, 300, 700, 1500 for
`n = 0, 1, 2, 3, 4`. -/
theorem calculateScore_closed_form (n : Nat) :
    calculateScore n = (Finset.range n).sum (fun i => 100 * 2 ^ i) ∧
    calculateScore n = 100 * (2 ^ n - 1) ∧
    calculateScore 0 = 0 ∧ calculateScore 1 = 100 ∧ calculateScore 2 = 300 ∧
    calculateScore 3 = 700 ∧ calculateScore 4 = 1500 := by
  refine ⟨?_, ?_, rfl, rfl, rfl, rfl, rfl⟩
  · induction n with
    | zero => rfl
    | succ n ih => rw [calculateScore_succ, Finset.sum_range_succ, ih]; rfl
  · have h := calculateScore_add n
    have h2 : 1 ≤ 2 ^ n := Nat.one_le_two_pow
    rw [Nat.mul_sub, Nat.mul_one]
    omega

/-! ## Raise -/

theorem hasBlockAtTop_iff (b : Board) : hasBlockAtTop b = true ↔ ∃ p ∈ b.blocks, p.y = 0 := by
  unfold hasBlockAtTop
  rw [List.any_eq_true]
  constructor
  · rintro ⟨p, hp, h⟩
    simp only [Bool.and_eq_true, decide_eq_true_eq] at h
    exact ⟨p, hp, h.1⟩
  · rintro ⟨p, hp, h⟩
    refine ⟨p, hp, ?_⟩
    simp only [Bool.and_eq_true, decide_eq_true_eq]
    omega

/-- C5. The raise returns `false` exactly when some piece is in row 0 before the
call, for `instantRaiseBlocks` and for `animateRaiseBlocks`; and when it
returns `false` the board is the board before the call (no piece moved, added
or removed) and neither a draw nor an id was taken. -/
theorem raise_rejected_iff (b : Board) (s : Sys) :
    ((instantRaiseBlocks b s).2.2 = false ↔ ∃ p ∈ b.blocks, p.y = 0) ∧
    ((animateRaiseBlocks b s).2.2 = false ↔ ∃ p ∈ b.blocks, p.y = 0) ∧
    ((instantRaiseBlocks b s).2.2 = false →
      (instantRaiseBlocks b s).1 = b ∧ (instantRaiseBlocks b s).2.1 = s) ∧
    ((animateRaiseBlocks b s).2.2 = false →
      (animateRaiseBlocks b s).1 = b ∧ (animateRaiseBlocks b s).2.1 = s) := by
  rw [← hasBlockAtTop_iff]
  unfold instantRaiseBlocks animateRaiseBlocks
  by_cases h : hasBlockAtTop b = true
  · simp [h]
  · simp [h]

/-! ## Clearing lines -/

theorem removeRows_eq_filter :
    ∀ (rows : List Int) (b : Board),
      b.removeRows rows = { blocks := b.blocks.filter (fun p => decide (p.y ∉ rows)) } := by
  intro rows
  induction rows with
  | nil => intro b; simp [Board.removeRows]
  | cons r rows ih =>
    intro b
    have h := ih { blocks := b.blocks.filter (fun p => decide (p.y ≠ r)) }
    unfold Board.removeRows at h ⊢
    rw [List.foldl_cons, h, List.filter_filter]
    congr 1
    apply List.filter_congr
    intro p _
    simp [List.mem_cons, not_or, Bool.and_comm]

theorem clearLines_congr (b : Board) (rows rows' : List Int)
    (h : ∀ r : Int, r ∈ rows ↔ r ∈ rows') : b.clearLines rows = b.clearLines rows' := by
  have hf : b.removeRows rows = b.removeRows rows' := by
    rw [removeRows_eq_filter, removeRows_eq_filter]
    congr 1
    apply List.filter_congr
    intro p _
    simp [h]
  have hl : rows.length = 0 ↔ rows'.length = 0 := by
    rw [List.length_eq_zero, List.length_eq_zero, List.eq_nil_iff_forall_not_mem,
      List.eq_nil_iff_forall_not_mem]
    exact forall_congr' fun r => not_congr (h r)
  unfold Board.clearLines
  by_cases h0 : rows.length = 0
  · rw [if_pos h0, if_pos (hl.1 h0)]
  · rw [if_neg h0, if_neg (fun e => h0 (hl.2 e)), hf]

/-- C6. `clearLines rows` removes exactly the pieces whose row is in `rows`: the
pieces after the call are, in order and with their id, column and width, the
pieces whose row before the call is not in `rows`. -/
theorem clearLines_removes_exactly (b : Board) (rows : List Int) :
    (b.clearLines rows).blocks.map (fun p => (p.id, p.x, p.width)) =
      (b.blocks.filter (fun p => decide (p.y ∉ rows))).map (fun p => (p.id, p.x, p.width)) := by
  unfold Board.clearLines
  split
  · rename_i h0
    rw [List.length_eq_zero] at h0
    subst h0
    simp
  · rw [applyGravity_map (fun p => (p.id, p.x, p.width)) (fun _ _ => rfl),
      removeRows_eq_filter]

/-- C7. Line clearing does not depend on the order of the row list, and a row
listed twice counts once: `clearLines [r1, r2]` and `clearLines [r2, r1]` give
the same board, and `clearLines [r, r]` gives the board of `clearLines [r]`. -/
theorem clearLines_order_irrelevant (b : Board) (r1 r2 : Int) :
    b.clearLines [r1, r2] = b.clearLines [r2, r1] ∧
    b.clearLines [r1, r1] = b.clearLines [r1] := by
  constructor
  · apply clearLines_congr; intro r; simp [or_comm]
  · apply clearLines_congr; intro r; simp

/-! ## Complete lines -/

theorem foldl_count (P : Nat → Bool) :
    ∀ (l : List Nat) (k : Nat),
      l.foldl (fun (filled col : Nat) => if P col then filled + 1 else filled) k =
        k + l.countP P := by
  intro l
  induction l with
  | nil => intro k; rfl
  | cons a l ih =>
    intro k
    rw [List.foldl_cons, ih, List.countP_cons]
    by_cases h : P a = true
    · simp [h]; omega
    · simp [h]

theorem filledCount_eq_iff (b : Board) (row : Int) :
    b.filledCount row = 8 ↔
      ∀ c : Int, 0 ≤ c → c < 8 → ∃ p ∈ b.blocks, p.occupies c row = true := by
  unfold Board.filledCount
  rw [foldl_count (fun col => (b.getBlockAt (col : Int) row).isSome), Nat.zero_add]
  have hl :
      List.countP (fun col : Nat => (b.getBlockAt (col : Int) row).isSome) (List.range 8) = 8 ↔
        ∀ a ∈ List.range 8, (b.getBlockAt ((a : Nat) : Int) row).isSome = true := by
    rw [← List.countP_eq_length, List.length_range]
  rw [hl]
  constructor
  · intro h c h0 h8
    have := h c.toNat (List.mem_range.2 (by omega))
    rw [Int.toNat_of_nonneg h0, Option.isSome_iff_exists] at this
    obtain ⟨o, ho⟩ := this
    exact ⟨o, getBlockAt_some b c row o ho⟩
  · intro h col hcol
    rw [List.mem_range] at hcol
    obtain ⟨p, hp, ho⟩ := h (col : Int) (by omega) (by omega)
    obtain ⟨o, hg⟩ := getBlockAt_isSome b _ _ p hp ho
    rw [hg]; rfl

/-- C8, as the code has it. `checkCompleteLines` returns, in strictly ascending
order, exactly the rows `r` with `0 ≤ r ≤ 9` in which all 8 columns are occupied
by some piece; for the board holding the single piece at column 0, row 0 of
width 8 it returns `[0]`. -/
theorem checkCompleteLines_spec (b : Board) :
    (b.checkCompleteLines).Pairwise (· < ·) ∧
    (∀ r : Int, r ∈ b.checkCompleteLines ↔
      0 ≤ r ∧ r ≤ 9 ∧ ∀ c : Int, 0 ≤ c → c < 8 → ∃ p ∈ b.blocks, p.occupies c r = true) ∧
    Board.checkCompleteLines ⟨[⟨0, 0, 8, 1⟩]⟩ = [0] := by
  refine ⟨?_, ?_, by decide⟩
  · unfold Board.checkCompleteLines
    rw [List.pairwise_map]
    refine List.Pairwise.imp ?_ (List.Pairwise.sublist (List.filter_sublist _)
      (List.pairwise_lt_range 10))
    intro i j hij
    exact Int.ofNat_lt.2 hij
  · intro r
    unfold Board.checkCompleteLines
    simp only [List.mem_map, List.mem_filter, List.mem_range, decide_eq_true_eq]
    constructor
    · rintro ⟨row, ⟨hlt, hf⟩, rfl⟩
      exact ⟨by omega, by omega, (filledCount_eq_iff b _).1 hf⟩
    · rintro ⟨h0, h9, hall⟩
      refine ⟨r.toNat, ⟨by omega, ?_⟩, by omega⟩
      rw [Int.toNat_of_nonneg h0]
      exact (filledCount_eq_iff b r).2 hall

/-- C8, counterexample. With the floor row 9 filled by two pieces of width 4,
`checkCompleteLines` returns row 9, which is not among the rows `0 .. P-2 = 8`. -/
theorem checkCompleteLines_returns_floor_row :
    Board.checkCompleteLines ⟨[⟨0, 9, 4, 1⟩, ⟨4, 9, 4, 2⟩]⟩ = [9] ∧
    ¬ (∀ r ∈ Board.checkCompleteLines ⟨[⟨0, 9, 4, 1⟩, ⟨4, 9, 4, 2⟩]⟩, 0 ≤ r ∧ r ≤ 10 - 2) := by
  refine ⟨by decide, ?_⟩
  intro h
  have := h 9 (by decide)
  omega

/-! ## Move validity -/

theorem eq_of_id_eq (b : Board) (hid : b.UniqueIds) (p q : Block) (hp : p ∈ b.blocks)
    (hq : q ∈ b.blocks) (h : p.id = q.id) : p = q :=
  List.inj_on_of_nodup_map hid hp hq h

theorem eq_of_share_cell (b : Board) (hno : b.NonOverlap) (p q : Block) (hp : p ∈ b.blocks)
    (hq : q ∈ b.blocks) (c r : Int) (h1 : p.occupies c r = true) (h2 : q.occupies c r = true) :
    p = q := by
  by_contra hne
  have hsym : Symmetric (fun p q : Block => ¬ p.overlaps q) :=
    fun p q hn ho => hn (overlaps_symm q p ho)
  exact List.Pairwise.forall hsym hno hp hq hne ⟨c, r, h1, h2⟩

theorem canMoveBlock_of (b : Board) (p : Block) (newX : Int) (h0 : 0 ≤ newX)
    (h8 : newX + (p.width : Int) ≤ 8)
    (hc : ∀ c : Int, newX ≤ c → c < newX + (p.width : Int) → b.cellFreeFor p c p.y = true) :
    b.canMoveBlock p newX = true := by
  unfold Board.canMoveBlock Board.cols
  rw [if_neg (by omega), List.all_eq_true]
  intro c hcm
  obtain ⟨h1, h2⟩ := (mem_spanCols _ _ _).1 hcm
  exact hc c h1 h2

/-- The test of `canMoveBlock` on a board whose pieces have pairwise different ids
and do not overlap (the part of C9 that holds), for a piece of the board: `canMoveBlock piece newX` is true if and only if
`0 ≤ newX`, `newX + piece.width ≤ 8`, and every cell `(c, piece.y)` with
`newX ≤ c < newX + piece.width` is either occupied by no piece or occupied by
the piece itself. -/
theorem canMoveBlock_iff (b : Board) (hid : b.UniqueIds) (hno : b.NonOverlap) (p : Block)
    (hp : p ∈ b.blocks) (newX : Int) :
    b.canMoveBlock p newX = true ↔
      0 ≤ newX ∧ newX + (p.width : Int) ≤ 8 ∧
        ∀ c : Int, newX ≤ c → c < newX + (p.width : Int) →
          (∀ q ∈ b.blocks, q.occupies c p.y = false) ∨ p.occupies c p.y = true := by
  constructor
  · intro h
    obtain ⟨h0, h8, hc⟩ := canMoveBlock_true b p newX h
    refine ⟨h0, h8, ?_⟩
    intro c h1 h2
    rcases cellFreeFor_true b p c p.y (hc c h1 h2) with hn | ⟨o, ho, hoc, hoid⟩
    · exact Or.inl hn
    · rw [eq_of_id_eq b hid o p ho hp hoid] at hoc
      exact Or.inr hoc
  · rintro ⟨h0, h8, hc⟩
    refine canMoveBlock_of b p newX h0 h8 ?_
    intro c h1 h2
    unfold Board.cellFreeFor
    cases hg : b.getBlockAt c p.y with
    | none => rfl
    | some o =>
      obtain ⟨ho, hoc⟩ := getBlockAt_some b c p.y o hg
      rcases hc c h1 h2 with hn | hpc
      · rw [hn o ho] at hoc; exact absurd hoc (by simp)
      · rw [eq_of_share_cell b hno o p ho hp c p.y hoc hpc]
        simp

theorem canMoveBlock_iff_witness :
    sampleBoard.UniqueIds ∧ sampleBoard.NonOverlap ∧
    (⟨0, 5, 2, 1⟩ : Block) ∈ sampleBoard.blocks ∧
    (sampleBoard.canMoveBlock ⟨0, 5, 2, 1⟩ 1 = true ↔
      (0 : Int) ≤ 1 ∧ (1 : Int) + ((2 : Nat) : Int) ≤ 8 ∧
        ∀ c : Int, 1 ≤ c → c < 1 + ((2 : Nat) : Int) →
          (∀ q ∈ sampleBoard.blocks, q.occupies c 5 = false) ∨
            Block.occupies ⟨0, 5, 2, 1⟩ c 5 = true) :=
  ⟨by decide, sampleBoard_nonOverlap, by decide,
    canMoveBlock_iff sampleBoard (by decide) sampleBoard_nonOverlap ⟨0, 5, 2, 1⟩ (by decide) 1⟩

/-! ## Feature encoding -/

theorem grid_length (f : Nat → Nat → ℚ) (m : Nat) :
    ∀ n : Nat,
      ((List.range n).flatMap
        (fun (row : Nat) => (List.range m).map (fun (col : Nat) => f col row))).length =
          n * m := by
  intro n
  induction n with
  | zero => simp
  | succ n ih =>
    rw [List.range_succ, List.flatMap_append, List.length_append, ih]
    simp [Nat.succ_mul]

theorem grid_get (f : Nat → Nat → ℚ) (m : Nat) :
    ∀ (n row col : Nat), row < n → col < m →
      ((List.range n).flatMap
        (fun (row : Nat) => (List.range m).map (fun (col : Nat) => f col row)))[row * m + col]? =
          some (f col row) := by
  intro n
  induction n with
  | zero => intro row col h; omega
  | succ n ih =>
    intro row col hr hc
    rw [List.range_succ, List.flatMap_append]
    by_cases hlt : row < n
    · rw [List.getElem?_append_left, ih row col hlt hc]
      rw [grid_length]
      calc row * m + col < row * m + m := by omega
        _ = (row + 1) * m := by rw [Nat.succ_mul]
        _ ≤ n * m := Nat.mul_le_mul_right m hlt
    · have hrow : row = n := by omega
      subst hrow
      rw [List.getElem?_append_right (by rw [grid_length]; omega), grid_length]
      simp [hc]

theorem cellValue_empty (b : Board) (col row : Nat)
    (h : ∀ q ∈ b.blocks, q.occupies (col : Int) (row : Int) = false) : cellValue b col row = 0 := by
  unfold cellValue
  cases hg : b.getBlockAt (col : Int) (row : Int) with
  | none => rfl
  | some o =>
    obtain ⟨ho, hoc⟩ := getBlockAt_some b _ _ o hg
    rw [h o ho] at hoc; exact absurd hoc (by simp)

theorem cellValue_occupied (b : Board) (col row : Nat) (q : Block) (hq : q ∈ b.blocks)
    (hoc : q.occupies (col : Int) (row : Int) = true) :
    ∃ o ∈ b.blocks, o.occupies (col : Int) (row : Int) = true ∧
      b.getBlockAt (col : Int) (row : Int) = some o ∧ cellValue b col row = (o.width : ℚ) / 4 := by
  obtain ⟨o, hg⟩ := getBlockAt_isSome b _ _ q hq hoc
  obtain ⟨ho, hoo⟩ := getBlockAt_some b _ _ o hg
  refine ⟨o, ho, hoo, hg, ?_⟩
  unfold cellValue
  rw [hg]
  simp only
  ring

/-- C10. `getBoardState` returns 88 values in row-major order: for every row
`0 .. 10` and column `0 .. 7` the entry at index `row * 8 + col` is 0 when no
piece occupies `(col, row)`, and otherwise `width / 4` for the piece that
`getBlockAt` finds there, a piece of the board occupying the cell; for a width
in `1 .. 4` that value is one of `1/4, 1/2, 3/4, 1`. -/
theorem getBoardState_spec (b : Board) :
    (getBoardState b).length = 88 ∧
    ∀ row col : Nat, row < 11 → col < 8 →
      ∃ v : ℚ, (getBoardState b)[row * 8 + col]? = some v ∧
        ((∀ q ∈ b.blocks, q.occupies (col : Int) (row : Int) = false) → v = 0) ∧
        ((∃ q ∈ b.blocks, q.occupies (col : Int) (row : Int) = true) →
          ∃ o ∈ b.blocks, o.occupies (col : Int) (row : Int) = true ∧
            b.getBlockAt (col : Int) (row : Int) = some o ∧ v = (o.width : ℚ) / 4 ∧
            (1 ≤ o.width → o.width ≤ 4 → v = 1 / 4 ∨ v = 1 / 2 ∨ v = 3 / 4 ∨ v = 1)) := by
  refine ⟨grid_length (cellValue b) 8 11, ?_⟩
  intro row col hr hc
  refine ⟨cellValue b col row, grid_get (cellValue b) 8 11 row col hr hc,
    cellValue_empty b col row, ?_⟩
  rintro ⟨q, hq, hoc⟩
  obtain ⟨o, ho, hoo, hg, hv⟩ := cellValue_occupied b col row q hq hoc
  refine ⟨o, ho, hoo, hg, hv, ?_⟩
  intro h1 h4
  rw [hv]
  have : o.width = 1 ∨ o.width = 2 ∨ o.width = 3 ∨ o.width = 4 := by omega
  rcases this with h | h | h | h <;> rw [h] <;> norm_num

theorem getBoardState_spec_witness :
    (5 : Nat) < 11 ∧ (1 : Nat) < 8 ∧
    (∃ q ∈ sampleBoard.blocks, q.occupies ((1 : Nat) : Int) ((5 : Nat) : Int) = true) ∧
    (getBoardState sampleBoard)[5 * 8 + 1]? = some (1 / 2) := by
  refine ⟨by decide, by decide, ⟨⟨0, 5, 2, 1⟩, by decide, by decide⟩, ?_⟩
  obtain ⟨v, hv, _, h2⟩ := (getBoardState_spec sampleBoard).2 5 1 (by decide) (by decide)
  obtain ⟨o, _, _, hg, ho, _⟩ := h2 ⟨⟨0, 5, 2, 1⟩, by decide, by decide⟩
  have hg2 : sampleBoard.getBlockAt ((1 : Nat) : Int) ((5 : Nat) : Int) = some ⟨0, 5, 2, 1⟩ := by
    decide
  rw [hg2] at hg
  injection hg with hg
  subst hg
  rw [hv, ho]
  norm_num

/-! ## Instances of the statements on sample boards -/

theorem applyGravity_settled_witness :
    ∃ p ∈ (sampleBoard.applyGravity).blocks, p.y ≤ 9 ∧
      (p.y = 9 ∨
        ∃ c : Int, ∃ o ∈ (sampleBoard.applyGravity).blocks, p.x ≤ c ∧ c < p.x + (p.width : Int) ∧
          o.occupies c (p.y + 1) = true ∧ o.id ≠ p.id) :=
  ⟨⟨1, 8, 2, 2⟩, by decide, by decide,
    applyGravity_settled sampleBoard ⟨1, 8, 2, 2⟩ (by decide) (by decide)⟩

theorem raise_rejected_iff_witness :
    (∃ p ∈ Board.blocks ⟨[⟨0, 0, 2, 1⟩, ⟨0, 9, 3, 2⟩]⟩, p.y = 0) ∧
    (instantRaiseBlocks ⟨[⟨0, 0, 2, 1⟩, ⟨0, 9, 3, 2⟩]⟩ sampleSys).2.2 = false ∧
    (instantRaiseBlocks ⟨[⟨0, 0, 2, 1⟩, ⟨0, 9, 3, 2⟩]⟩ sampleSys).1 =
      ⟨[⟨0, 0, 2, 1⟩, ⟨0, 9, 3, 2⟩]⟩ ∧
    (animateRaiseBlocks ⟨[⟨0, 0, 2, 1⟩, ⟨0, 9, 3, 2⟩]⟩ sampleSys).2.2 = false ∧
    (animateRaiseBlocks ⟨[⟨0, 0, 2, 1⟩, ⟨0, 9, 3, 2⟩]⟩ sampleSys).1 =
      ⟨[⟨0, 0, 2, 1⟩, ⟨0, 9, 3, 2⟩]⟩ :=
  have h := raise_rejected_iff ⟨[⟨0, 0, 2, 1⟩, ⟨0, 9, 3, 2⟩]⟩ sampleSys
  have hex : ∃ p ∈ Board.blocks ⟨[⟨0, 0, 2, 1⟩, ⟨0, 9, 3, 2⟩]⟩, p.y = 0 :=
    ⟨⟨0, 0, 2, 1⟩, by decide, rfl⟩
  ⟨hex, h.1.2 hex, (h.2.2.1 (h.1.2 hex)).1, h.2.1.2 hex, (h.2.2.2 (h.2.1.2 hex)).1⟩

theorem checkCompleteLines_spec_witness :
    (9 : Int) ∈ Board.checkCompleteLines ⟨[⟨0, 9, 4, 1⟩, ⟨4, 9, 4, 2⟩]⟩ ∧
    ∀ c : Int, 0 ≤ c → c < 8 →
      ∃ p ∈ Board.blocks ⟨[⟨0, 9, 4, 1⟩, ⟨4, 9, 4, 2⟩]⟩, p.occupies c 9 = true :=
  ⟨by decide,
    (((checkCompleteLines_spec ⟨[⟨0, 9, 4, 1⟩, ⟨4, 9, 4, 2⟩]⟩).2.1 9).1 (by decide)).2.2⟩

/-! ## Action decoding -/

/-- The loop of `argmax` keeps: `maxVal` is the entry at `maxIdx`, no entry seen is
larger, and every entry before `maxIdx` is smaller. -/
theorem argmaxLoop_spec :
    ∀ (rest pre : List ℚ) (maxIdx : Nat) (maxVal : ℚ),
      pre[maxIdx]? = some maxVal →
      (∀ (j : Nat) (v : ℚ), pre[j]? = some v → v ≤ maxVal) →
      (∀ (j : Nat) (v : ℚ), j < maxIdx → pre[j]? = some v → v < maxVal) →
      ∃ m : ℚ, (pre ++ rest)[argmaxLoop rest pre.length maxIdx maxVal]? = some m ∧
        (∀ (j : Nat) (v : ℚ), (pre ++ rest)[j]? = some v → v ≤ m) ∧
        (∀ (j : Nat) (v : ℚ), j < argmaxLoop rest pre.length maxIdx maxVal →
          (pre ++ rest)[j]? = some v → v < m) := by
  intro rest
  induction rest with
  | nil =>
    intro pre maxIdx maxVal h1 h2 h3
    rw [List.append_nil]
    exact ⟨maxVal, h1, h2, h3⟩
  | cons a rest ih =>
    intro pre maxIdx maxVal h1 h2 h3
    have hlen : (pre ++ [a]).length = pre.length + 1 := by simp
    have happ : pre ++ a :: rest = (pre ++ [a]) ++ rest := by simp
    have hget : ∀ (j : Nat) (v : ℚ), (pre ++ [a])[j]? = some v →
        pre[j]? = some v ∨ (j = pre.length ∧ v = a) := by
      intro j v hj
      by_cases hlt : j < pre.length
      · rw [List.getElem?_append_left hlt] at hj; exact Or.inl hj
      · rw [List.getElem?_append_right (by omega)] at hj
        have hj0 : j - pre.length = 0 := by
          by_contra hne
          obtain ⟨k, hk⟩ := Nat.exists_eq_succ_of_ne_zero hne
          rw [hk] at hj
          simp at hj
        rw [hj0] at hj
        simp at hj
        exact Or.inr ⟨by omega, hj.symm⟩
    have hidx : maxIdx < pre.length := by
      by_contra hge
      rw [List.getElem?_eq_none (by omega)] at h1
      exact absurd h1 (by simp)
    unfold argmaxLoop
    rw [happ, ← hlen]
    by_cases hgt : a > maxVal
    · rw [if_pos hgt]
      apply ih (pre ++ [a]) pre.length a
      · rw [List.getElem?_append_right (le_refl _)]; simp
      · intro j v hj
        rcases hget j v hj with h | ⟨_, h⟩
        · exact le_of_lt (lt_of_le_of_lt (h2 j v h) hgt)
        · rw [h]
      · intro j v hlt hj
        rcases hget j v hj with h | ⟨h, _⟩
        · exact lt_of_le_of_lt (h2 j v h) hgt
        · omega
    · rw [if_neg hgt]
      apply ih (pre ++ [a]) maxIdx maxVal
      · rw [List.getElem?_append_left hidx]; exact h1
      · intro j v hj
        rcases hget j v hj with h | ⟨_, h⟩
        · exact h2 j v h
        · rw [h]; exact not_lt.1 hgt
      · intro j v hlt hj
        rcases hget j v hj with h | ⟨h, _⟩
        · exact h3 j v hlt h
        · omega

theorem argmax_max (array : List ℚ) (hne : array ≠ []) :
    ∃ m : ℚ, array[argmax array]? = some m ∧
      (∀ (j : Nat) (v : ℚ), array[j]? = some v → v ≤ m) ∧
      (∀ (j : Nat) (v : ℚ), j < argmax array → array[j]? = some v → v < m) := by
  cases array with
  | nil => exact absurd rfl hne
  | cons a rest =>
    obtain ⟨m, h1, h2, h3⟩ := argmaxLoop_spec rest [a] 0 a rfl
      (by
        intro j v hj
        cases j with
        | zero => simp at hj; rw [hj]
        | succ j => simp at hj)
      (by intro j v hlt; omega)
    have e : argmax (a :: rest) = argmaxLoop rest [a].length 0 a := rfl
    have e2 : [a] ++ rest = a :: rest := rfl
    rw [e2] at h1 h2 h3
    rw [← e] at h1 h3
    exact ⟨m, h1, h2, h3⟩

/-- C12. For a non-empty array, `argmax` returns the lowest index holding the
maximum: the entry at the returned index is at least every entry, and every entry
at a smaller index is strictly smaller; hence an array whose entry at `k` is
strictly larger than every other entry decodes to `k`. -/
theorem argmax_spec (array : List ℚ) (hne : array ≠ []) :
    ∃ m : ℚ, array[argmax array]? = some m ∧
      (∀ (j : Nat) (v : ℚ), array[j]? = some v → v ≤ m) ∧
      (∀ (j : Nat) (v : ℚ), j < argmax array → array[j]? = some v → v < m) ∧
      (∀ (k : Nat) (w : ℚ), array[k]? = some w →
        (∀ (j : Nat) (v : ℚ), j ≠ k → array[j]? = some v → v < w) → argmax array = k) := by
  obtain ⟨m, h1, h2, h3⟩ := argmax_max array hne
  refine ⟨m, h1, h2, h3, ?_⟩
  intro k w hk huniq
  by_contra hkne
  have hlt := huniq (argmax array) m hkne h1
  have hle := h2 k w hk
  exact absurd hlt (not_lt.2 hle)

theorem argmax_spec_witness :
    ([1, 3, 3, 2] : List ℚ) ≠ [] ∧ argmax [1, 3, 3, 2] = 1 ∧
    ∃ m : ℚ, ([1, 3, 3, 2] : List ℚ)[argmax [1, 3, 3, 2]]? = some m ∧
      (∀ (j : Nat) (v : ℚ), ([1, 3, 3, 2] : List ℚ)[j]? = some v → v ≤ m) := by
  obtain ⟨m, h1, h2, _⟩ := argmax_spec [1, 3, 3, 2] (by simp)
  exact ⟨by simp, by decide, m, h1, h2⟩

theorem argmax_lt_length (array : List ℚ) (hne : array ≠ []) : argmax array < array.length := by
  obtain ⟨m, h1, _⟩ := argmax_max array hne
  by_contra hge
  rw [List.getElem?_eq_none (by omega)] at h1
  exact absurd h1 (by simp)

theorem argmax_lt (array : List ℚ) (n : Nat) (hn : 0 < n) (hl : array.length ≤ n) :
    argmax array < n := by
  cases array with
  | nil => exact hn
  | cons a rest => exact lt_of_lt_of_le (argmax_lt_length _ (by simp)) hl

theorem slice_length_le (array : List ℚ) (start stop : Nat) :
    (slice array start stop).length ≤ stop - start := by
  unfold slice
  rw [List.length_take]
  exact Nat.min_le_left _ _

/-- C11, as the code has it. `parseAction` reads three contiguous segments of
lengths 8, 10 and 8 (26 values): `selectPos.col` is the arg-max of
`outputs[0..8)`, `selectPos.row` the arg-max of `outputs[8..18)` and `targetCol`
the arg-max of `outputs[18..26)`; the decoded row is below 10, so the preview row
is never decoded. For 26 outputs the three segments make up the whole vector. -/
theorem parseAction_segments (outputs : List ℚ) :
    (parseAction outputs).selectPos.col = argmax (slice outputs 0 8) ∧
    (parseAction outputs).selectPos.row = argmax (slice outputs 8 18) ∧
    (parseAction outputs).targetCol = argmax (slice outputs 18 26) ∧
    (parseAction outputs).selectPos.col < 8 ∧
    (parseAction outputs).selectPos.row < 10 ∧
    (parseAction outputs).targetCol < 8 ∧
    (outputs.length = 26 →
      (slice outputs 0 8).length = 8 ∧ (slice outputs 8 18).length = 10 ∧
      (slice outputs 18 26).length = 8 ∧
      slice outputs 0 8 ++ slice outputs 8 18 ++ slice outputs 18 26 = outputs) := by
  refine ⟨rfl, rfl, rfl, argmax_lt _ 8 (by decide) (slice_length_le _ 0 8),
    argmax_lt _ 10 (by decide) (slice_length_le _ 8 18),
    argmax_lt _ 8 (by decide) (slice_length_le _ 18 26), ?_⟩
  intro h
  unfold slice
  refine ⟨by simp [h], by simp [h], by simp [h], ?_⟩
  simp only [List.drop_zero, Nat.sub_zero]
  have e1 : List.take (18 - 8) (List.drop 8 outputs) = List.take 10 (List.drop 8 outputs) := rfl
  have e2 : List.take (26 - 18) (List.drop 18 outputs) = List.drop 18 outputs := by
    apply List.take_of_length_le
    simp [h]
  have e3 : List.drop 18 outputs = List.drop 10 (List.drop 8 outputs) := by
    rw [List.drop_drop]
  rw [e1, e2, e3, List.append_assoc, List.take_append_drop, List.take_append_drop]

/-- C11, counterexample. On `outputs27` the arg-max of `outputs[8..19)` is 10 and
that of `outputs[19..27)` is 7, while `parseAction` decodes row 0 and target
column 0: it reads `outputs[8..18)` and `outputs[18..26)`. -/
theorem parseAction_not_27 :
    argmax (slice outputs27 8 19) = 10 ∧ (parseAction outputs27).selectPos.row = 0 ∧
    argmax (slice outputs27 19 27) = 7 ∧ (parseAction outputs27).targetCol = 0 ∧
    (parseAction outputs27).selectPos.row ≠ argmax (slice outputs27 8 19) ∧
    (parseAction outputs27).targetCol ≠ argmax (slice outputs27 19 27) := by
  decide

theorem parseAction_segments_witness :
    (List.replicate 26 (0 : ℚ)).length = 26 ∧
    (slice (List.replicate 26 (0 : ℚ)) 8 18).length = 10 ∧
    slice (List.replicate 26 (0 : ℚ)) 0 8 ++ slice (List.replicate 26 (0 : ℚ)) 8 18 ++
      slice (List.replicate 26 (0 : ℚ)) 18 26 = List.replicate 26 (0 : ℚ) :=
  have h := (parseAction_segments (List.replicate 26 (0 : ℚ))).2.2.2.2.2.2 (by simp)
  ⟨by simp, h.2.1, h.2.2.2⟩

/-! ## Fitness -/

/-- C13. `getFitness game` is `max 0 ((score + 1) * k)` with `k = 1/10` when
`moveCount` is unset or below 5 and `k = 1` otherwise; for a score that is not
negative the fitness is strictly positive, and it is `score + 1` when
`moveCount` is at least 5. -/
theorem getFitness_spec (g : Game) :
    ((g.moveCount = none ∨ ∃ n, g.moveCount = some n ∧ n < 5) →
      getFitness g = max 0 (((g.score : ℚ) + 1) * (1 / 10))) ∧
    ((∃ n, g.moveCount = some n ∧ 5 ≤ n) → getFitness g = max 0 (((g.score : ℚ) + 1) * 1)) ∧
    (0 ≤ g.score → 0 < getFitness g) ∧
    (0 ≤ g.score → (∃ n, g.moveCount = some n ∧ 5 ≤ n) → getFitness g = (g.score : ℚ) + 1) := by
  have hpos : 0 ≤ g.score → (0 : ℚ) < (g.score : ℚ) + 1 := by
    intro h
    have : (0 : ℚ) ≤ (g.score : ℚ) := by exact_mod_cast h
    linarith
  refine ⟨?_, ?_, ?_, ?_⟩
  · intro h
    have hlt : g.moveCount.getD 0 < 5 := by
      rcases h with h | ⟨n, h, hn⟩
      · rw [h]; decide
      · rw [h]; exact hn
    unfold getFitness
    simp only [if_pos hlt]
  · rintro ⟨n, h, hn⟩
    unfold getFitness
    rw [h]
    simp only [Option.getD_some, if_neg (not_lt.2 hn), mul_one]
  · intro h
    unfold getFitness
    apply lt_max_of_lt_right
    split
    · have := hpos h; linarith
    · exact hpos h
  · rintro h ⟨n, hm, hn⟩
    unfold getFitness
    rw [hm]
    simp only [Option.getD_some, if_neg (not_lt.2 hn)]
    exact max_eq_right (le_of_lt (hpos h))

/-! ## A turn -/

theorem clearLines_nil (b : Board) : b.clearLines [] = b := by
  unfold Board.clearLines; simp

theorem clearLines_settled (b : Board) (rows : List Int) (h : rows ≠ []) :
    (b.clearLines rows).applyGravity = b.clearLines rows := by
  unfold Board.clearLines
  rw [if_neg (by simpa [List.length_eq_zero] using h)]
  exact gravityLoop_of_stable _ (applyGravity_stable _) _

theorem settleAndClear_eq (g : Game) :
    g.settleAndClear =
      { g with
        score := g.score + (calculateScore (g.board.applyGravity).checkCompleteLines.length : Int),
        board := (g.board.applyGravity).clearLines (g.board.applyGravity).checkCompleteLines } := by
  unfold Game.settleAndClear
  simp only
  split
  · rfl
  · rename_i h
    have h0 : (g.board.applyGravity).checkCompleteLines = [] := by
      rw [← List.length_eq_zero]; omega
    rw [h0, clearLines_nil]
    simp [calculateScore]

theorem afterRaise_eq (g : Game) :
    g.afterRaise =
      { g with
        score := g.score + (calculateScore (g.board.applyGravity).checkCompleteLines.length : Int),
        board := (g.board.applyGravity).clearLines (g.board.applyGravity).checkCompleteLines } := by
  unfold Game.afterRaise
  simp only
  split
  · rename_i h
    rw [clearLines_settled _ _ (by intro e; rw [e] at h; simp at h)]
  · rename_i h
    have h0 : (g.board.applyGravity).checkCompleteLines = [] := by
      rw [← List.length_eq_zero]; omega
    rw [h0, clearLines_nil]
    simp [calculateScore]

/-- C14. In interactive mode, `confirmMove` on a selected piece whose column is
the column recorded at selection clears the selection and changes nothing else:
board, score, state and every other field are as before, and no draw or id is
taken (no gravity, clear or raise runs). -/
theorem confirmMove_unmoved (g : Game) (s : Sys) (i : Nat) (block : Block)
    (hskip : g.skipAnimations = false) (hanim : g.isAnimating = false)
    (hsel : g.selectedBlock = some i) (hblk : g.board.blocks[i]? = some block)
    (hx : g.selectedBlockOriginalX = some block.x) :
    g.confirmMove s = ({ g with selectedBlock := none, selectedBlockOriginalX := none }, s) := by
  unfold Game.confirmMove
  rw [hsel]
  simp only [hanim, hblk, hskip, hx]
  simp

theorem confirmMove_accepted (g : Game) (s : Sys) (i : Nat) (block : Block)
    (hanim : g.isAnimating = false)
    (hsel : g.selectedBlock = some i) (hblk : g.board.blocks[i]? = some block)
    (hgo : (!g.skipAnimations && decide (g.selectedBlockOriginalX = some block.x)) = false) :
    g.confirmMove s =
      Game.resolveTurn
        { g with isAnimating := true, selectedBlock := none, selectedBlockOriginalX := none }
        s := by
  unfold Game.confirmMove
  rw [hsel]
  simp only
  rw [hanim]
  simp only [Bool.false_eq_true, if_false]
  rw [hblk]
  simp only
  rw [hgo]
  simp only [Bool.false_eq_true, if_false]

theorem resolveTurn_gameover (g : Game) (s : Sys) (hskip : g.skipAnimations = true)
    (htop : hasBlockAtTop g.settleAndClear.board = true) :
    g.resolveTurn s = ({ g.settleAndClear with state := GameState.gameover }, s) := by
  have hs : g.settleAndClear.skipAnimations = true := by
    rw [settleAndClear_eq]; exact hskip
  unfold Game.resolveTurn
  simp only [hskip, if_true]
  unfold instantRaiseBlocks
  rw [if_pos htop]
  simp only [Bool.not_false, if_true]
  unfold Game.gameOver
  simp only [hs, Bool.not_true, Bool.false_and, Bool.false_eq_true, if_false]

theorem resolveTurn_raised (g : Game) (s : Sys) (hskip : g.skipAnimations = true)
    (htop : hasBlockAtTop g.settleAndClear.board = false) :
    g.resolveTurn s =
      ({ Game.afterRaise { g.settleAndClear with
            board := (((raiseShift g.settleAndClear.board).applyGravity).generatePreviewBlocks
              s).1 } with isAnimating := false },
        (((raiseShift g.settleAndClear.board).applyGravity).generatePreviewBlocks s).2) := by
  unfold Game.resolveTurn
  simp only [hskip, if_true]
  unfold instantRaiseBlocks
  have hn : ¬ (hasBlockAtTop g.settleAndClear.board = true) := by rw [htop]; simp
  rw [if_neg hn]
  simp only [Bool.not_true, Bool.false_eq_true, if_false]

/-- C15. An accepted headless turn: with `B1` the settled board, `L1` its complete
rows and `B2 = clearLines B1 L1`; if a piece is in row 0 of `B2` the state
becomes `gameover`, the board is `B2` and the score has grown by
`calculateScore |L1|`; otherwise, with `B3` the board raised, settled, refilled
and settled, and `L2` its complete rows, the board is `clearLines B3 L2`, the
state is still `playing` and the score has grown by
`calculateScore |L1| + calculateScore |L2|`. -/
theorem confirmMove_headless (g : Game) (s : Sys) (i : Nat) (block : Block)
    (hskip : g.skipAnimations = true) (hanim : g.isAnimating = false)
    (hsel : g.selectedBlock = some i) (hblk : g.board.blocks[i]? = some block)
    (hst : g.state = GameState.playing) :
    ((∃ p ∈ ((g.board.applyGravity).clearLines
        (g.board.applyGravity).checkCompleteLines).blocks, p.y = 0) →
      (g.confirmMove s).1.state = GameState.gameover ∧
      (g.confirmMove s).1.board =
        (g.board.applyGravity).clearLines (g.board.applyGravity).checkCompleteLines ∧
      (g.confirmMove s).1.score =
        g.score + (calculateScore (g.board.applyGravity).checkCompleteLines.length : Int)) ∧
    ((¬ ∃ p ∈ ((g.board.applyGravity).clearLines
        (g.board.applyGravity).checkCompleteLines).blocks, p.y = 0) →
      (g.confirmMove s).1.state = GameState.playing ∧
      (g.confirmMove s).1.board =
        (((((raiseShift ((g.board.applyGravity).clearLines
          (g.board.applyGravity).checkCompleteLines)).applyGravity).generatePreviewBlocks
            s).1).applyGravity).clearLines
          (((((raiseShift ((g.board.applyGravity).clearLines
            (g.board.applyGravity).checkCompleteLines)).applyGravity).generatePreviewBlocks
              s).1).applyGravity).checkCompleteLines ∧
      (g.confirmMove s).1.score =
        g.score + (calculateScore (g.board.applyGravity).checkCompleteLines.length : Int) +
          (calculateScore
            (((((raiseShift ((g.board.applyGravity).clearLines
              (g.board.applyGravity).checkCompleteLines)).applyGravity).generatePreviewBlocks
                s).1).applyGravity).checkCompleteLines.length : Int)) := by
  rw [← hasBlockAtTop_iff]
  rw [confirmMove_accepted g s i block hanim hsel hblk (by rw [hskip]; rfl)]
  have hk : ({ g with isAnimating := true, selectedBlock := none,
                      selectedBlockOriginalX := none } : Game).skipAnimations = true := hskip
  have hb : (Game.settleAndClear
      { g with isAnimating := true, selectedBlock := none, selectedBlockOriginalX := none }).board =
      (g.board.applyGravity).clearLines (g.board.applyGravity).checkCompleteLines := by
    rw [settleAndClear_eq]
  constructor
  · intro htop
    rw [resolveTurn_gameover
      { g with isAnimating := true, selectedBlock := none, selectedBlockOriginalX := none }
      s hk (by rw [hb]; exact htop), settleAndClear_eq]
    exact ⟨rfl, rfl, rfl⟩
  · intro htop
    have htop : hasBlockAtTop ((g.board.applyGravity).clearLines
        (g.board.applyGravity).checkCompleteLines) = false := by simpa using htop
    rw [resolveTurn_raised
      { g with isAnimating := true, selectedBlock := none, selectedBlockOriginalX := none }
      s hk (by rw [hb]; exact htop), afterRaise_eq, settleAndClear_eq]
    simp only [and_true]
    exact hst

/-! ## The agent's turn -/

theorem settleAndClear_frame (g : Game) :
    g.settleAndClear.state = g.state ∧ g.settleAndClear.moveCount = g.moveCount ∧
    g.settleAndClear.skipAnimations = g.skipAnimations := by
  unfold Game.settleAndClear
  simp only
  split <;> exact ⟨rfl, rfl, rfl⟩

theorem afterRaise_frame (g : Game) :
    g.afterRaise.state = g.state ∧ g.afterRaise.moveCount = g.moveCount := by
  unfold Game.afterRaise
  simp only
  split <;> exact ⟨rfl, rfl⟩

theorem gameOver_moveCount (g : Game) : g.gameOver.moveCount = g.moveCount := by
  unfold Game.gameOver
  split <;> rfl

theorem resolveTurn_moveCount (g : Game) (s : Sys) :
    (g.resolveTurn s).1.moveCount = g.moveCount := by
  unfold Game.resolveTurn
  simp only
  generalize (if g.skipAnimations = true then instantRaiseBlocks g.settleAndClear.board s
    else animateRaiseBlocks g.settleAndClear.board s) = r
  by_cases h : (!r.2.2) = true
  · rw [if_pos h, gameOver_moveCount]; exact (settleAndClear_frame g).2.1
  · rw [if_neg h]
    simp only
    rw [(afterRaise_frame _).2]
    exact (settleAndClear_frame g).2.1

theorem confirmMove_moveCount (g : Game) (s : Sys) :
    (g.confirmMove s).1.moveCount = g.moveCount := by
  unfold Game.confirmMove
  split
  · rfl
  · split
    · rfl
    · split
      · rfl
      · split
        · rfl
        · rw [resolveTurn_moveCount]

theorem moveAndConfirm_false (g : Game) (i targetCol : Nat) (s : Sys)
    (h : (g.moveAndConfirm i targetCol s).2.2 = false) :
    (g.moveAndConfirm i targetCol s).1 = g ∨
      (g.moveAndConfirm i targetCol s).1 =
        { g with selectedBlock := none, selectedBlockOriginalX := none } := by
  unfold Game.moveAndConfirm at h ⊢
  cases hb : g.board.blocks[i]? with
  | none => exact Or.inl rfl
  | some block =>
    rw [hb] at h
    simp only at h ⊢
    by_cases hm : (g.board.tryMoves i block targetCol).2 = true
    · rw [if_pos hm] at h; exact absurd h (by simp)
    · rw [if_neg hm]; exact Or.inr rfl

theorem moveAndConfirm_moveCount (g : Game) (i targetCol : Nat) (s : Sys) :
    (g.moveAndConfirm i targetCol s).1.moveCount = g.moveCount := by
  unfold Game.moveAndConfirm
  cases hb : g.board.blocks[i]? with
  | none => rfl
  | some block =>
    simp only
    by_cases hm : (g.board.tryMoves i block targetCol).2 = true
    · rw [if_pos hm]; simp only; rw [confirmMove_moveCount]
    · rw [if_neg hm]

/-- What `performAIAction` leaves behind when it returns `false`: the game as it
was, or the game with the selection cleared. -/
theorem performAIAction_false (g : Game) (action : Action) (s : Sys)
    (h : (g.performAIAction action s).2.2 = false) :
    (g.performAIAction action s).1 = g ∨
      (g.performAIAction action s).1 =
        { g with selectedBlock := none, selectedBlockOriginalX := none } := by
  unfold Game.performAIAction at h ⊢
  by_cases h1 : g.state ≠ GameState.playing ∨ g.isAnimating = true
  · rw [if_pos h1]; exact Or.inl rfl
  · rw [if_neg h1] at h ⊢
    by_cases h2 : g.board.playablePositions.length = 0
    · rw [if_pos h2]; exact Or.inl rfl
    · rw [if_neg h2] at h ⊢
      exact moveAndConfirm_false g _ _ _ h

theorem performAIAction_moveCount (g : Game) (action : Action) (s : Sys) :
    (g.performAIAction action s).1.moveCount = g.moveCount := by
  unfold Game.performAIAction
  by_cases h1 : g.state ≠ GameState.playing ∨ g.isAnimating = true
  · rw [if_pos h1]
  · rw [if_neg h1]
    by_cases h2 : g.board.playablePositions.length = 0
    · rw [if_pos h2]
    · rw [if_neg h2]; exact moveAndConfirm_moveCount g _ _ _

/-! ## The positions picked are positions of the board -/

theorem mem_playablePositions (b : Board) (i : Nat) :
    i ∈ b.playablePositions ↔ i < b.blocks.length ∧ b.rowAt i < 10 := by
  unfold Board.playablePositions
  simp

theorem positionAt_lt (b : Board) (col row : Int) (i : Nat) (h : b.positionAt col row = some i) :
    i < b.blocks.length := by
  unfold Board.positionAt at h
  rw [List.findIdx?_eq_some_iff_findIdx_eq] at h
  exact h.1

theorem pickBlock_lt (g : Game) (action : Action) (s : Sys)
    (hp : g.board.playablePositions.length ≠ 0) :
    (g.pickBlock action s).1 < g.board.blocks.length := by
  unfold Game.pickBlock
  split
  · rename_i i hi
    split at hi
    · exact positionAt_lt _ _ _ _ hi
    · exact absurd hi (by simp)
  · simp only
    have hlt : (s.randomBelow g.board.playablePositions.length).1 <
        g.board.playablePositions.length := by
      unfold Sys.randomBelow
      exact Nat.mod_lt _ (Nat.pos_of_ne_zero hp)
    rw [List.getD_eq_getElem _ _ hlt]
    exact ((mem_playablePositions _ _).1 (List.getElem_mem _)).1

/-- C17. A failed agent turn mutates nothing: whenever `performAIAction` returns
`false`, the board (every piece and the piece list), the score, the state and
`moveCount` are as before the call; the selection is empty afterwards if it was
empty before, and in any case once the call got past its first two tests (state
`playing`, not animating, some playable piece). -/
theorem performAIAction_failed_frame (g : Game) (action : Action) (s : Sys)
    (h : (g.performAIAction action s).2.2 = false) :
    (g.performAIAction action s).1.board = g.board ∧
    (g.performAIAction action s).1.score = g.score ∧
    (g.performAIAction action s).1.state = g.state ∧
    (g.performAIAction action s).1.moveCount = g.moveCount ∧
    (g.selectedBlock = none → (g.performAIAction action s).1.selectedBlock = none) ∧
    (g.state = GameState.playing → g.isAnimating = false →
      g.board.playablePositions.length ≠ 0 →
      (g.performAIAction action s).1.selectedBlock = none ∧
      (g.performAIAction action s).1.selectedBlockOriginalX = none) := by
  have hcases := performAIAction_false g action s h
  refine ⟨?_, ?_, ?_, ?_, ?_, ?_⟩
  · rcases hcases with e | e <;> rw [e]
  · rcases hcases with e | e <;> rw [e]
  · rcases hcases with e | e <;> rw [e]
  · rcases hcases with e | e <;> rw [e]
  · intro hs
    rcases hcases with e | e <;> rw [e]
    exact hs
  · intro hst han hp
    unfold Game.performAIAction at h ⊢
    have h1 : ¬ (g.state ≠ GameState.playing ∨ g.isAnimating = true) := by
      rw [hst, han]; simp
    rw [if_neg h1, if_neg hp] at h ⊢
    obtain ⟨block, hb⟩ : ∃ block, g.board.blocks[(g.pickBlock action s).1]? = some block :=
      ⟨_, List.getElem?_eq_getElem (pickBlock_lt g action s hp)⟩
    unfold Game.moveAndConfirm at h ⊢
    rw [hb] at h ⊢
    simp only at h ⊢
    by_cases hm : (g.board.tryMoves (g.pickBlock action s).1 block action.targetCol).2 = true
    · rw [if_pos hm] at h; exact absurd h (by simp)
    · rw [if_neg hm]; exact ⟨rfl, rfl⟩

/-! ## The simulation loop -/

theorem runIteration_moveCount {σ : Type} (activate : σ → List ℚ → List ℚ × σ)
    (st : RunState σ) : (runIteration activate st).moveCount = st.moveCount + 1 := by
  unfold runIteration
  simp only
  split <;> rfl

theorem runIteration_genome {σ : Type} (activate : σ → List ℚ → List ℚ × σ)
    (st : RunState σ) :
    (runIteration activate st).genome =
      (activate st.genome (getBoardState st.game.board)).2 := by
  unfold runIteration
  simp only
  split <;> rfl

/-- The loop is left by its condition, not for lack of fuel: started with
`moveCount + fuel = 500` it ends in a state where the condition fails. -/
theorem runLoop_exit {σ : Type} (activate : σ → List ℚ → List ℚ × σ) :
    ∀ (fuel : Nat) (st : RunState σ), st.moveCount + fuel = 500 →
      (runLoop activate fuel st).continues = false ∧
        (runLoop activate fuel st).moveCount ≤ 500 := by
  intro fuel
  induction fuel with
  | zero =>
    intro st h
    unfold runLoop
    refine ⟨?_, by omega⟩
    unfold RunState.continues
    have : ¬ st.moveCount < 500 := by omega
    simp [this]
  | succ fuel ih =>
    intro st h
    unfold runLoop
    by_cases hc : st.continues = true
    · rw [if_pos hc]
      exact ih _ (by rw [runIteration_moveCount]; omega)
    · rw [if_neg hc]
      exact ⟨by simpa using hc, by omega⟩

theorem runLoop_calls {σ : Type} (activate : σ → List ℚ → List ℚ × σ) :
    ∀ (fuel : Nat) (st : RunState (σ × Nat)), st.genome.2 = st.moveCount →
      (runLoop (countCalls activate) fuel st).genome.2 =
        (runLoop (countCalls activate) fuel st).moveCount := by
  intro fuel
  induction fuel with
  | zero => intro st h; exact h
  | succ fuel ih =>
    intro st h
    unfold runLoop
    by_cases hc : st.continues = true
    · rw [if_pos hc]
      apply ih
      rw [runIteration_moveCount, runIteration_genome, ← h]
      rfl
    · rw [if_neg hc]; exact h

/-- C16. `runGameInstance` returns a fitness for every genome and every outcome
of the random draws: its loop runs at most 500 iterations (a genome that counts
its activations counts at most 500), the loop is left because its condition
fails, that is the state is not `playing`, or 500 iterations are done, or 10
consecutive failures are reached, and the value returned is `getFitness` of the
game at that point. -/
theorem runGameInstance_terminates {σ : Type} (activate : σ → List ℚ → List ℚ × σ)
    (genome : σ) (skipAnimations : Bool) (s : Sys) :
    (runGameFinal activate genome skipAnimations s).moveCount ≤ 500 ∧
    (runGameFinal (countCalls activate) (genome, 0) skipAnimations s).genome.2 ≤ 500 ∧
    ((runGameFinal activate genome skipAnimations s).game.state ≠ GameState.playing ∨
      (runGameFinal activate genome skipAnimations s).moveCount = 500 ∨
      10 ≤ (runGameFinal activate genome skipAnimations s).consecutiveFailures) ∧
    runGameInstance activate genome skipAnimations s =
      getFitness (runGameFinal activate genome skipAnimations s).game := by
  have h1 := runLoop_exit activate 500
    { game := (newGameInstance skipAnimations s).1, sys := (newGameInstance skipAnimations s).2,
      genome := genome, moveCount := 0, consecutiveFailures := 0 } rfl
  have h2 := runLoop_exit (countCalls activate) 500
    { game := (newGameInstance skipAnimations s).1, sys := (newGameInstance skipAnimations s).2,
      genome := (genome, 0), moveCount := 0, consecutiveFailures := 0 } rfl
  have h3 := runLoop_calls activate 500
    { game := (newGameInstance skipAnimations s).1, sys := (newGameInstance skipAnimations s).2,
      genome := (genome, 0), moveCount := 0, consecutiveFailures := 0 } rfl
  refine ⟨h1.2, ?_, ?_, rfl⟩
  · unfold runGameFinal
    rw [h3]
    exact h2.2
  · have hc := h1.1
    unfold RunState.continues at hc
    unfold runGameFinal
    simp only [Bool.and_eq_false_iff, decide_eq_false_iff_not, not_lt] at hc
    rcases hc with (hc | hc) | hc
    · exact Or.inl hc
    · exact Or.inr (Or.inl (le_antisymm h1.2 hc))
    · exact Or.inr (Or.inr hc)

/-! ## The score never falls and `moveCount` stays set during a run -/

theorem settleAndClear_score (g : Game) : g.score ≤ g.settleAndClear.score := by
  rw [settleAndClear_eq]
  simp only
  have : (0 : Int) ≤ (calculateScore (g.board.applyGravity).checkCompleteLines.length : Int) :=
    Int.ofNat_nonneg _
  omega

theorem afterRaise_score (g : Game) : g.score ≤ g.afterRaise.score := by
  rw [afterRaise_eq]
  simp only
  have : (0 : Int) ≤ (calculateScore (g.board.applyGravity).checkCompleteLines.length : Int) :=
    Int.ofNat_nonneg _
  omega

theorem gameOver_score (g : Game) : g.gameOver.score = g.score := by
  unfold Game.gameOver
  split <;> rfl

theorem resolveTurn_score (g : Game) (s : Sys) : g.score ≤ (g.resolveTurn s).1.score := by
  unfold Game.resolveTurn
  simp only
  generalize (if g.skipAnimations = true then instantRaiseBlocks g.settleAndClear.board s
    else animateRaiseBlocks g.settleAndClear.board s) = r
  by_cases h : (!r.2.2) = true
  · rw [if_pos h, gameOver_score]; exact settleAndClear_score g
  · rw [if_neg h]
    have h1 := settleAndClear_score g
    have h2 := afterRaise_score { g.settleAndClear with board := r.1 }
    simp only at h2 ⊢
    exact le_trans h1 h2

theorem confirmMove_score (g : Game) (s : Sys) : g.score ≤ (g.confirmMove s).1.score := by
  have h := resolveTurn_score
    { g with isAnimating := true, selectedBlock := none, selectedBlockOriginalX := none } s
  simp only at h
  unfold Game.confirmMove
  split
  · exact le_refl _
  · split
    · exact le_refl _
    · split
      · exact le_refl _
      · split
        · exact le_refl _
        · exact h

theorem moveAndConfirm_score (g : Game) (i targetCol : Nat) (s : Sys) :
    g.score ≤ (g.moveAndConfirm i targetCol s).1.score := by
  unfold Game.moveAndConfirm
  cases hb : g.board.blocks[i]? with
  | none => exact le_refl _
  | some block =>
    simp only
    have h := confirmMove_score
      { g with board := (g.board.tryMoves i block targetCol).1, selectedBlock := some i,
               selectedBlockOriginalX := some block.x } s
    simp only at h
    by_cases hm : (g.board.tryMoves i block targetCol).2 = true
    · rw [if_pos hm]; exact h
    · rw [if_neg hm]

theorem performAIAction_score (g : Game) (action : Action) (s : Sys) :
    g.score ≤ (g.performAIAction action s).1.score := by
  unfold Game.performAIAction
  by_cases h1 : g.state ≠ GameState.playing ∨ g.isAnimating = true
  · rw [if_pos h1]
  · rw [if_neg h1]
    by_cases h2 : g.board.playablePositions.length = 0
    · rw [if_pos h2]
    · rw [if_neg h2]; exact moveAndConfirm_score g _ _ _

theorem runIteration_inv {σ : Type} (activate : σ → List ℚ → List ℚ × σ) (st : RunState σ) :
    st.game.score ≤ (runIteration activate st).game.score ∧
    (st.game.moveCount.isSome = true →
      (runIteration activate st).game.moveCount.isSome = true) := by
  unfold runIteration
  simp only
  split
  · exact ⟨performAIAction_score _ _ _, by rw [performAIAction_moveCount]; exact id⟩
  · refine ⟨performAIAction_score _ _ _, ?_⟩
    simp only [performAIAction_moveCount]
    intro h
    rw [Option.isSome_iff_exists] at h
    obtain ⟨n, hn⟩ := h
    rw [hn]; rfl

theorem runLoop_inv {σ : Type} (activate : σ → List ℚ → List ℚ × σ) :
    ∀ (fuel : Nat) (st : RunState σ), 0 ≤ st.game.score → st.game.moveCount.isSome = true →
      0 ≤ (runLoop activate fuel st).game.score ∧
        (runLoop activate fuel st).game.moveCount.isSome = true := by
  intro fuel
  induction fuel with
  | zero => intro st h1 h2; exact ⟨h1, h2⟩
  | succ fuel ih =>
    intro st h1 h2
    unfold runLoop
    by_cases hc : st.continues = true
    · rw [if_pos hc]
      exact ih _ (le_trans h1 (runIteration_inv activate st).1)
        ((runIteration_inv activate st).2 h2)
    · rw [if_neg hc]; exact ⟨h1, h2⟩

/-- C18, as the code has it. In an iteration of `runGameInstance` the failure
counter is reset to 0 and `gameInstance.moveCount` is incremented exactly when
the number of pieces or the score grew during `performAIAction`
(`turnProgressed`); otherwise the counter is incremented by one and `moveCount`
and the score are unchanged. An iteration in which `performAIAction` returned
`false` is always of the second kind. -/
theorem runIteration_counters {σ : Type} (activate : σ → List ℚ → List ℚ × σ)
    (st : RunState σ) :
    (turnProgressed st.game (st.game.performAIAction
        (parseAction (activate st.genome (getBoardState st.game.board)).1) st.sys).1 = true →
      (runIteration activate st).consecutiveFailures = 0 ∧
      (runIteration activate st).game.moveCount = st.game.moveCount.map (fun n => n + 1)) ∧
    (turnProgressed st.game (st.game.performAIAction
        (parseAction (activate st.genome (getBoardState st.game.board)).1) st.sys).1 = false →
      (runIteration activate st).consecutiveFailures = st.consecutiveFailures + 1 ∧
      (runIteration activate st).game.moveCount = st.game.moveCount ∧
      (runIteration activate st).game.score = st.game.score) ∧
    ((st.game.performAIAction
        (parseAction (activate st.genome (getBoardState st.game.board)).1) st.sys).2.2 = false →
      turnProgressed st.game (st.game.performAIAction
        (parseAction (activate st.genome (getBoardState st.game.board)).1) st.sys).1 = false) := by
  refine ⟨?_, ?_, ?_⟩
  · intro h
    unfold runIteration
    simp only [h, Bool.not_true, Bool.false_eq_true, if_false]
    rw [performAIAction_moveCount]
    exact ⟨trivial, rfl⟩
  · intro h
    have hle := performAIAction_score st.game
      (parseAction (activate st.genome (getBoardState st.game.board)).1) st.sys
    have hge : ¬ (st.game.performAIAction
        (parseAction (activate st.genome (getBoardState st.game.board)).1) st.sys).1.score >
        st.game.score := by
      intro hgt
      unfold turnProgressed at h
      rw [Bool.or_eq_false_iff] at h
      exact absurd hgt (by simpa using h.2)
    unfold runIteration
    simp only [h, Bool.not_false, if_true]
    rw [performAIAction_moveCount]
    exact ⟨trivial, rfl, by omega⟩
  · intro h
    unfold turnProgressed
    rcases performAIAction_false _ _ _ h with e | e <;> rw [e] <;> simp

theorem newGameInstance_score (skipAnimations : Bool) (s : Sys) :
    (newGameInstance skipAnimations s).1.score = 0 ∧
    (newGameInstance skipAnimations s).1.moveCount = some 0 := ⟨rfl, rfl⟩

theorem runGameFinal_inv {σ : Type} (activate : σ → List ℚ → List ℚ × σ)
    (genome : σ) (skipAnimations : Bool) (s : Sys) :
    0 ≤ (runGameFinal activate genome skipAnimations s).game.score ∧
    (runGameFinal activate genome skipAnimations s).game.moveCount.isSome = true := by
  unfold runGameFinal
  apply runLoop_inv
  · simp only
    rw [(newGameInstance_score skipAnimations s).1]
  · simp only
    rw [(newGameInstance_score skipAnimations s).2]
    rfl

theorem getFitness_of_count (g : Game) (n : Nat) (hs : 0 ≤ g.score) (hn : g.moveCount = some n) :
    (n < 5 → getFitness g = ((g.score : ℚ) + 1) * (1 / 10)) ∧
    (5 ≤ n → getFitness g = (g.score : ℚ) + 1) := by
  have hpos : (0 : ℚ) < (g.score : ℚ) + 1 := by
    have : (0 : ℚ) ≤ (g.score : ℚ) := by exact_mod_cast hs
    linarith
  constructor
  · intro hlt
    unfold getFitness
    rw [hn]
    simp only [Option.getD_some, if_pos hlt]
    exact max_eq_right (by linarith)
  · intro hge
    unfold getFitness
    rw [hn]
    simp only [Option.getD_some, if_neg (not_lt.2 hge)]
    exact max_eq_right (le_of_lt hpos)

/-- The fitness that the code returns, for every run (what holds of C19): the
value returned by `runGameInstance`, also when the run ends on 10 consecutive
failures, is `(score + 1) * 0.1`
if fewer than 5 turns were counted (`moveCount < 5`) and `score + 1` otherwise,
where `score` and `moveCount` are those of the game when the loop is left. -/
theorem runGameInstance_fitness {σ : Type} (activate : σ → List ℚ → List ℚ × σ)
    (genome : σ) (skipAnimations : Bool) (s : Sys) :
    ∃ n : Nat, (runGameFinal activate genome skipAnimations s).game.moveCount = some n ∧
      (n < 5 → runGameInstance activate genome skipAnimations s =
        (((runGameFinal activate genome skipAnimations s).game.score : ℚ) + 1) * (1 / 10)) ∧
      (5 ≤ n → runGameInstance activate genome skipAnimations s =
        ((runGameFinal activate genome skipAnimations s).game.score : ℚ) + 1) := by
  obtain ⟨hs, hm⟩ := runGameFinal_inv activate genome skipAnimations s
  have hfit : runGameInstance activate genome skipAnimations s =
      getFitness (runGameFinal activate genome skipAnimations s).game := rfl
  rw [hfit]
  generalize (runGameFinal activate genome skipAnimations s).game = g at hs hm ⊢
  rw [Option.isSome_iff_exists] at hm
  obtain ⟨n, hn⟩ := hm
  exact ⟨n, hn, getFitness_of_count g n hs hn⟩

/-! ## Runs and turns on sample inputs -/

set_option maxRecDepth 100000 in
/-- C19, failing input. The stateless genome `stallAfterFive`, run headless with
all draws 0, makes five counted moves and then fails ten times in a row; the
run ends on the failure cap with score 0 and the fitness returned is 1, not
`(0 + 1) * 0.1`: the branch for a run killed by its failures applies no penalty. -/
theorem stalled_run_not_penalized :
    (runGameFinal stallAfterFive () true zeroSys).consecutiveFailures = 10 ∧
    (runGameFinal stallAfterFive () true zeroSys).moveCount = 15 ∧
    (runGameFinal stallAfterFive () true zeroSys).game.state = GameState.playing ∧
    (runGameFinal stallAfterFive () true zeroSys).game.moveCount = some 5 ∧
    (runGameFinal stallAfterFive () true zeroSys).game.score = 0 ∧
    runGameInstance stallAfterFive () true zeroSys = 1 ∧
    runGameInstance stallAfterFive () true zeroSys ≠
      (((runGameFinal stallAfterFive () true zeroSys).game.score : ℚ) + 1) * (1 / 10) := by
  decide!

set_option maxRecDepth 100000 in
theorem runGameInstance_fitness_witness :
    (runGameFinal constantGenome () true zeroSys).consecutiveFailures = 10 ∧
    (runGameFinal constantGenome () true zeroSys).game.moveCount = some 1 ∧
    runGameInstance constantGenome () true zeroSys =
      (((runGameFinal constantGenome () true zeroSys).game.score : ℚ) + 1) * (1 / 10) := by
  obtain ⟨n, hn, h1, _⟩ := runGameInstance_fitness constantGenome () true zeroSys
  have hm : (runGameFinal constantGenome () true zeroSys).game.moveCount = some 1 := by decide!
  rw [hm] at hn
  injection hn with hn
  subst hn
  exact ⟨by decide!, hm, h1 (by decide)⟩

set_option maxRecDepth 100000 in
/-- C18, counterexample. On `towerRun` the decoded move succeeds and
`performAIAction` returns `true`; the raise is rejected (a piece is in row 0), no
line was cleared, so neither the number of pieces nor the score grew: the
iteration adds one to the failure counter and leaves `moveCount` at 3. -/
theorem confirmed_turn_counted_as_failure :
    (towerRun.game.performAIAction
      (parseAction (towerGenome towerRun.genome (getBoardState towerRun.game.board)).1)
      towerRun.sys).2.2 = true ∧
    (runIteration towerGenome towerRun).game.state = GameState.gameover ∧
    (runIteration towerGenome towerRun).consecutiveFailures = towerRun.consecutiveFailures + 1 ∧
    (runIteration towerGenome towerRun).game.moveCount = towerRun.game.moveCount ∧
    (runIteration towerGenome towerRun).game.moveCount = some 3 := by
  decide!

set_option maxRecDepth 100000 in
theorem runIteration_counters_witness :
    turnProgressed towerRun.game (towerRun.game.performAIAction
      (parseAction (towerGenome towerRun.genome (getBoardState towerRun.game.board)).1)
      towerRun.sys).1 = false ∧
    (runIteration towerGenome towerRun).consecutiveFailures = towerRun.consecutiveFailures + 1 ∧
    (runIteration towerGenome towerRun).game.moveCount = towerRun.game.moveCount :=
  have h : turnProgressed towerRun.game (towerRun.game.performAIAction
      (parseAction (towerGenome towerRun.genome (getBoardState towerRun.game.board)).1)
      towerRun.sys).1 = false := by decide!
  ⟨h, ((runIteration_counters towerGenome towerRun).2.1 h).1,
    ((runIteration_counters towerGenome towerRun).2.1 h).2.1⟩

set_option maxRecDepth 100000 in
/-- C20, failing input. Board A is constructed and raised once (ids 1, 2, 3); board
B is constructed, which sets `Block.nextId` back to 1; the next raise of A gives
its new preview piece the id 3 again, and at the raise after that the older
piece 3 falls into the cell of the newer one: two pieces of A lie on (0, 9). -/
theorem shared_counter_breaks_uniqueness :
    (instantRaiseBlocks (Board.init zeroSys).1 (Board.init zeroSys).2).1.UniqueIds ∧
    sharedCounterRaise.1.blocks =
      [⟨0, 7, 1, 1⟩, ⟨0, 8, 1, 2⟩, ⟨0, 9, 1, 3⟩, ⟨0, 10, 1, 3⟩] ∧
    ¬ sharedCounterRaise.1.UniqueIds ∧
    sharedCounterMerge.blocks =
      [⟨0, 7, 1, 1⟩, ⟨0, 8, 1, 2⟩, ⟨0, 9, 1, 3⟩, ⟨0, 9, 1, 3⟩, ⟨0, 10, 1, 4⟩] ∧
    ¬ sharedCounterMerge.NonOverlap := by
  have h : sharedCounterMerge.blocks =
      [⟨0, 7, 1, 1⟩, ⟨0, 8, 1, 2⟩, ⟨0, 9, 1, 3⟩, ⟨0, 9, 1, 3⟩, ⟨0, 10, 1, 4⟩] := by decide!
  refine ⟨by decide!, by decide!, by decide!, h, ?_⟩
  unfold Board.NonOverlap
  rw [h]
  simp [overlaps_iff]

theorem getFitness_spec_witness :
    (0 : Int) ≤ headlessGame.score ∧ (∃ n, headlessGame.moveCount = some n ∧ 5 ≤ n) ∧
    getFitness headlessGame = (headlessGame.score : ℚ) + 1 :=
  ⟨by decide, ⟨7, rfl, by decide⟩,
    (getFitness_spec headlessGame).2.2.2 (by decide) ⟨7, rfl, by decide⟩⟩

theorem confirmMove_unmoved_witness :
    selectedGame.skipAnimations = false ∧ selectedGame.isAnimating = false ∧
    selectedGame.selectedBlock = some 0 ∧ selectedGame.board.blocks[0]? = some ⟨0, 5, 2, 1⟩ ∧
    selectedGame.selectedBlockOriginalX = some 0 ∧
    selectedGame.confirmMove sampleSys =
      ({ selectedGame with selectedBlock := none, selectedBlockOriginalX := none }, sampleSys) :=
  ⟨rfl, rfl, rfl, rfl, rfl,
    confirmMove_unmoved selectedGame sampleSys 0 ⟨0, 5, 2, 1⟩ rfl rfl rfl rfl rfl⟩

set_option maxRecDepth 100000 in
theorem confirmMove_headless_witness :
    headlessGame.skipAnimations = true ∧ headlessGame.isAnimating = false ∧
    headlessGame.selectedBlock = some 0 ∧ headlessGame.board.blocks[0]? = some ⟨0, 5, 2, 1⟩ ∧
    headlessGame.state = GameState.playing ∧
    (¬ ∃ p ∈ ((headlessGame.board.applyGravity).clearLines
        (headlessGame.board.applyGravity).checkCompleteLines).blocks, p.y = 0) ∧
    (headlessGame.confirmMove sampleSys).1.state = GameState.playing :=
  have h : ¬ ∃ p ∈ ((headlessGame.board.applyGravity).clearLines
      (headlessGame.board.applyGravity).checkCompleteLines).blocks, p.y = 0 := by decide!
  ⟨rfl, rfl, rfl, rfl, rfl, h,
    ((confirmMove_headless headlessGame sampleSys 0 ⟨0, 5, 2, 1⟩ rfl rfl rfl rfl rfl).2 h).1⟩

set_option maxRecDepth 100000 in
theorem performAIAction_failed_frame_witness :
    (stalledGame.performAIAction ⟨⟨0, 9⟩, 1⟩ zeroSys).2.2 = false ∧
    (stalledGame.performAIAction ⟨⟨0, 9⟩, 1⟩ zeroSys).1.board = stalledGame.board ∧
    (stalledGame.performAIAction ⟨⟨0, 9⟩, 1⟩ zeroSys).1.score = stalledGame.score :=
  have h : (stalledGame.performAIAction ⟨⟨0, 9⟩, 1⟩ zeroSys).2.2 = false := by decide!
  ⟨h, (performAIAction_failed_frame stalledGame ⟨⟨0, 9⟩, 1⟩ zeroSys h).1,
    (performAIAction_failed_frame stalledGame ⟨⟨0, 9⟩, 1⟩ zeroSys h).2.1⟩

/-! ## Gravity only lowers playable pieces -/

theorem Block.lowered_self (p : Block) : p.LoweredTo p :=
  ⟨rfl, rfl, rfl, fun _ => rfl, fun h => ⟨le_refl _, h⟩⟩

theorem Block.lowered_chain (p q r : Block) (h1 : p.LoweredTo q) (h2 : q.LoweredTo r) :
    p.LoweredTo r := by
  obtain ⟨a1, a2, a3, a4, a5⟩ := h1
  obtain ⟨b1, b2, b3, b4, b5⟩ := h2
  refine ⟨by rw [b1, a1], by rw [b2, a2], by rw [b3, a3], ?_, ?_⟩
  · intro h
    have := a4 h
    rw [b4 (by omega), this]
  · intro h
    have := a5 h
    have := b5 (by omega)
    omega

theorem Board.loweredTo_refl (b : Board) : b.LoweredTo b :=
  ⟨rfl, fun _ p h => ⟨p, h, p.lowered_self⟩⟩

theorem Board.loweredTo_trans (a b c : Board) (h1 : a.LoweredTo b) (h2 : b.LoweredTo c) :
    a.LoweredTo c := by
  refine ⟨by rw [h2.1, h1.1], ?_⟩
  intro i p hp
  obtain ⟨q, hq, hpq⟩ := h1.2 i p hp
  obtain ⟨r, hr, hqr⟩ := h2.2 i q hq
  exact ⟨r, hr, Block.lowered_chain p q r hpq hqr⟩

theorem dropTarget_above (b : Board) (p : Block) (h : 10 ≤ p.y) : b.dropTarget p = p.y := by
  unfold Board.dropTarget
  have : (10 - (p.y + 1)).toNat = 0 := by omega
  rw [this]
  rfl

theorem dropBlock_lowered (b : Board) (i : Nat) : b.LoweredTo (b.dropBlock i).1 := by
  unfold Board.dropBlock
  cases hb : b.blocks[i]? with
  | none => exact b.loweredTo_refl
  | some blk =>
    simp only
    refine ⟨List.length_set _ _ _, ?_⟩
    intro j p hp
    rw [List.getElem?_set]
    by_cases hij : i = j
    · subst hij
      have hlt : i < b.blocks.length := by
        by_contra hge
        rw [List.getElem?_eq_none (by omega)] at hb
        exact absurd hb (by simp)
      rw [hb] at hp
      injection hp with hp
      subst hp
      simp only [hlt, if_true]
      refine ⟨_, rfl, rfl, rfl, rfl, ?_, ?_⟩
      · intro h; exact dropTarget_above b blk h
      · intro h
        simp only
        rcases dropTarget_spec b blk with e | ⟨h1, h2, _⟩
        · rw [e]; exact ⟨le_refl _, h⟩
        · exact ⟨le_of_lt h1, h2⟩
    · simp only [hij, if_false]
      exact ⟨p, hp, p.lowered_self⟩

theorem gravityFold_lowered :
    ∀ (l : List Nat) (st : Board × Bool), st.1.LoweredTo (l.foldl Board.gravityStep st).1 := by
  intro l
  induction l with
  | nil => intro st; exact st.1.loweredTo_refl
  | cons a l ih =>
    intro st
    rw [List.foldl_cons]
    exact Board.loweredTo_trans _ _ _ (dropBlock_lowered st.1 a) (ih _)

theorem gravityPass_lowered (b : Board) : b.LoweredTo (b.gravityPass).1 :=
  gravityFold_lowered b.sortedBlocks (b, false)

theorem gravityLoop_lowered :
    ∀ (n : Nat) (b : Board), b.LoweredTo (Board.gravityLoop n b) := by
  intro n
  induction n with
  | zero => intro b; exact b.loweredTo_refl
  | succ n ih =>
    intro b
    unfold Board.gravityLoop
    by_cases hm : (b.gravityPass).2 = true
    · rw [if_pos hm]
      exact Board.loweredTo_trans _ _ _ (gravityPass_lowered b) (ih _)
    · rw [if_neg hm]; exact gravityPass_lowered b

theorem applyGravity_lowered (b : Board) : b.LoweredTo b.applyGravity :=
  gravityLoop_lowered _ b

/-- C26. `applyGravity` only lowers playable pieces: the list of pieces keeps its
length, and position by position the piece keeps its id, column and width; a
piece of the preview row (`y = 10`) is left as it is, and a piece with `y ≤ 9`
ends in a row `y'` with `y ≤ y' ≤ 9`. -/
theorem applyGravity_frame (b : Board) :
    (b.applyGravity).blocks.length = b.blocks.length ∧
    ∀ (i : Nat) (p : Block), b.blocks[i]? = some p →
      ∃ q, (b.applyGravity).blocks[i]? = some q ∧
        q.id = p.id ∧ q.x = p.x ∧ q.width = p.width ∧
        (p.y = 10 → q = p) ∧ (p.y ≤ 9 → p.y ≤ q.y ∧ q.y ≤ 9) := by
  obtain ⟨hlen, h⟩ := applyGravity_lowered b
  refine ⟨hlen, ?_⟩
  intro i p hp
  obtain ⟨q, hq, h1, h2, h3, h4, h5⟩ := h i p hp
  refine ⟨q, hq, h1, h2, h3, ?_, h5⟩
  intro h10
  have hy := h4 (by omega)
  cases p
  cases q
  simp only at h1 h2 h3 hy
  subst h1 h2 h3 hy
  rfl

theorem applyGravity_frame_witness :
    sampleBoard.blocks[1]? = some ⟨1, 3, 2, 2⟩ ∧
    ∃ q, (sampleBoard.applyGravity).blocks[1]? = some q ∧ q.id = 2 ∧ q.x = 1 ∧ q.width = 2 ∧
      (3 : Int) ≤ q.y ∧ q.y ≤ 9 := by
  obtain ⟨q, hq, h1, h2, h3, _, h5⟩ := (applyGravity_frame sampleBoard).2 1 ⟨1, 3, 2, 2⟩ rfl
  exact ⟨rfl, q, hq, h1, h2, h3, h5 (by decide)⟩

/-! ## Termination of gravity by the sum of the rows -/

theorem slack_list_eq :
    ∀ l : List Block,
      (((l.map (fun p => (9 - p.y).toNat)).sum : Nat) : Int) =
        9 * ((l.filter (fun p => decide (p.y < 10))).length : Int) -
          ((l.filter (fun p => decide (p.y < 10))).map (fun p => p.y)).sum := by
  intro l
  induction l with
  | nil => simp
  | cons a l ih =>
    by_cases h : a.y < 10
    · simp only [List.map_cons, List.sum_cons, List.filter_cons, h, decide_True, if_true,
        List.length_cons]
      simp only [Nat.cast_add, Nat.cast_one]
      rw [ih]
      have : ((9 - a.y).toNat : Int) = 9 - a.y := Int.toNat_of_nonneg (by omega)
      omega
    · simp only [List.map_cons, List.sum_cons, List.filter_cons, h, decide_False]
      simp only [Nat.cast_add]
      rw [ih]
      have : ((9 - a.y).toNat : Int) = 0 := by
        have : (9 - a.y).toNat = 0 := by omega
        rw [this]; rfl
      simp only [Bool.false_eq_true, if_false]
      omega

theorem slack_eq (b : Board) :
    (b.slack : Int) = 9 * (b.getPlayableBlocks.length : Int) - b.playableRowSum :=
  slack_list_eq b.blocks

theorem map_eq_of_lowered {α : Type} (f : Block → α)
    (hf : ∀ p q : Block, p.LoweredTo q → f q = f p) (b b' : Board) (h : b.LoweredTo b') :
    b'.blocks.map f = b.blocks.map f := by
  apply List.ext_getElem?
  intro n
  rw [List.getElem?_map, List.getElem?_map]
  cases hb : b.blocks[n]? with
  | none =>
    have : b'.blocks[n]? = none := by
      rw [List.getElem?_eq_none_iff] at hb ⊢
      rw [h.1]; exact hb
    rw [this]
  | some p =>
    obtain ⟨q, hq, hpq⟩ := h.2 n p hb
    rw [hq]
    simp only [Option.map_some']
    rw [hf p q hpq]

theorem filter_length_of_map_eq (f : Block → Bool) :
    ∀ l l' : List Block, l.map f = l'.map f → (l.filter f).length = (l'.filter f).length := by
  intro l
  induction l with
  | nil =>
    intro l' h
    cases l' with
    | nil => rfl
    | cons a l' => simp at h
  | cons a l ih =>
    intro l' h
    cases l' with
    | nil => simp at h
    | cons a' l' =>
      simp only [List.map_cons, List.cons.injEq] at h
      have := ih l' h.2
      simp only [List.filter_cons, h.1]
      split <;> simp [this]

theorem playable_of_lowered (p q : Block) (h : p.LoweredTo q) :
    decide (q.y < 10) = decide (p.y < 10) := by
  obtain ⟨_, _, _, h4, h5⟩ := h
  by_cases hp : p.y < 10
  · have := h5 (by omega)
    simp only [hp, decide_True, decide_eq_true_eq]
    omega
  · have := h4 (by omega)
    simp only [hp, decide_False, decide_eq_false_iff_not]
    omega

theorem playableCount_of_lowered (b b' : Board) (h : b.LoweredTo b') :
    b'.getPlayableBlocks.length = b.getPlayableBlocks.length :=
  filter_length_of_map_eq _ _ _ (map_eq_of_lowered _ playable_of_lowered b b' h)

theorem gravityLoop_eq_applyGravity (b : Board) (m : Nat) (h : b.slack < m) :
    Board.gravityLoop m b = b.applyGravity :=
  gravityLoop_fuel m (b.slack + 1) b h (Nat.lt_succ_self _)

/-- C25. `applyGravity` terminates on every board, overlapping or not: a pass in
which some piece moves strictly increases the sum of the rows of the playable
pieces and keeps their number; that sum is at most 9 times their number; and
the loop, run for more passes than `9 * number - sum`, stops on the same board,
on which a further pass moves nothing. -/
theorem applyGravity_terminates (b : Board) :
    ((b.gravityPass).2 = true → b.playableRowSum < (b.gravityPass).1.playableRowSum) ∧
    (b.gravityPass).1.getPlayableBlocks.length = b.getPlayableBlocks.length ∧
    b.playableRowSum ≤ 9 * (b.getPlayableBlocks.length : Int) ∧
    (∀ m : Nat, 9 * (b.getPlayableBlocks.length : Int) - b.playableRowSum < (m : Int) →
      Board.gravityLoop m b = b.applyGravity) ∧
    (b.applyGravity).gravityPass = (b.applyGravity, false) := by
  have hc := playableCount_of_lowered b _ (gravityPass_lowered b)
  have hs := slack_eq b
  refine ⟨?_, hc, ?_, ?_, applyGravity_stable b⟩
  · intro hm
    have h1 := gravityPass_moved b hm
    have h2 := slack_eq (b.gravityPass).1
    rw [hc] at h2
    omega
  · omega
  · intro m hm
    exact gravityLoop_eq_applyGravity b m (by omega)

set_option maxRecDepth 100000 in
theorem applyGravity_terminates_witness :
    (sampleBoard.gravityPass).2 = true ∧
    sampleBoard.playableRowSum < (sampleBoard.gravityPass).1.playableRowSum ∧
    Board.gravityLoop 20 sampleBoard = sampleBoard.applyGravity :=
  ⟨by decide, (applyGravity_terminates sampleBoard).1 (by decide),
    (applyGravity_terminates sampleBoard).2.2.2.1 20 (by decide)⟩

/-! ## The raise: shift and refill -/

theorem raiseBlock_spec (p : Block) :
    (raiseBlock p).id = p.id ∧ (raiseBlock p).x = p.x ∧ (raiseBlock p).width = p.width ∧
    (p.y < 10 → (raiseBlock p).y = p.y - 1) ∧ (p.y = 10 → (raiseBlock p).y = 9) ∧
    (raiseBlock p).y ≠ 10 := by
  unfold raiseBlock
  split_ifs with h1 h2
  · refine ⟨rfl, rfl, rfl, fun _ => rfl, fun h => by omega, ?_⟩
    simp only; omega
  · refine ⟨rfl, rfl, rfl, fun h => by omega, fun _ => rfl, ?_⟩
    simp only; omega
  · exact ⟨rfl, rfl, rfl, fun h => by omega, fun h => by omega, h2⟩

theorem raiseShift_no_preview (b : Board) : ∀ q ∈ (raiseShift b).blocks, q.y ≠ 10 := by
  intro q hq
  unfold raiseShift at hq
  simp only [List.mem_map] at hq
  obtain ⟨p, _, rfl⟩ := hq
  exact (raiseBlock_spec p).2.2.2.2.2

theorem no_preview_of_lowered (b b' : Board) (h : b.LoweredTo b')
    (hb : ∀ q ∈ b.blocks, q.y ≠ 10) : ∀ q ∈ b'.blocks, q.y ≠ 10 := by
  intro q hq
  obtain ⟨i, hi, hget⟩ := List.getElem_of_mem hq
  have hi' : i < b.blocks.length := by rw [← h.1]; exact hi
  obtain ⟨q', hq', _, _, _, h4, h5⟩ := h.2 i b.blocks[i] (List.getElem?_eq_getElem hi')
  rw [List.getElem?_eq_getElem hi, hget] at hq'
  injection hq' with hq'
  subst hq'
  have hp := hb _ (List.getElem_mem hi')
  by_cases h10 : 10 ≤ b.blocks[i].y
  · rw [h4 h10]; exact hp
  · have := h5 (by omega); omega

theorem filter_no_preview (b : Board) (hb : ∀ q ∈ b.blocks, q.y ≠ 10) :
    b.blocks.filter (fun p => decide (p.y ≠ 10)) = b.blocks := by
  rw [List.filter_eq_self]
  intro q hq
  simpa using hb q hq

/-- What one round of attempts appends: nothing, or one new block in row 10 with
the next id. -/
theorem previewAttempts_append (w : Nat) :
    ∀ (n : Nat) (b : Board) (s : Sys),
      ∃ news : List Block, (Board.previewAttempts w n b s).1.blocks = b.blocks ++ news ∧
        (∀ q ∈ news, q.y = 10 ∧ s.nextId ≤ q.id) ∧
        s.nextId ≤ (Board.previewAttempts w n b s).2.nextId := by
  intro n
  induction n with
  | zero => intro b s; exact ⟨[], by simp [Board.previewAttempts], by simp, le_refl _⟩
  | succ n ih =>
    intro b s
    unfold Board.previewAttempts
    simp only
    split
    · refine ⟨[((s.randomBelow (8 - w + 1)).2.newBlock
        ((s.randomBelow (8 - w + 1)).1 : Int) 10 w).1], rfl, ?_, ?_⟩
      · intro q hq
        rw [List.mem_singleton] at hq
        subst hq
        exact ⟨rfl, le_refl _⟩
      · exact Nat.le_succ _
    · exact ih b (s.randomBelow (8 - w + 1)).2

theorem previewLoop_append :
    ∀ (n : Nat) (b : Board) (s : Sys),
      ∃ news : List Block, (Board.previewLoop n b s).1.blocks = b.blocks ++ news ∧
        (∀ q ∈ news, q.y = 10 ∧ s.nextId ≤ q.id) ∧
        s.nextId ≤ (Board.previewLoop n b s).2.nextId := by
  intro n
  induction n with
  | zero => intro b s; exact ⟨[], by simp [Board.previewLoop], by simp, le_refl _⟩
  | succ n ih =>
    intro b s
    unfold Board.previewLoop
    simp only
    obtain ⟨n1, h1, h2, h3⟩ := previewAttempts_append ((s.randomBelow 4).1 + 1) 20 b
      (s.randomBelow 4).2
    obtain ⟨n2, g1, g2, g3⟩ := ih
      (Board.previewAttempts ((s.randomBelow 4).1 + 1) 20 b (s.randomBelow 4).2).1
      (Board.previewAttempts ((s.randomBelow 4).1 + 1) 20 b (s.randomBelow 4).2).2
    have hs : (s.randomBelow 4).2.nextId = s.nextId := rfl
    refine ⟨n1 ++ n2, by rw [g1, h1, List.append_assoc], ?_, ?_⟩
    · intro q hq
      rcases List.mem_append.1 hq with hq | hq
      · exact ⟨(h2 q hq).1, by rw [← hs]; exact (h2 q hq).2⟩
      · exact ⟨(g2 q hq).1, by rw [← hs]; exact le_trans h3 (g2 q hq).2⟩
    · rw [← hs]; exact le_trans h3 g3

theorem generatePreviewBlocks_append (b : Board) (s : Sys) :
    ∃ news : List Block,
      (b.generatePreviewBlocks s).1.blocks =
        b.blocks.filter (fun p => decide (p.y ≠ 10)) ++ news ∧
      (∀ q ∈ news, q.y = 10 ∧ s.nextId ≤ q.id) := by
  unfold Board.generatePreviewBlocks
  obtain ⟨news, h1, h2, _⟩ := previewLoop_append (2 + (s.randomBelow 3).1)
    { blocks := b.blocks.filter (fun p => decide (p.y ≠ 10)) } (s.randomBelow 3).2
  exact ⟨news, h1, h2⟩

/-- C22, as the code has it. In a successful raise (no piece in row 0) the shift
puts every piece of a playable row `r` into row `r - 1` and every piece of the
preview row into row 9, position by position and with id, column and width
unchanged; the board returned is the shifted board (settled, for the instant
raise) followed by newly generated pieces, which are all in row 10 and carry ids
from `Block.nextId` on, while none of the older pieces is in row 10. -/
theorem raise_shift_and_refill (b : Board) (s : Sys) (htop : hasBlockAtTop b = false) :
    (raiseShift b).blocks.length = b.blocks.length ∧
    (∀ (i : Nat) (p : Block), b.blocks[i]? = some p →
      ∃ q, (raiseShift b).blocks[i]? = some q ∧ q.id = p.id ∧ q.x = p.x ∧
        q.width = p.width ∧ (p.y < 10 → q.y = p.y - 1) ∧ (p.y = 10 → q.y = 9)) ∧
    (∃ news : List Block,
      (instantRaiseBlocks b s).1.blocks = ((raiseShift b).applyGravity).blocks ++ news ∧
      (∀ q ∈ news, q.y = 10 ∧ s.nextId ≤ q.id) ∧
      (∀ q ∈ ((raiseShift b).applyGravity).blocks, q.y ≠ 10)) ∧
    (∃ news : List Block,
      (animateRaiseBlocks b s).1.blocks = (raiseShift b).blocks ++ news ∧
      (∀ q ∈ news, q.y = 10 ∧ s.nextId ≤ q.id) ∧
      (∀ q ∈ (raiseShift b).blocks, q.y ≠ 10)) := by
  have hn : ¬ (hasBlockAtTop b = true) := by rw [htop]; simp
  refine ⟨by simp [raiseShift], ?_, ?_, ?_⟩
  · intro i p hp
    refine ⟨raiseBlock p, ?_, (raiseBlock_spec p).1, (raiseBlock_spec p).2.1,
      (raiseBlock_spec p).2.2.1, (raiseBlock_spec p).2.2.2.1, (raiseBlock_spec p).2.2.2.2.1⟩
    unfold raiseShift
    rw [List.getElem?_map, hp]
    rfl
  · have hno := no_preview_of_lowered _ _ (applyGravity_lowered (raiseShift b))
      (raiseShift_no_preview b)
    obtain ⟨news, h1, h2⟩ := generatePreviewBlocks_append ((raiseShift b).applyGravity) s
    rw [filter_no_preview _ hno] at h1
    refine ⟨news, ?_, h2, hno⟩
    unfold instantRaiseBlocks
    rw [if_neg hn]
    exact h1
  · obtain ⟨news, h1, h2⟩ := generatePreviewBlocks_append (raiseShift b) s
    rw [filter_no_preview _ (raiseShift_no_preview b)] at h1
    refine ⟨news, ?_, h2, raiseShift_no_preview b⟩
    unfold animateRaiseBlocks
    rw [if_neg hn]
    exact h1

/-- C22, counterexample. `sampleBoard` has no piece in row 0 and its preview piece
`⟨0, 10, 3, 3⟩` at position 2; after the shift of the raise that piece is in row
9, not in row `P - 2 = 8`. -/
theorem raise_preview_to_floor_row :
    hasBlockAtTop sampleBoard = false ∧
    sampleBoard.blocks[2]? = some ⟨0, 10, 3, 3⟩ ∧
    (raiseShift sampleBoard).blocks[2]? = some ⟨0, 9, 3, 3⟩ ∧
    ¬ (∀ (i : Nat) (p q : Block), sampleBoard.blocks[i]? = some p →
      (raiseShift sampleBoard).blocks[i]? = some q → p.y = 10 → q.y = 10 - 2) := by
  refine ⟨by decide, rfl, by decide, ?_⟩
  intro h
  have := h 2 ⟨0, 10, 3, 3⟩ ⟨0, 9, 3, 3⟩ rfl (by decide) rfl
  simp at this

theorem raise_shift_and_refill_witness :
    hasBlockAtTop sampleBoard = false ∧
    (raiseShift sampleBoard).blocks.length = sampleBoard.blocks.length ∧
    ∃ news : List Block,
      (instantRaiseBlocks sampleBoard sampleSys).1.blocks =
        ((raiseShift sampleBoard).applyGravity).blocks ++ news ∧
      (∀ q ∈ news, q.y = 10 ∧ sampleSys.nextId ≤ q.id) := by
  have h := raise_shift_and_refill sampleBoard sampleSys (by decide)
  obtain ⟨news, h1, h2, _⟩ := h.2.2.1
  exact ⟨by decide, h.1, news, h1, h2⟩

/-! ## Assigning fitness to the population -/

theorem assignScores_get (population : List Network) (fitnessScores : List ℚ) (i : Nat)
    (g : Network) (f : ℚ) (hg : population[i]? = some g) (hf : fitnessScores[i]? = some f) :
    (assignScores population fitnessScores)[i]? = some { g with score := some f } := by
  unfold assignScores
  rw [List.getElem?_zipWith, hg, hf]

theorem assignScores_length (population : List Network) (fitnessScores : List ℚ)
    (h : fitnessScores.length = population.length) :
    (assignScores population fitnessScores).length = population.length := by
  unfold assignScores
  rw [List.length_zipWith, h, Nat.min_self]

/-- C21. `evaluatePopulation` rejects a fitness vector whose length differs from
the population size before any assignment: one error line is written and the
population (every score, the order), `bestGenome`, `bestFitness`, `avgFitness`
and the generation are unchanged. When the lengths match, the population
handed to `neat.sort()` has, at every position `i`, the old network with score
`fitnessScores[i]`, and if `sort` only reorders, each of these is in the new
population. -/
theorem evaluatePopulation_spec (sort : List Network → List Network) (t : NEATTrainer)
    (fitnessScores : List ℚ) :
    (fitnessScores.length ≠ t.population.length →
      t.evaluatePopulation sort fitnessScores =
        { t with errors := t.errors ++ ["Fitness scores length mismatch"] }) ∧
    (fitnessScores.length = t.population.length →
      (t.evaluatePopulation sort fitnessScores).population =
        sort (assignScores t.population fitnessScores) ∧
      (assignScores t.population fitnessScores).length = t.population.length ∧
      (∀ (i : Nat) (g : Network), t.population[i]? = some g →
        ∃ f, fitnessScores[i]? = some f ∧
          (assignScores t.population fitnessScores)[i]? = some { g with score := some f }) ∧
      ((∀ l, (sort l).Perm l) →
        ∀ (i : Nat) (g : Network) (f : ℚ), t.population[i]? = some g →
          fitnessScores[i]? = some f →
          ({ g with score := some f } : Network) ∈
            (t.evaluatePopulation sort fitnessScores).population)) := by
  constructor
  · intro h
    unfold NEATTrainer.evaluatePopulation
    rw [if_pos h]
  · intro h
    have hpop : (t.evaluatePopulation sort fitnessScores).population =
        sort (assignScores t.population fitnessScores) := by
      unfold NEATTrainer.evaluatePopulation
      rw [if_neg (by rw [h]; simp)]
      split <;> rfl
    refine ⟨hpop, assignScores_length _ _ h, ?_, ?_⟩
    · intro i g hg
      have hi : i < fitnessScores.length := by
        rw [h]
        by_contra hge
        rw [List.getElem?_eq_none (by omega)] at hg
        exact absurd hg (by simp)
      exact ⟨fitnessScores[i], List.getElem?_eq_getElem hi,
        assignScores_get _ _ i g _ hg (List.getElem?_eq_getElem hi)⟩
    · intro hperm i g f hg hf
      rw [hpop, (hperm _).mem_iff]
      exact List.getElem?_mem (assignScores_get _ _ i g f hg hf)

theorem evaluatePopulation_spec_witness :
    ([7, 8] : List ℚ).length ≠ sampleTrainer.population.length ∧
    sampleTrainer.evaluatePopulation id [7, 8] =
      { sampleTrainer with errors := ["Fitness scores length mismatch"] } ∧
    ([7, 8, 9] : List ℚ).length = sampleTrainer.population.length ∧
    (sampleTrainer.evaluatePopulation id [7, 8, 9]).population =
      [⟨1, some 7⟩, ⟨2, some 8⟩, ⟨3, some 9⟩] :=
  ⟨by decide, (evaluatePopulation_spec id sampleTrainer [7, 8]).1 (by decide), by decide,
    ((evaluatePopulation_spec id sampleTrainer [7, 8, 9]).2 (by decide)).1⟩

/-! ## Reachable boards stay inside the grid -/

theorem inGrid_of_lowered (b b' : Board) (h : b.LoweredTo b') (hb : b.InGrid) : b'.InGrid := by
  intro q hq
  obtain ⟨i, hi, hget⟩ := List.getElem_of_mem hq
  have hi' : i < b.blocks.length := by rw [← h.1]; exact hi
  obtain ⟨q', hq', h1, h2, h3, h4, h5⟩ := h.2 i b.blocks[i] (List.getElem?_eq_getElem hi')
  rw [List.getElem?_eq_getElem hi, hget] at hq'
  injection hq' with hq'
  subst hq'
  obtain ⟨g1, g2, g3, g4, g5, g6⟩ := hb _ (List.getElem_mem hi')
  refine ⟨by rw [h3]; exact g1, by rw [h3]; exact g2, by rw [h2]; exact g3,
    by rw [h2, h3]; exact g4, ?_, ?_⟩
  · by_cases h10 : 10 ≤ b.blocks[i].y
    · rw [h4 h10]; exact g5
    · have := h5 (by omega); omega
  · by_cases h10 : 10 ≤ b.blocks[i].y
    · rw [h4 h10]; exact g6
    · have := h5 (by omega); omega

theorem inGrid_of_sublist (b b' : Board) (hs : b'.blocks.Sublist b.blocks) (hb : b.InGrid) :
    b'.InGrid :=
  fun p hp => hb p (hs.subset hp)

theorem clearLines_inGrid (b : Board) (rows : List Int) (hb : b.InGrid) :
    (b.clearLines rows).InGrid := by
  unfold Board.clearLines
  split
  · exact hb
  · exact inGrid_of_lowered _ _ (applyGravity_lowered _)
      (inGrid_of_sublist b _ (removeRows_sublist rows b) hb)

theorem moveBlock_inGrid (b : Board) (hb : b.InGrid) (i : Nat) (p : Block) (newX : Int)
    (hp : b.blocks[i]? = some p) (hc : b.canMoveBlock p newX = true) :
    (b.moveBlock i newX).InGrid := by
  obtain ⟨h0, h8, _⟩ := canMoveBlock_true b p newX hc
  obtain ⟨g1, g2, _, _, g5, g6⟩ := hb p (List.getElem?_mem hp)
  unfold Board.moveBlock
  rw [hp]
  intro q hq
  rcases List.mem_or_eq_of_mem_set hq with hq | hq
  · exact hb q hq
  · subst hq
    exact ⟨g1, g2, h0, h8, g5, g6⟩

theorem raiseShift_inGrid (b : Board) (hb : b.InGrid) (htop : hasBlockAtTop b = false) :
    (raiseShift b).InGrid := by
  intro q hq
  unfold raiseShift at hq
  simp only [List.mem_map] at hq
  obtain ⟨p, hp, rfl⟩ := hq
  obtain ⟨g1, g2, g3, g4, g5, g6⟩ := hb p hp
  have hne : p.y ≠ 0 := by
    intro h0
    have : hasBlockAtTop b = true := (hasBlockAtTop_iff b).2 ⟨p, hp, h0⟩
    rw [htop] at this
    exact absurd this (by simp)
  obtain ⟨e1, e2, e3, e4, e5, _⟩ := raiseBlock_spec p
  refine ⟨by rw [e3]; exact g1, by rw [e3]; exact g2, by rw [e2]; exact g3,
    by rw [e2, e3]; exact g4, ?_, ?_⟩
  · by_cases h10 : p.y < 10
    · rw [e4 h10]; omega
    · rw [e5 (by omega)]; omega
  · by_cases h10 : p.y < 10
    · rw [e4 h10]; omega
    · rw [e5 (by omega)]; omega

theorem newBlock_inGrid (s s' : Sys) (r : Nat) (y : Int) (hy0 : 0 ≤ y) (hy : y ≤ 10) :
    (s'.newBlock (((s.draws s.cursor % (8 - (r % 4 + 1) + 1) : Nat)) : Int) y
      (r % 4 + 1)).1.InGrid := by
  unfold Sys.newBlock Block.InGrid
  simp only
  have h4 : r % 4 < 4 := Nat.mod_lt _ (by decide)
  have hx : s.draws s.cursor % (8 - (r % 4 + 1) + 1) < 8 - (r % 4 + 1) + 1 :=
    Nat.mod_lt _ (by omega)
  omega

theorem previewAttempts_inGrid (r : Nat) :
    ∀ (n : Nat) (b : Board) (s : Sys), b.InGrid →
      (Board.previewAttempts (r % 4 + 1) n b s).1.InGrid := by
  intro n
  induction n with
  | zero => intro b s hb; exact hb
  | succ n ih =>
    intro b s hb
    unfold Board.previewAttempts
    simp only
    split
    · intro q hq
      simp only [List.mem_append, List.mem_singleton] at hq
      rcases hq with hq | hq
      · exact hb q hq
      · subst hq
        exact newBlock_inGrid s _ r 10 (by decide) (by decide)
    · exact ih b _ hb

theorem previewLoop_inGrid :
    ∀ (n : Nat) (b : Board) (s : Sys), b.InGrid → (Board.previewLoop n b s).1.InGrid := by
  intro n
  induction n with
  | zero => intro b s hb; exact hb
  | succ n ih =>
    intro b s hb
    unfold Board.previewLoop
    simp only
    exact ih _ _ (previewAttempts_inGrid (s.draws s.cursor) 20 b _ hb)

theorem generatePreviewBlocks_inGrid (b : Board) (s : Sys) (hb : b.InGrid) :
    (b.generatePreviewBlocks s).1.InGrid := by
  unfold Board.generatePreviewBlocks
  exact previewLoop_inGrid _ _ _ (inGrid_of_sublist b _ (List.filter_sublist _) hb)

theorem initialLoop_inGrid :
    ∀ (n : Nat) (b : Board) (s : Sys), b.InGrid → (Board.initialLoop n b s).1.InGrid := by
  intro n
  induction n with
  | zero => intro b s hb; exact hb
  | succ n ih =>
    intro b s hb
    unfold Board.initialLoop
    simp only
    split
    · apply ih
      intro q hq
      simp only [List.mem_append, List.mem_singleton] at hq
      rcases hq with hq | hq
      · exact hb q hq
      · subst hq
        have h5 : ((s.randomBelow 4).2.randomBelow
            (8 - ((s.randomBelow 4).1 + 1) + 1)).2.draws
              ((s.randomBelow 4).2.randomBelow
                (8 - ((s.randomBelow 4).1 + 1) + 1)).2.cursor % 5 < 5 :=
          Nat.mod_lt _ (by decide)
        exact newBlock_inGrid (s.randomBelow 4).2 _ (s.draws s.cursor) _
          (by unfold Sys.randomBelow at h5 ⊢; simp only at h5 ⊢; omega)
          (by unfold Sys.randomBelow at h5 ⊢; simp only at h5 ⊢; omega)
    · exact ih b _ hb

theorem init_inGrid (s : Sys) : (Board.init s).1.InGrid := by
  unfold Board.init
  simp only
  apply generatePreviewBlocks_inGrid
  apply inGrid_of_lowered _ _ (applyGravity_lowered _)
  unfold Board.generateInitialBlocks
  exact initialLoop_inGrid _ _ _ (fun p hp => absurd hp (by simp))

theorem instantRaise_inGrid (b : Board) (s : Sys) (hb : b.InGrid)
    (h : (instantRaiseBlocks b s).2.2 = true) : (instantRaiseBlocks b s).1.InGrid := by
  unfold instantRaiseBlocks at h ⊢
  by_cases htop : hasBlockAtTop b = true
  · rw [if_pos htop] at h; exact absurd h (by simp)
  · rw [if_neg htop]
    exact generatePreviewBlocks_inGrid _ s (inGrid_of_lowered _ _ (applyGravity_lowered _)
      (raiseShift_inGrid b hb (by simpa using htop)))

theorem animateRaise_inGrid (b : Board) (s : Sys) (hb : b.InGrid)
    (h : (animateRaiseBlocks b s).2.2 = true) : (animateRaiseBlocks b s).1.InGrid := by
  unfold animateRaiseBlocks at h ⊢
  by_cases htop : hasBlockAtTop b = true
  · rw [if_pos htop] at h; exact absurd h (by simp)
  · rw [if_neg htop]
    exact generatePreviewBlocks_inGrid _ s (raiseShift_inGrid b hb (by simpa using htop))

/-- C23. Every piece stays inside the grid: in every board reachable from
`Board.init` by guarded horizontal moves, `applyGravity`, `clearLines`,
successful raises and preview generation, whatever the random draws, each piece
has `1 ≤ width ≤ 4`, `0 ≤ x`, `x + width ≤ 8` and `0 ≤ y ≤ 10`. In particular the
pieces of a reachable board after a successful raise have no negative row, and
`applyGravity` leaves every piece with `y ≤ 9` in a row at most 9. -/
theorem reachable_inGrid (b : Board) (h : b.Reachable) :
    (∀ p ∈ b.blocks, 1 ≤ p.width ∧ p.width ≤ 4 ∧ 0 ≤ p.x ∧ p.x + (p.width : Int) ≤ 8 ∧
      0 ≤ p.y ∧ p.y ≤ 10) ∧
    (∀ s : Sys, (instantRaiseBlocks b s).2.2 = true →
      ∀ p ∈ (instantRaiseBlocks b s).1.blocks, 0 ≤ p.y) ∧
    (∀ (i : Nat) (p q : Block), b.blocks[i]? = some p → (b.applyGravity).blocks[i]? = some q →
      p.y ≤ 9 → q.y ≤ 9) := by
  have hin : b.InGrid := by
    induction h with
    | init s => exact init_inGrid s
    | move b i p newX _ hp hc ih => exact moveBlock_inGrid b ih i p newX hp hc
    | gravity b _ ih => exact inGrid_of_lowered _ _ (applyGravity_lowered b) ih
    | clear b rows _ ih => exact clearLines_inGrid b rows ih
    | instantRaise b s _ hs ih => exact instantRaise_inGrid b s ih hs
    | animateRaise b s _ hs ih => exact animateRaise_inGrid b s ih hs
    | preview b s _ ih => exact generatePreviewBlocks_inGrid b s ih
  refine ⟨hin, ?_, ?_⟩
  · intro s hs p hp
    exact (instantRaise_inGrid b s hin hs p hp).2.2.2.2.1
  · intro i p q hp hq h9
    obtain ⟨q', hq', _, _, _, _, h5⟩ := (applyGravity_lowered b).2 i p hp
    rw [hq] at hq'
    injection hq' with hq'
    subst hq'
    exact (h5 h9).2

theorem reachable_inGrid_witness :
    (Board.init zeroSys).1.Reachable ∧
    ∀ p ∈ (Board.init zeroSys).1.blocks, 1 ≤ p.width ∧ p.width ≤ 4 ∧ 0 ≤ p.x ∧
      p.x + (p.width : Int) ≤ 8 ∧ 0 ≤ p.y ∧ p.y ≤ 10 :=
  ⟨Board.Reachable.init zeroSys, (reachable_inGrid _ (Board.Reachable.init zeroSys)).1⟩

/-! ## A successful turn that goes on is seen as progress -/

theorem calculateScore_pos (n : Nat) (h : 0 < n) : 0 < calculateScore n := by
  have h1 := calculateScore_add n
  have h2 : 2 ^ 1 ≤ 2 ^ n := Nat.pow_le_pow_right (by decide) h
  omega

theorem previewAttempts_length_le (w : Nat) :
    ∀ (n : Nat) (b : Board) (s : Sys),
      b.blocks.length ≤ (Board.previewAttempts w n b s).1.blocks.length := by
  intro n
  induction n with
  | zero => intro b s; exact Nat.le_refl _
  | succ n ih =>
    intro b s
    unfold Board.previewAttempts
    simp only
    split
    · simp only [List.length_append, List.length_singleton]
      omega
    · exact ih b _

theorem previewLoop_length_le :
    ∀ (n : Nat) (b : Board) (s : Sys),
      b.blocks.length ≤ (Board.previewLoop n b s).1.blocks.length := by
  intro n
  induction n with
  | zero => intro b s; exact Nat.le_refl _
  | succ n ih =>
    intro b s
    unfold Board.previewLoop
    simp only
    exact Nat.le_trans (previewAttempts_length_le _ 20 b _) (ih _ _)

theorem canPlaceBlock_preview_row (b : Board) (hb : ∀ q ∈ b.blocks, q.y ≠ 10) (x : Int)
    (w : Nat) (h0 : 0 ≤ x) (h8 : x + (w : Int) ≤ 8) : b.canPlaceBlock x 10 w = true := by
  unfold Board.canPlaceBlock
  rw [if_neg (by unfold Board.cols; omega)]
  rw [List.all_eq_true]
  intro c _
  cases hg : b.getBlockAt c 10 with
  | none => rfl
  | some o =>
    obtain ⟨ho, hocc⟩ := getBlockAt_some b c 10 o hg
    exact absurd ((occupies_iff o c 10).1 hocc).1 (hb o ho)

theorem previewAttempts_first (b : Board) (hb : ∀ q ∈ b.blocks, q.y ≠ 10) (r n : Nat)
    (s : Sys) :
    (Board.previewAttempts (r % 4 + 1) (n + 1) b s).1.blocks.length = b.blocks.length + 1 := by
  have h4 : r % 4 < 4 := Nat.mod_lt _ (by decide)
  have hx : s.draws s.cursor % (8 - (r % 4 + 1) + 1) < 8 - (r % 4 + 1) + 1 :=
    Nat.mod_lt _ (by omega)
  unfold Board.previewAttempts
  simp only
  rw [if_pos (canPlaceBlock_preview_row b hb _ _ (by unfold Sys.randomBelow; simp only; omega)
    (by unfold Sys.randomBelow; simp only; omega))]
  simp only [List.length_append, List.length_singleton]

theorem generatePreviewBlocks_grows (b : Board) (hb : ∀ q ∈ b.blocks, q.y ≠ 10) (s : Sys) :
    b.blocks.length < (b.generatePreviewBlocks s).1.blocks.length := by
  unfold Board.generatePreviewBlocks
  simp only
  rw [filter_no_preview b hb]
  have hb' : ({ blocks := b.blocks } : Board) = b := rfl
  rw [hb']
  have h2 : 2 + (s.randomBelow 3).1 = ((s.randomBelow 3).1 + 1) + 1 := by omega
  rw [h2]
  unfold Board.previewLoop
  simp only
  have h1 := previewAttempts_first b hb ((s.randomBelow 3).2.draws (s.randomBelow 3).2.cursor)
    19 ((s.randomBelow 3).2.randomBelow 4).2
  have h3 := previewLoop_length_le ((s.randomBelow 3).1 + 1)
    (Board.previewAttempts (((s.randomBelow 3).2.randomBelow 4).1 + 1) 20 b
      ((s.randomBelow 3).2.randomBelow 4).2).1
    (Board.previewAttempts (((s.randomBelow 3).2.randomBelow 4).1 + 1) 20 b
      ((s.randomBelow 3).2.randomBelow 4).2).2
  have h4 : (Board.previewAttempts (((s.randomBelow 3).2.randomBelow 4).1 + 1) 20 b
      ((s.randomBelow 3).2.randomBelow 4).2).1.blocks.length = b.blocks.length + 1 := h1
  omega

theorem raiseShift_length (b : Board) : (raiseShift b).blocks.length = b.blocks.length := by
  unfold raiseShift
  simp only [List.length_map]

theorem instantRaise_grows (b : Board) (s : Sys) (h : (instantRaiseBlocks b s).2.2 = true) :
    b.blocks.length < (instantRaiseBlocks b s).1.blocks.length := by
  unfold instantRaiseBlocks at h ⊢
  by_cases htop : hasBlockAtTop b = true
  · rw [if_pos htop] at h; exact absurd h (by simp)
  · rw [if_neg htop]
    simp only
    have h1 := generatePreviewBlocks_grows (raiseShift b).applyGravity
      (no_preview_of_lowered _ _ (applyGravity_lowered _) (raiseShift_no_preview b)) s
    have h2 := (applyGravity_lowered (raiseShift b)).1
    have h3 := raiseShift_length b
    omega

theorem animateRaise_grows (b : Board) (s : Sys) (h : (animateRaiseBlocks b s).2.2 = true) :
    b.blocks.length < (animateRaiseBlocks b s).1.blocks.length := by
  unfold animateRaiseBlocks at h ⊢
  by_cases htop : hasBlockAtTop b = true
  · rw [if_pos htop] at h; exact absurd h (by simp)
  · rw [if_neg htop]
    simp only
    have h1 := generatePreviewBlocks_grows (raiseShift b) (raiseShift_no_preview b) s
    have h3 := raiseShift_length b
    omega

theorem settleAndClear_progress (g : Game) :
    g.settleAndClear.board.blocks.length = g.board.blocks.length ∨
      g.score < g.settleAndClear.score := by
  unfold Game.settleAndClear
  simp only
  split
  · right
    rename_i hpos
    have := calculateScore_pos _ hpos
    simp only
    omega
  · left
    exact (applyGravity_lowered g.board).1

theorem afterRaise_progress (g : Game) :
    g.afterRaise.board.blocks.length = g.board.blocks.length ∨
      g.score < g.afterRaise.score := by
  unfold Game.afterRaise
  simp only
  split
  · right
    rename_i hpos
    have := calculateScore_pos _ hpos
    simp only
    omega
  · left
    exact (applyGravity_lowered g.board).1

theorem gameOver_state (g : Game) : g.gameOver.state = GameState.gameover := by
  unfold Game.gameOver
  split <;> rfl

theorem resolveTurn_progress (g : Game) (s : Sys)
    (h : (g.resolveTurn s).1.state = GameState.playing) :
    g.board.blocks.length < (g.resolveTurn s).1.board.blocks.length ∨
      g.score < (g.resolveTurn s).1.score := by
  have h1 := settleAndClear_progress g
  have hs := settleAndClear_score g
  have hr : ∀ r : Board × Sys × Bool,
      r = (if g.skipAnimations = true then instantRaiseBlocks g.settleAndClear.board s
        else animateRaiseBlocks g.settleAndClear.board s) →
      r.2.2 = true → g.settleAndClear.board.blocks.length < r.1.blocks.length := by
    intro r hr hflag
    by_cases hskip : g.skipAnimations = true
    · rw [if_pos hskip] at hr
      subst hr
      exact instantRaise_grows _ s hflag
    · rw [if_neg hskip] at hr
      subst hr
      exact animateRaise_grows _ s hflag
  unfold Game.resolveTurn at h ⊢
  simp only at h ⊢
  generalize g.settleAndClear = g1 at h h1 hs hr ⊢
  generalize hrr : (if g.skipAnimations = true then instantRaiseBlocks g1.board s
    else animateRaiseBlocks g1.board s) = r at h ⊢
  have hr2 := hr r hrr.symm
  cases hflag : r.2.2 with
  | false =>
    rw [hflag] at h
    simp only [Bool.not_false, if_true] at h
    rw [gameOver_state] at h
    exact absurd h (by decide)
  | true =>
    rw [hflag] at h
    simp only [Bool.not_true, Bool.false_eq_true, if_false] at h ⊢
    have h2 := hr2 hflag
    have h3 := afterRaise_progress { g1 with board := r.1 }
    simp only at h3
    rcases h3 with h3 | h3
    · rcases h1 with h1 | h1
      · left; omega
      · right
        have := afterRaise_score { g1 with board := r.1 }
        simp only at this
        omega
    · right; omega

theorem tryMoves_moved (b : Board) (i : Nat) (block : Block) (targetCol : Nat)
    (h : (b.tryMoves i block targetCol).2 = true) :
    ∃ newX : Int, newX ≠ block.x ∧ (b.tryMoves i block targetCol).1 = b.moveBlock i newX := by
  unfold Board.tryMoves at h ⊢
  split
  · rename_i hc
    exact ⟨(targetCol : Int), hc.2.1, rfl⟩
  · split
    · exact ⟨block.x - 1, by omega, rfl⟩
    · split
      · exact ⟨block.x + 1, by omega, rfl⟩
      · rename_i h1 h2 h3
        rw [if_neg h1, if_neg h2, if_neg h3] at h
        exact absurd h (by simp)

theorem moveBlock_get (b : Board) (i : Nat) (block : Block) (newX : Int)
    (h : b.blocks[i]? = some block) :
    (b.moveBlock i newX).blocks[i]? = some { block with x := newX } ∧
      (b.moveBlock i newX).blocks.length = b.blocks.length := by
  unfold Board.moveBlock
  rw [h]
  simp only [List.length_set]
  have hi : i < b.blocks.length := by
    rcases Nat.lt_or_ge i b.blocks.length with hi | hi
    · exact hi
    · rw [List.getElem?_eq_none hi] at h; exact absurd h (by simp)
  rw [List.getElem?_set_self hi]
  exact ⟨rfl, trivial⟩

theorem moveAndConfirm_progress (g : Game) (i targetCol : Nat) (s : Sys)
    (hanim : g.isAnimating = false)
    (hok : (g.moveAndConfirm i targetCol s).2.2 = true)
    (hplay : (g.moveAndConfirm i targetCol s).1.state = GameState.playing) :
    g.board.blocks.length < (g.moveAndConfirm i targetCol s).1.board.blocks.length ∨
      g.score < (g.moveAndConfirm i targetCol s).1.score := by
  unfold Game.moveAndConfirm at hok hplay ⊢
  cases hblk : g.board.blocks[i]? with
  | none =>
    rw [hblk] at hok
    exact absurd hok (by simp)
  | some block =>
    rw [hblk] at hok hplay
    simp only at hok hplay ⊢
    by_cases hm : (g.board.tryMoves i block targetCol).2 = true
    · rw [if_pos hm] at hplay ⊢
      simp only at hplay ⊢
      obtain ⟨newX, hne, hmv⟩ := tryMoves_moved g.board i block targetCol hm
      obtain ⟨hget, hlen⟩ := moveBlock_get g.board i block newX hblk
      generalize (g.board.tryMoves i block targetCol).1 = b1 at hmv hplay ⊢
      subst hmv
      have hacc := confirmMove_accepted
        { g with board := g.board.moveBlock i newX, selectedBlock := some i,
                 selectedBlockOriginalX := some block.x } s i { block with x := newX }
        hanim rfl hget
        (by
          have : ¬ (some block.x = some newX) := fun hh => hne (Option.some.inj hh).symm
          simp only [this, decide_False, Bool.and_false])
      rw [hacc] at hplay ⊢
      have hp := resolveTurn_progress _ s hplay
      simp only at hp
      rw [hlen] at hp
      exact hp
    · rw [if_neg hm] at hok
      exact absurd hok (by simp)

theorem performAIAction_progress (g : Game) (action : Action) (s : Sys)
    (hok : (g.performAIAction action s).2.2 = true)
    (hplay : (g.performAIAction action s).1.state = GameState.playing) :
    g.board.blocks.length < (g.performAIAction action s).1.board.blocks.length ∨
      g.score < (g.performAIAction action s).1.score := by
  unfold Game.performAIAction at hok hplay ⊢
  by_cases h1 : g.state ≠ GameState.playing ∨ g.isAnimating = true
  · rw [if_pos h1] at hok
    exact absurd hok (by simp)
  · rw [if_neg h1] at hok hplay ⊢
    by_cases h2 : g.board.playablePositions.length = 0
    · rw [if_pos h2] at hok
      exact absurd hok (by simp)
    · rw [if_neg h2] at hok hplay ⊢
      have hanim : g.isAnimating = false := by
        cases hh : g.isAnimating with
        | false => rfl
        | true => exact absurd (Or.inr hh) h1
      exact moveAndConfirm_progress g _ _ _ hanim hok hplay

/-- C27. The progress test of the runner agrees with success whenever the game goes
on: if `performAIAction` returns `true` and the state is `playing` afterwards, then
the board has strictly more pieces or the score is strictly higher than before,
so `turnProgressed` holds and the turn is not counted as a failure. No hypothesis
on the board is needed: after the shift of a successful raise no piece is in the
preview row, so the first placement attempt of `generatePreviewBlocks` succeeds
(`generatePreviewBlocks_grows`). -/
theorem success_is_progress (g : Game) (action : Action) (s : Sys)
    (hok : (g.performAIAction action s).2.2 = true)
    (hplay : (g.performAIAction action s).1.state = GameState.playing) :
    (g.board.blocks.length < (g.performAIAction action s).1.board.blocks.length ∨
      g.score < (g.performAIAction action s).1.score) ∧
    turnProgressed g (g.performAIAction action s).1 = true := by
  have h := performAIAction_progress g action s hok hplay
  refine ⟨h, ?_⟩
  unfold turnProgressed
  rcases h with h | h
  · simp only [gt_iff_lt, h, decide_True, Bool.true_or]
  · simp only [gt_iff_lt, h, decide_True, Bool.or_true]

theorem success_is_progress_witness :
    (headlessGame.performAIAction ⟨⟨0, 5⟩, 3⟩ sampleSys).2.2 = true ∧
    (headlessGame.performAIAction ⟨⟨0, 5⟩, 3⟩ sampleSys).1.state = GameState.playing ∧
    turnProgressed headlessGame (headlessGame.performAIAction ⟨⟨0, 5⟩, 3⟩ sampleSys).1 = true :=
  ⟨by decide!, by decide!,
    (success_is_progress headlessGame ⟨⟨0, 5⟩, 3⟩ sampleSys (by decide!) (by decide!)).2⟩

/-! ## A stall of a deterministic genome is permanent -/

theorem positionAt_of_getBlockAt (b : Board) (col row : Int) (p : Block)
    (h : b.getBlockAt col row = some p) : ∃ i, b.positionAt col row = some i := by
  unfold Board.getBlockAt at h
  unfold Board.positionAt
  cases hi : List.findIdx? (fun p => p.occupies col row) b.blocks with
  | some i => exact ⟨i, rfl⟩
  | none =>
    rw [List.findIdx?_eq_none_iff] at hi
    have hm := List.mem_of_find?_eq_some h
    have ho := List.find?_some h
    rw [hi p hm] at ho
    exact absurd ho (by simp)

theorem pickBlock_of_cell (g : Game) (action : Action) (s : Sys) (p : Block)
    (hrow : action.selectPos.row < 10)
    (hcell : g.board.getBlockAt (action.selectPos.col : Int) (action.selectPos.row : Int) =
      some p) :
    (g.pickBlock action s).2 = s := by
  obtain ⟨i, hi⟩ := positionAt_of_getBlockAt _ _ _ _ hcell
  unfold Game.pickBlock
  rw [if_pos hrow, hi]

theorem pickBlock_congr (g g' : Game) (action : Action) (s : Sys) (hb : g'.board = g.board) :
    g'.pickBlock action s = g.pickBlock action s := by
  unfold Game.pickBlock
  rw [hb]

theorem moveAndConfirm_flag (g : Game) (i targetCol : Nat) (s : Sys) :
    (g.moveAndConfirm i targetCol s).2.2 =
      (match g.board.blocks[i]? with
        | none => false
        | some block => (g.board.tryMoves i block targetCol).2) := by
  unfold Game.moveAndConfirm
  cases g.board.blocks[i]? with
  | none => rfl
  | some block =>
    simp only
    cases hm : (g.board.tryMoves i block targetCol).2 with
    | false => simp only [Bool.false_eq_true, if_false]
    | true => simp only [if_true]

theorem moveAndConfirm_sys (g : Game) (i targetCol : Nat) (s : Sys)
    (h : (g.moveAndConfirm i targetCol s).2.2 = false) :
    (g.moveAndConfirm i targetCol s).2.1 = s := by
  unfold Game.moveAndConfirm at h ⊢
  cases hblk : g.board.blocks[i]? with
  | none => rfl
  | some block =>
    rw [hblk] at h
    simp only at h ⊢
    cases hm : (g.board.tryMoves i block targetCol).2 with
    | false => simp only [Bool.false_eq_true, if_false]
    | true =>
      rw [hm] at h
      simp only [if_true] at h
      exact absurd h (by simp)

theorem performAIAction_flag_congr (g g' : Game) (action : Action) (s : Sys)
    (hb : g'.board = g.board) (hs : g'.state = g.state) (ha : g'.isAnimating = g.isAnimating) :
    (g'.performAIAction action s).2.2 = (g.performAIAction action s).2.2 := by
  unfold Game.performAIAction
  rw [hs, ha, hb, pickBlock_congr g g' action s hb]
  by_cases h1 : g.state ≠ GameState.playing ∨ g.isAnimating = true
  · rw [if_pos h1, if_pos h1]
  · rw [if_neg h1, if_neg h1]
    by_cases h2 : g.board.playablePositions.length = 0
    · rw [if_pos h2, if_pos h2]
    · rw [if_neg h2, if_neg h2, moveAndConfirm_flag, moveAndConfirm_flag, hb]

theorem performAIAction_sys (g : Game) (action : Action) (s : Sys) (p : Block)
    (hrow : action.selectPos.row < 10)
    (hcell : g.board.getBlockAt (action.selectPos.col : Int) (action.selectPos.row : Int) =
      some p)
    (hfail : (g.performAIAction action s).2.2 = false) :
    (g.performAIAction action s).2.1 = s := by
  unfold Game.performAIAction at hfail ⊢
  by_cases h1 : g.state ≠ GameState.playing ∨ g.isAnimating = true
  · rw [if_pos h1]
  · rw [if_neg h1] at hfail ⊢
    by_cases h2 : g.board.playablePositions.length = 0
    · rw [if_pos h2]
    · rw [if_neg h2] at hfail ⊢
      rw [pickBlock_of_cell g action s p hrow hcell] at hfail ⊢
      exact moveAndConfirm_sys g _ _ s hfail

theorem performAIAction_failed (g : Game) (action : Action) (s : Sys)
    (hfail : (g.performAIAction action s).2.2 = false) :
    (g.performAIAction action s).1.board = g.board ∧
    (g.performAIAction action s).1.score = g.score ∧
    (g.performAIAction action s).1.state = g.state ∧
    (g.performAIAction action s).1.isAnimating = g.isAnimating := by
  rcases performAIAction_false g action s hfail with h | h <;> rw [h] <;>
    exact ⟨rfl, rfl, rfl, rfl⟩

theorem stall_step {σ : Type} (activate : σ → List ℚ → List ℚ × σ)
    (hpure : ∀ (q q' : σ) (i : List ℚ), (activate q i).1 = (activate q' i).1)
    (st : RunState σ) (a : Action) (p : Block)
    (ha : parseAction (activate st.genome (getBoardState st.game.board)).1 = a)
    (hrow : a.selectPos.row < 10)
    (hcell : st.game.board.getBlockAt (a.selectPos.col : Int) (a.selectPos.row : Int) = some p)
    (hfail : (st.game.performAIAction a st.sys).2.2 = false) :
    (runIteration activate st).game.board = st.game.board ∧
    (runIteration activate st).game.score = st.game.score ∧
    (runIteration activate st).game.state = st.game.state ∧
    (runIteration activate st).sys = st.sys ∧
    (runIteration activate st).moveCount = st.moveCount + 1 ∧
    (runIteration activate st).consecutiveFailures = st.consecutiveFailures + 1 ∧
    parseAction (activate (runIteration activate st).genome
      (getBoardState (runIteration activate st).game.board)).1 = a ∧
    ((runIteration activate st).game.performAIAction a (runIteration activate st).sys).2.2 =
      false := by
  obtain ⟨f1, f2, f3, f4⟩ := performAIAction_failed st.game a st.sys hfail
  have f5 := performAIAction_sys st.game a st.sys p hrow hcell hfail
  have hprog : turnProgressed st.game (st.game.performAIAction a st.sys).1 = false := by
    unfold turnProgressed
    rw [f1, f2]
    simp only [gt_iff_lt, lt_self_iff_false, decide_False, Bool.or_self]
  have hrun : runIteration activate st =
      { game := (st.game.performAIAction a st.sys).1, sys := (st.game.performAIAction a st.sys).2.1,
        genome := (activate st.genome (getBoardState st.game.board)).2,
        moveCount := st.moveCount + 1, consecutiveFailures := st.consecutiveFailures + 1 } := by
    unfold runIteration
    simp only
    rw [ha, hprog]
    simp only [Bool.not_false, if_true]
  rw [hrun]
  simp only
  refine ⟨f1, f2, f3, f5, trivial, trivial, ?_, ?_⟩
  · rw [f1, hpure _ st.genome, ha]
  · rw [f5, performAIAction_flag_congr st.game _ a st.sys f1 f3 f4, hfail]

theorem stall_iterate {σ : Type} (activate : σ → List ℚ → List ℚ × σ)
    (hpure : ∀ (q q' : σ) (i : List ℚ), (activate q i).1 = (activate q' i).1)
    (a : Action) (p : Block) (hrow : a.selectPos.row < 10) :
    ∀ (n : Nat) (st : RunState σ),
      parseAction (activate st.genome (getBoardState st.game.board)).1 = a →
      st.game.board.getBlockAt (a.selectPos.col : Int) (a.selectPos.row : Int) = some p →
      (st.game.performAIAction a st.sys).2.2 = false →
      ((runIteration activate)^[n] st).game.board = st.game.board ∧
      ((runIteration activate)^[n] st).game.score = st.game.score ∧
      ((runIteration activate)^[n] st).sys = st.sys ∧
      ((runIteration activate)^[n] st).consecutiveFailures = st.consecutiveFailures + n ∧
      parseAction (activate ((runIteration activate)^[n] st).genome
        (getBoardState ((runIteration activate)^[n] st).game.board)).1 = a ∧
      (((runIteration activate)^[n] st).game.performAIAction a
        ((runIteration activate)^[n] st).sys).2.2 = false := by
  intro n
  induction n with
  | zero =>
    intro st ha _ hfail
    exact ⟨rfl, rfl, rfl, rfl, ha, hfail⟩
  | succ n ih =>
    intro st ha hcell hfail
    obtain ⟨e1, e2, _, e4, _, e6, e7, e8⟩ := stall_step activate hpure st a p ha hrow hcell hfail
    rw [Function.iterate_succ_apply]
    obtain ⟨i1, i2, i3, i4, i5, i6⟩ :=
      ih (runIteration activate st) e7 (by rw [e1]; exact hcell) e8
    exact ⟨by rw [i1, e1], by rw [i2, e2], by rw [i3, e4], by rw [i4, e6]; omega, i5, i6⟩

theorem stall_runLoop {σ : Type} (activate : σ → List ℚ → List ℚ × σ)
    (hpure : ∀ (q q' : σ) (i : List ℚ), (activate q i).1 = (activate q' i).1)
    (a : Action) (p : Block) (hrow : a.selectPos.row < 10) :
    ∀ (fuel : Nat) (st : RunState σ),
      parseAction (activate st.genome (getBoardState st.game.board)).1 = a →
      st.game.board.getBlockAt (a.selectPos.col : Int) (a.selectPos.row : Int) = some p →
      (st.game.performAIAction a st.sys).2.2 = false →
      (runLoop activate fuel st).game.board = st.game.board ∧
      (runLoop activate fuel st).game.score = st.game.score ∧
      (runLoop activate fuel st).game.state = st.game.state := by
  intro fuel
  induction fuel with
  | zero =>
    intro st _ _ _
    exact ⟨rfl, rfl, rfl⟩
  | succ n ih =>
    intro st ha hcell hfail
    unfold runLoop
    by_cases hc : st.continues = true
    · rw [if_pos hc]
      obtain ⟨e1, e2, e3, _, _, _, e7, e8⟩ :=
        stall_step activate hpure st a p ha hrow hcell hfail
      obtain ⟨i1, i2, i3⟩ := ih (runIteration activate st) e7 (by rw [e1]; exact hcell) e8
      exact ⟨by rw [i1, e1], by rw [i2, e2], by rw [i3, e3]⟩
    · rw [if_neg hc]
      exact ⟨rfl, rfl, rfl⟩

/-- C28. A stall is permanent for a deterministic genome. Let the outputs of
`activate` depend on the inputs only, and let `st` be the state of the loop of
`runGameInstance` at an iteration (`st.continues`) in which `performAIAction`
returns `false` on the decoded action `a` while a piece occupies the select cell
of `a` in a playable row. Then after any number `n` of further iterations the
board, the score and the decoded action are the same, `performAIAction` fails
again and the failures have been counted up by `n`; and the loop leaves the board
and the score as they are and ends in state `playing` with the failure cap or the
move cap reached. -/
theorem stall_is_permanent {σ : Type} (activate : σ → List ℚ → List ℚ × σ)
    (hpure : ∀ (q q' : σ) (i : List ℚ), (activate q i).1 = (activate q' i).1)
    (st : RunState σ) (a : Action) (p : Block) (fuel : Nat)
    (hcont : st.continues = true)
    (ha : parseAction (activate st.genome (getBoardState st.game.board)).1 = a)
    (hrow : a.selectPos.row < 10)
    (hcell : st.game.board.getBlockAt (a.selectPos.col : Int) (a.selectPos.row : Int) = some p)
    (hfail : (st.game.performAIAction a st.sys).2.2 = false)
    (hfuel : st.moveCount + fuel = 500) :
    (∀ n : Nat,
      ((runIteration activate)^[n] st).game.board = st.game.board ∧
      ((runIteration activate)^[n] st).game.score = st.game.score ∧
      ((runIteration activate)^[n] st).consecutiveFailures = st.consecutiveFailures + n ∧
      parseAction (activate ((runIteration activate)^[n] st).genome
        (getBoardState ((runIteration activate)^[n] st).game.board)).1 = a ∧
      (((runIteration activate)^[n] st).game.performAIAction a
        ((runIteration activate)^[n] st).sys).2.2 = false) ∧
    (runLoop activate fuel st).game.board = st.game.board ∧
    (runLoop activate fuel st).game.score = st.game.score ∧
    (runLoop activate fuel st).game.state = GameState.playing ∧
    (10 ≤ (runLoop activate fuel st).consecutiveFailures ∨
      500 ≤ (runLoop activate fuel st).moveCount) := by
  have hplay : st.game.state = GameState.playing := by
    unfold RunState.continues at hcont
    simp only [Bool.and_eq_true, decide_eq_true_eq] at hcont
    exact hcont.1.1
  obtain ⟨l1, l2, l3⟩ := stall_runLoop activate hpure a p hrow fuel st ha hcell hfail
  have hexit := (runLoop_exit activate fuel st hfuel).1
  refine ⟨?_, l1, l2, by rw [l3, hplay], ?_⟩
  · intro n
    obtain ⟨i1, i2, _, i4, i5, i6⟩ := stall_iterate activate hpure a p hrow n st ha hcell hfail
    exact ⟨i1, i2, i4, i5, i6⟩
  · unfold RunState.continues at hexit
    rw [l3, hplay] at hexit
    simp only [decide_True, Bool.true_and, Bool.and_eq_false_iff, decide_eq_false_iff_not,
      Nat.not_lt] at hexit
    rcases hexit with h | h
    · right; exact h
    · left; exact h

theorem stall_is_permanent_witness :
    stalledRun.continues = true ∧
    (stalledRun.game.performAIAction ⟨⟨0, 9⟩, 1⟩ stalledRun.sys).2.2 = false ∧
    (runLoop constantGenome 499 stalledRun).game.board = stalledRun.game.board ∧
    (runLoop constantGenome 499 stalledRun).game.score = stalledRun.game.score ∧
    (runLoop constantGenome 499 stalledRun).game.state = GameState.playing ∧
    (10 ≤ (runLoop constantGenome 499 stalledRun).consecutiveFailures ∨
      500 ≤ (runLoop constantGenome 499 stalledRun).moveCount) :=
  ⟨by decide!, by decide!,
    (stall_is_permanent constantGenome (fun _ _ _ => rfl) stalledRun ⟨⟨0, 9⟩, 1⟩ ⟨0, 9, 1, 2⟩
      499 (by decide!) (by decide!) (by decide) (by decide!) (by decide!) rfl).2⟩

/-! ## Moves of the agent are not path-checked -/

/-- C29. Horizontal moves by the agent are not path-checked: there are a game whose
board has unique ids, no overlap and all pieces inside the grid, an action and a
global state such that `performAIAction` selects the piece `p` at position `i`,
a different piece `q` lies in the same row strictly between the span of `p` and
the span of `p` at the decoded target column, `canMoveBlock` accepts the target
column all the same, the move attempts move `p` there, `performAIAction` returns
`true`, and the piece with the id of `p` is at the target column afterwards. -/
theorem move_not_path_checked :
    ∃ (g : Game) (action : Action) (s : Sys) (i : Nat) (p q : Block),
      g.board.UniqueIds ∧ g.board.NonOverlap ∧ g.board.InGrid ∧
      (g.pickBlock action s).1 = i ∧ g.board.blocks[i]? = some p ∧
      q ∈ g.board.blocks ∧ q.id ≠ p.id ∧ q.y = p.y ∧
      p.x + (p.width : Int) ≤ q.x ∧ q.x + (q.width : Int) ≤ (action.targetCol : Int) ∧
      0 < q.width ∧
      g.board.canMoveBlock p (action.targetCol : Int) = true ∧
      g.board.tryMoves i p action.targetCol =
        (g.board.moveBlock i (action.targetCol : Int), true) ∧
      (g.performAIAction action s).2.2 = true ∧
      ∃ p1 ∈ (g.performAIAction action s).1.board.blocks,
        p1.id = p.id ∧ p1.x = (action.targetCol : Int) := by
  refine ⟨jumpGame, ⟨⟨0, 9⟩, 3⟩, sampleSys, 0, ⟨0, 9, 1, 1⟩, ⟨1, 9, 1, 2⟩, by decide, ?_, ?_,
    by decide!, by decide!, by decide!, by decide, by decide, by decide, by decide, by decide,
    by decide!, by decide!, by decide!, ⟨⟨3, 9, 1, 1⟩, by decide!, by decide, by decide⟩⟩
  · simp [Board.NonOverlap, jumpGame, overlaps_iff]
  · simp [Board.InGrid, Block.InGrid, jumpGame]

/-! ## A cascade after the second clearing pass -/

/-- C30. Cascades after the second clearing pass are left on the board: there are a
headless game in play and a global state, the board settled, without a complete
row, with unique ids, no overlap, all pieces inside the grid and a preview row,
and a piece selected, such that `confirmMove` ends in state `playing`, the board
after the raise and its gravity has the complete row 8 only, which is scored as
one line and cleared, no row is complete when row 8 has been removed, and at the
end of the turn row 9 is complete, on the board and not scored. -/
theorem cascade_left_on_board :
    ∃ (g : Game) (s : Sys) (i : Nat) (p : Block),
      g.board.UniqueIds ∧ g.board.NonOverlap ∧ g.board.InGrid ∧
      g.board.applyGravity = g.board ∧ g.board.checkCompleteLines = [] ∧
      (∃ q ∈ g.board.blocks, q.y = 10) ∧
      g.state = GameState.playing ∧ g.skipAnimations = true ∧ g.isAnimating = false ∧
      g.selectedBlock = some i ∧ g.board.blocks[i]? = some p ∧
      (g.confirmMove s).1.state = GameState.playing ∧
      ((instantRaiseBlocks g.board s).1.applyGravity).checkCompleteLines = [8] ∧
      (((instantRaiseBlocks g.board s).1.applyGravity).removeRows [8]).checkCompleteLines = [] ∧
      (g.confirmMove s).1.board =
        (((instantRaiseBlocks g.board s).1.applyGravity).clearLines [8]).applyGravity ∧
      (g.confirmMove s).1.board.checkCompleteLines = [9] ∧
      (g.confirmMove s).1.score = g.score + (calculateScore 1 : Int) := by
  refine ⟨cascadeGame, cascadeSys, 4, ⟨4, 7, 1, 5⟩, by decide, ?_, ?_, by decide!, by decide!,
    ⟨⟨0, 10, 3, 6⟩, by decide, by decide⟩, by decide, by decide, by decide, by decide,
    by decide, by decide!, by decide!, by decide!, by decide!, by decide!, by decide!⟩
  · simp [Board.NonOverlap, cascadeGame, cascadeBoard, overlaps_iff]
  · simp [Board.InGrid, Block.InGrid, cascadeGame, cascadeBoard]

/-! ## One bottom-first pass settles a board without overlap -/

theorem dropScan_stop (b : Board) (blk : Block) :
    ∀ (n : Nat) (y t : Int), t = y - 1 →
      b.dropScan blk n y t = y + (n : Int) - 1 ∨
        (b.dropScan blk n y t < y + (n : Int) - 1 ∧
          b.canFit blk (b.dropScan blk n y t + 1) = false) := by
  intro n
  induction n with
  | zero =>
    intro y t ht
    left
    unfold Board.dropScan
    simp only [Nat.cast_zero]
    omega
  | succ n ih =>
    intro y t ht
    unfold Board.dropScan
    by_cases hc : b.canFit blk y = true
    · rw [if_pos hc]
      rcases ih (y + 1) y (by omega) with h | h
      · left
        rw [h]
        simp only [Nat.cast_add, Nat.cast_one]
        omega
      · right
        refine ⟨?_, h.2⟩
        have := h.1
        simp only [Nat.cast_add, Nat.cast_one]
        omega
    · rw [if_neg hc]
      right
      refine ⟨by simp only [Nat.cast_add, Nat.cast_one]; omega, ?_⟩
      have e : t + 1 = y := by omega
      rw [e]
      simpa using hc

theorem dropTarget_rest (b : Board) (blk : Block) (hy : blk.y < 10) :
    b.dropTarget blk = 9 ∨
      (b.dropTarget blk < 9 ∧ b.canFit blk (b.dropTarget blk + 1) = false) := by
  unfold Board.dropTarget
  have hn : (((10 - (blk.y + 1)).toNat : Nat) : Int) = 10 - (blk.y + 1) :=
    Int.toNat_of_nonneg (by omega)
  rcases dropScan_stop b blk (10 - (blk.y + 1)).toNat (blk.y + 1) blk.y (by omega) with h | h
  · left
    rw [h, hn]
    omega
  · right
    refine ⟨?_, h.2⟩
    have := h.1
    rw [hn] at this
    omega

theorem canFit_blocked (b : Board) (h : b.NoClash) (p o : Block) (c r : Int)
    (ho : o ∈ b.blocks) (hocc : o.occupies c r = true) (hid : o.id ≠ p.id)
    (h1 : p.x ≤ c) (h2 : c < p.x + (p.width : Int)) : b.canFit p r = false := by
  cases hc : b.canFit p r with
  | false => rfl
  | true =>
    rcases cellFreeFor_true b p c r (canFit_true b p r hc c h1 h2) with hfree | ⟨q, hq, hqo, hqid⟩
    · rw [hfree o ho] at hocc
      exact absurd hocc (by simp)
    · exact absurd ⟨hocc, hqo⟩ (h o ho q hq (by rw [hqid]; exact hid) c r)

theorem dropBlock_get_ne (b : Board) (i k : Nat) (h : k ≠ i) :
    (b.dropBlock i).1.blocks[k]? = b.blocks[k]? := by
  unfold Board.dropBlock
  cases hb : b.blocks[i]? with
  | none => rfl
  | some blk =>
    simp only
    rw [List.getElem?_set_ne (Ne.symm h)]

theorem dropBlock_get_self (b : Board) (i : Nat) (p : Block) (h : b.blocks[i]? = some p) :
    (b.dropBlock i).1.blocks[i]? = some { p with y := b.dropTarget p } := by
  unfold Board.dropBlock
  rw [h]
  simp only
  have hi : i < b.blocks.length := by
    rcases Nat.lt_or_ge i b.blocks.length with hi | hi
    · exact hi
    · rw [List.getElem?_eq_none hi] at h; exact absurd h (by simp)
  rw [List.getElem?_set_self hi]

theorem restsOn_mono (b b' : Board) (done done' : List Nat) (i : Nat)
    (hsub : ∀ j ∈ done, j ∈ done') (hi : b'.blocks[i]? = b.blocks[i]?)
    (hsame : ∀ j ∈ done, b'.blocks[j]? = b.blocks[j]?) (h : b.RestsOn done i) :
    b'.RestsOn done' i := by
  obtain ⟨p, hp, hr⟩ := h
  refine ⟨p, by rw [hi]; exact hp, ?_⟩
  rcases hr with hr | ⟨h9, c, j, o, hj, ho, h1, h2, h3, h4⟩
  · left; exact hr
  · right
    exact ⟨h9, c, j, o, hsub j hj, by rw [hsame j hj]; exact ho, h1, h2, h3, h4⟩

theorem lowered_playable (b cur : Board) (h : b.LoweredTo cur) (j : Nat)
    (hj : j < cur.blocks.length) (hrow : cur.rowAt j < 10) :
    j < b.blocks.length ∧ b.rowAt j < 10 := by
  have hj' : j < b.blocks.length := by rw [← h.1]; exact hj
  refine ⟨hj', ?_⟩
  obtain ⟨q, hq, _, _, _, h4, _⟩ := h.2 j b.blocks[j] (List.getElem?_eq_getElem hj')
  rw [rowAt_of_get cur j q hq] at hrow
  rw [rowAt_of_get b j _ (List.getElem?_eq_getElem hj')]
  by_contra hcon
  have := h4 (by omega)
  omega

theorem gravityFold_rests (b : Board) :
    ∀ (rest done : List Nat) (cur : Board) (flag : Bool),
      (done ++ rest).Nodup →
      (rest.Pairwise (fun i j => b.rowAt j ≤ b.rowAt i)) →
      b.LoweredTo cur → cur.NoClash →
      (∀ k ∈ rest, cur.blocks[k]? = b.blocks[k]?) →
      (∀ k ∈ rest, k < b.blocks.length ∧ b.rowAt k < 10) →
      (∀ j : Nat, j < b.blocks.length → b.rowAt j < 10 → j ∈ done ∨ j ∈ rest) →
      (∀ i ∈ done, cur.RestsOn done i) →
      (rest.foldl Board.gravityStep (cur, flag)).1.NoClash ∧
      b.LoweredTo (rest.foldl Board.gravityStep (cur, flag)).1 ∧
      ∀ i ∈ done ++ rest,
        (rest.foldl Board.gravityStep (cur, flag)).1.RestsOn (done ++ rest) i := by
  intro rest
  induction rest with
  | nil =>
    intro done cur flag _ _ hlow hnc _ _ _ hrest
    simp only [List.foldl_nil, List.append_nil]
    exact ⟨hnc, hlow, hrest⟩
  | cons i rest ih =>
    intro done cur flag hnd hsorted hlow hnc hsame hplay hcover hrest
    have hnd' : ((done ++ [i]) ++ rest).Nodup := by
      rw [List.append_assoc]; exact hnd
    have hi_done : i ∉ done := by
      intro hmem
      have := (List.nodup_append.1 hnd).2.2
      exact this hmem (List.mem_cons_self _ _)
    have hi_rest : i ∉ rest := by
      have := (List.nodup_append.1 hnd).2.1
      exact (List.nodup_cons.1 this).1
    obtain ⟨hilt, hirow⟩ := hplay i (List.mem_cons_self _ _)
    have hpi : cur.blocks[i]? = some b.blocks[i] := by
      rw [hsame i (List.mem_cons_self _ _)]
      exact List.getElem?_eq_getElem hilt
    have hpy : (b.blocks[i]).y < 10 := by
      rw [rowAt_of_get b i _ (List.getElem?_eq_getElem hilt)] at hirow
      exact hirow
    have hstep := ih (done ++ [i]) (cur.dropBlock i).1 (flag || (cur.dropBlock i).2) hnd'
      (List.Pairwise.of_cons hsorted)
      (Board.loweredTo_trans _ _ _ hlow (dropBlock_lowered cur i))
      (dropBlock_noClash cur hnc i)
      (fun k hk => by
        rw [dropBlock_get_ne cur i k (fun e => hi_rest (e ▸ hk))]
        exact hsame k (List.mem_cons_of_mem _ hk))
      (fun k hk => hplay k (List.mem_cons_of_mem _ hk))
      (fun j hj hrow => by
        rcases hcover j hj hrow with h | h
        · left; exact List.mem_append_left _ h
        · rcases List.mem_cons.1 h with h | h
          · left; rw [h]; exact List.mem_append_right _ (List.mem_singleton_self _)
          · right; exact h)
      (fun k hk => by
        rcases List.mem_append.1 hk with hk | hk
        · refine restsOn_mono cur _ done _ k (fun j hj => List.mem_append_left _ hj)
            (dropBlock_get_ne cur i k (fun e => hi_done (e ▸ hk)))
            (fun j hj => dropBlock_get_ne cur i j (fun e => hi_done (e ▸ hj))) (hrest k hk)
        · have hki : k = i := List.mem_singleton.1 hk
          subst hki
          refine ⟨_, dropBlock_get_self cur k _ hpi, ?_⟩
          simp only
          rcases dropTarget_rest cur b.blocks[k] hpy with h9 | ⟨h9, hblocked⟩
          · left; exact h9
          · right
            refine ⟨h9, ?_⟩
            obtain ⟨c, o, ho, h1, h2, hocc, hid⟩ := canFit_false cur _ _ hblocked
            obtain ⟨j, hjlt, hjget⟩ := List.getElem_of_mem ho
            have hoj : cur.blocks[j]? = some o := by
              rw [List.getElem?_eq_getElem hjlt, hjget]
            have hoy : o.y = cur.dropTarget b.blocks[k] + 1 := ((occupies_iff o c _).1 hocc).1
            have hjplay := lowered_playable b cur hlow j hjlt
              (by rw [rowAt_of_get cur j o hoj]; omega)
            have hjk : j ≠ k := by
              intro e
              rw [e, hpi] at hoj
              injection hoj with hoj
              exact hid (by rw [hoj])
            have hjdone : j ∈ done := by
              rcases hcover j hjplay.1 hjplay.2 with h | h
              · exact h
              · rcases List.mem_cons.1 h with h | h
                · exact absurd h hjk
                · exfalso
                  have hle := List.rel_of_pairwise_cons hsorted h
                  have hbj : b.blocks[j]? = some o := by
                    rw [← hsame j (List.mem_cons_of_mem _ h)]; exact hoj
                  rw [rowAt_of_get b j o hbj,
                    rowAt_of_get b k _ (List.getElem?_eq_getElem hilt)] at hle
                  rcases dropTarget_spec cur b.blocks[k] with hd | hd
                  · omega
                  · omega
            exact ⟨c, j, o, List.mem_append_left _ hjdone,
              by rw [dropBlock_get_ne cur k j hjk]; exact hoj, h1, h2, hocc, hid⟩)
    have hfold : (List.foldl Board.gravityStep (cur, flag) (i :: rest)) =
        List.foldl Board.gravityStep ((cur.dropBlock i).1, flag || (cur.dropBlock i).2) rest :=
      rfl
    have happ : done ++ i :: rest = (done ++ [i]) ++ rest := by
      rw [List.append_assoc]; rfl
    rw [hfold, happ]
    exact hstep

theorem sortedBlocks_nodup (b : Board) : b.sortedBlocks.Nodup := by
  unfold Board.sortedBlocks
  rw [(List.perm_insertionSort _ _).nodup_iff]
  exact List.Nodup.filter _ (List.nodup_range _)

theorem sortedBlocks_sorted (b : Board) :
    b.sortedBlocks.Pairwise (fun i j => b.rowAt j ≤ b.rowAt i) := by
  unfold Board.sortedBlocks
  haveI : IsTotal Nat (fun (i j : Nat) => b.rowAt j ≤ b.rowAt i) :=
    ⟨fun i j => le_total (b.rowAt j) (b.rowAt i)⟩
  haveI : IsTrans Nat (fun (i j : Nat) => b.rowAt j ≤ b.rowAt i) :=
    ⟨fun i j k h1 h2 => le_trans h2 h1⟩
  exact List.sorted_insertionSort (fun (i j : Nat) => b.rowAt j ≤ b.rowAt i) _

theorem gravityFold_none_moves :
    ∀ (l : List Nat) (st : Board × Bool), (∀ i ∈ l, (st.1.dropBlock i).2 = false) →
      l.foldl Board.gravityStep st = st := by
  intro l
  induction l with
  | nil => intro st _; rfl
  | cons i l ih =>
    intro st h
    have h0 := h i (List.mem_cons_self _ _)
    have hs : Board.gravityStep st i = st := by
      unfold Board.gravityStep
      rw [h0, dropBlock_still st.1 i h0, Bool.or_false]
    rw [List.foldl_cons, hs]
    exact ih st (fun k hk => h k (List.mem_cons_of_mem _ hk))

theorem restsOn_still (b : Board) (h : b.NoClash) (done : List Nat) (i : Nat)
    (hr : b.RestsOn done i) : (b.dropBlock i).2 = false := by
  obtain ⟨p, hp, hr⟩ := hr
  rw [dropBlock_flag b i p hp]
  have ht : b.dropTarget p = p.y := by
    rcases hr with h9 | ⟨h9, c, j, o, _, ho, h1, h2, hocc, hid⟩
    · unfold Board.dropTarget
      rw [h9]
      rfl
    · have hblocked := canFit_blocked b h p o c (p.y + 1) (List.getElem?_mem ho) hocc hid h1 h2
      unfold Board.dropTarget
      have hn : (10 - (p.y + 1)).toNat = (10 - (p.y + 1)).toNat - 1 + 1 := by omega
      rw [hn]
      unfold Board.dropScan
      rw [hblocked]
      simp only [Bool.false_eq_true, if_false]
  rw [ht]
  simp only [ne_eq, not_true_eq_false, decide_False]

theorem gravityPass_settles (b : Board) (h : b.NoClash) :
    ((b.gravityPass).1).gravityPass = ((b.gravityPass).1, false) := by
  obtain ⟨hnc, hlow, hrests⟩ := gravityFold_rests b b.sortedBlocks [] b false
    (by rw [List.nil_append]; exact sortedBlocks_nodup b) (sortedBlocks_sorted b)
    b.loweredTo_refl h (fun _ _ => rfl) (fun k hk => (mem_sortedBlocks b k).1 hk)
    (fun j hj hrow => Or.inr ((mem_sortedBlocks b j).2 ⟨hj, hrow⟩))
    (fun i hi => absurd hi (List.not_mem_nil i))
  rw [List.nil_append] at hrests
  have hpass : (b.gravityPass).1 = (b.sortedBlocks.foldl Board.gravityStep (b, false)).1 := rfl
  rw [← hpass] at hnc hlow hrests
  generalize (b.gravityPass).1 = fin at hnc hlow hrests ⊢
  unfold Board.gravityPass
  apply gravityFold_none_moves
  intro i hi
  have := (mem_sortedBlocks fin i).1 hi
  have hib := lowered_playable b fin hlow i this.1 this.2
  exact restsOn_still fin hnc _ i (hrests i ((mem_sortedBlocks b i).2 hib))

theorem applyGravity_eq_pass (b : Board) (h : b.NoClash) :
    b.applyGravity = (b.gravityPass).1 := by
  unfold Board.applyGravity
  unfold Board.gravityLoop
  split
  · cases hs : b.slack with
    | zero => rfl
    | succ n => exact gravityLoop_of_stable _ (gravityPass_settles b h) n
  · rfl

/-- C24. A single bottom-first pass suffices: on a board of which no two pieces
overlap, `applyGravity` returns the board after one pass of `dropBlock` over the
playable pieces in descending order of rows, and a second pass moves no piece:
it returns that board with `anyMoved = false`. -/
theorem single_pass_suffices (b : Board) (h : b.NonOverlap) :
    b.applyGravity = (b.gravityPass).1 ∧
    ((b.gravityPass).1).gravityPass = ((b.gravityPass).1, false) ∧
    ∀ i ∈ (b.gravityPass).1.sortedBlocks, (((b.gravityPass).1).dropBlock i).2 = false := by
  have hs := gravityPass_settles b (NonOverlap.noClash b h)
  refine ⟨applyGravity_eq_pass b (NonOverlap.noClash b h), hs, ?_⟩
  exact gravityPass_none_moves _ (by rw [hs])

theorem single_pass_suffices_witness :
    sampleBoard.NonOverlap ∧ (sampleBoard.gravityPass).2 = true ∧
    sampleBoard.applyGravity = (sampleBoard.gravityPass).1 ∧
    ((sampleBoard.gravityPass).1).gravityPass = ((sampleBoard.gravityPass).1, false) :=
  ⟨sampleBoard_nonOverlap, by decide,
    (single_pass_suffices sampleBoard sampleBoard_nonOverlap).1,
    (single_pass_suffices sampleBoard sampleBoard_nonOverlap).2.1⟩

/-! ## Two boards on one counter: overlap and the collision test -/

set_option maxRecDepth 100000 in
/-- C3, failing input. Board A of `sharedCounterRaise` (two boards on the one
counter `Block.nextId`) holds the pieces 3 at (0, 9) and 3 at (0, 10) and no two
of its pieces share a cell. At its next raise the shift gives a board without
overlap, and the `applyGravity` that `instantRaiseBlocks` then calls lets the
piece 3 of row 8 fall into the cell (0, 9) of the other piece 3. After a turn of
the agent on A instead, the two pieces 3 lie side by side without overlap,
`canMoveBlock` accepts the move of one onto the other, and the guarded move
leaves two pieces on (1, 9). -/
theorem nonOverlap_lost_with_shared_counter :
    sharedCounterRaise.1.NonOverlap ∧ hasBlockAtTop sharedCounterRaise.1 = false ∧
    sharedCounterShift.blocks = [⟨0, 6, 1, 1⟩, ⟨0, 7, 1, 2⟩, ⟨0, 8, 1, 3⟩, ⟨0, 9, 1, 3⟩] ∧
    sharedCounterShift.NonOverlap ∧
    (sharedCounterShift.applyGravity).blocks =
      [⟨0, 7, 1, 1⟩, ⟨0, 8, 1, 2⟩, ⟨0, 9, 1, 3⟩, ⟨0, 9, 1, 3⟩] ∧
    ¬ (sharedCounterShift.applyGravity).NonOverlap ∧
    sharedCounterTurn.1.board.NonOverlap ∧
    sharedCounterTurn.1.board.blocks[3]? = some ⟨0, 9, 1, 3⟩ ∧
    sharedCounterTurn.1.board.canMoveBlock ⟨0, 9, 1, 3⟩ 1 = true ∧
    ¬ (sharedCounterTurn.1.board.moveBlock 3 1).NonOverlap := by
  have h0 : sharedCounterRaise.1.blocks =
      [⟨0, 7, 1, 1⟩, ⟨0, 8, 1, 2⟩, ⟨0, 9, 1, 3⟩, ⟨0, 10, 1, 3⟩] := by decide!
  have h1 : sharedCounterShift.blocks =
      [⟨0, 6, 1, 1⟩, ⟨0, 7, 1, 2⟩, ⟨0, 8, 1, 3⟩, ⟨0, 9, 1, 3⟩] := by decide!
  have h2 : (sharedCounterShift.applyGravity).blocks =
      [⟨0, 7, 1, 1⟩, ⟨0, 8, 1, 2⟩, ⟨0, 9, 1, 3⟩, ⟨0, 9, 1, 3⟩] := by decide!
  have h3 : sharedCounterTurn.1.board.blocks =
      [⟨0, 7, 1, 1⟩, ⟨0, 8, 1, 2⟩, ⟨1, 9, 1, 3⟩, ⟨0, 9, 1, 3⟩, ⟨0, 10, 1, 4⟩] := by decide!
  have h4 : (sharedCounterTurn.1.board.moveBlock 3 1).blocks =
      [⟨0, 7, 1, 1⟩, ⟨0, 8, 1, 2⟩, ⟨1, 9, 1, 3⟩, ⟨1, 9, 1, 3⟩, ⟨0, 10, 1, 4⟩] := by decide!
  refine ⟨?_, by decide!, h1, ?_, h2, ?_, ?_, by decide!, by decide!, ?_⟩
  · unfold Board.NonOverlap; rw [h0]; simp [overlaps_iff]
  · unfold Board.NonOverlap; rw [h1]; simp [overlaps_iff]
  · unfold Board.NonOverlap; rw [h2]; simp [overlaps_iff]
  · unfold Board.NonOverlap; rw [h3]; simp [overlaps_iff]
  · unfold Board.NonOverlap; rw [h4]; simp [overlaps_iff]

set_option maxRecDepth 100000 in
/-- C9, failing input. After one turn of the agent on board A of
`sharedCounterRaise` the board holds two pieces with id 3, at (1, 9) (position 2)
and at (0, 9) (position 3). For the next action, select (0, 9) and move to column
1, `performAIAction` picks the piece at position 3, and `canMoveBlock` returns
`true` for it and column 1 although the cell (1, 9) is occupied by the piece at
position 2 and not by the piece itself: the right-hand side of the claim is
false. The piece is moved, and two pieces lie on (1, 9). -/
theorem canMoveBlock_accepts_occupied_cell :
    sharedCounterTurn.2.2 = true ∧
    sharedCounterTurn.1.board.blocks =
      [⟨0, 7, 1, 1⟩, ⟨0, 8, 1, 2⟩, ⟨1, 9, 1, 3⟩, ⟨0, 9, 1, 3⟩, ⟨0, 10, 1, 4⟩] ∧
    (sharedCounterTurn.1.pickBlock ⟨⟨0, 9⟩, 1⟩ sharedCounterTurn.2.1).1 = 3 ∧
    sharedCounterTurn.1.board.canMoveBlock ⟨0, 9, 1, 3⟩ 1 = true ∧
    Block.occupies ⟨1, 9, 1, 3⟩ 1 9 = true ∧ Block.occupies ⟨0, 9, 1, 3⟩ 1 9 = false ∧
    ¬ ((0 : Int) ≤ 1 ∧ (1 : Int) + ((1 : Nat) : Int) ≤ 8 ∧
      ∀ c : Int, 1 ≤ c → c < 1 + ((1 : Nat) : Int) →
        (∀ q ∈ sharedCounterTurn.1.board.blocks, q.occupies c 9 = false) ∨
          Block.occupies ⟨0, 9, 1, 3⟩ c 9 = true) ∧
    (sharedCounterTurn.1.performAIAction ⟨⟨0, 9⟩, 1⟩ sharedCounterTurn.2.1).2.2 = true ∧
    (sharedCounterTurn.1.performAIAction ⟨⟨0, 9⟩, 1⟩ sharedCounterTurn.2.1).1.board.blocks =
      [⟨0, 7, 1, 1⟩, ⟨0, 8, 1, 2⟩, ⟨1, 9, 1, 3⟩, ⟨1, 9, 1, 3⟩, ⟨0, 9, 1, 4⟩,
        ⟨0, 10, 1, 5⟩] := by
  have h3 : sharedCounterTurn.1.board.blocks =
      [⟨0, 7, 1, 1⟩, ⟨0, 8, 1, 2⟩, ⟨1, 9, 1, 3⟩, ⟨0, 9, 1, 3⟩, ⟨0, 10, 1, 4⟩] := by decide!
  refine ⟨by decide!, h3, by decide!, by decide!, by decide, by decide, ?_, by decide!,
    by decide!⟩
  rintro ⟨_, _, h⟩
  rcases h 1 (by decide) (by decide) with h | h
  · have := h ⟨1, 9, 1, 3⟩ (by rw [h3]; decide)
    exact absurd this (by decide)
  · exact absurd h (by decide)

end FallingPuzzle
